import Mathlib

/-!
Process-runner: output store, broadcaster, runner and server.

A shallow embedding of the parts of `SanjoDeundiak/process-runner` that the
specification's contract properties talk about.

* `output_storage`: `broadcaster.go` and `output_storage.go`.  Goroutines are
  program counters, Go channels are buffers with a capacity and a closed flag,
  and one scheduler label (`Action`) picks the goroutine that takes its next
  atomic step: one channel operation, one atomic load or store, or one
  critical section of `broadcaster.mu` that touches only the fields the mutex
  guards.  The linked list is the list of its nodes' data and a cursor is the
  number of nodes before it.  `Broadcaster.Unsubscribe` is not part of the
  store's system: `output_storage.go` never calls it.  The broadcaster with
  every one of its callers (`Subscribe`, `Unsubscribe`, `Publish`, `Stop`, the
  consumers) is the system `Hub`.  `writer.go` is modelled over a memory of
  backing arrays, so that a slice stored by reference and a copy differ.
  `System` has one appender; `SharedStore` is the store in the heap, with
  `next` pointers and the field `tail`, on which any number of goroutines
  call `Append`.
* `unicode`, `strings`: the functions of the Go standard library that the
  code below calls, over strings that are valid UTF-8.
* `runner`: `runner_start.go`, `runner_status.go`, `runner_stop.go`.  Calls and
  the waiter goroutine are steps of one relation; each step holds at most one
  access to the registry or to an entry's status fields.  The clock and the
  answers of the operating system are parameters of the steps.
  `initCgroupsImpl` of `linux_utils.go` is a function of the answers of the
  file system.
* `server`: `auth.go` and the ownership map of `server.go`.
* `cli`: `printStatusTable` of `cmd/cli/print.go`, as the lines it prints.
-/

set_option autoImplicit false

namespace output_storage

/-! ## Go channels -/

/-- A Go channel: the buffered values (oldest first), the capacity given to
`make`, and whether `close` has been called. -/
structure Chan (T : Type) where
  buf : List T
  cap : Nat
  closed : Bool
deriving DecidableEq, Repr

/-- Go `make(chan T, cap)`. -/
def Chan.make (T : Type) (cap : Nat) : Chan T := ⟨[], cap, false⟩

/-- Whether a buffered send can complete at once. -/
def Chan.hasRoom {T : Type} (c : Chan T) : Bool := c.buf.length < c.cap

/-- The channel after a value has been enqueued. -/
def Chan.push {T : Type} (c : Chan T) (v : T) : Chan T := { c with buf := c.buf ++ [v] }

/-- The channel after its oldest buffered value (if any) has been dequeued. -/
def Chan.pop {T : Type} (c : Chan T) : Chan T := { c with buf := c.buf.tail }

/-- The channel after `close`. -/
def Chan.close {T : Type} (c : Chan T) : Chan T := { c with closed := true }

/-! ## broadcaster.go -/

/-- Program counter of the dispatcher goroutine `Broadcaster.start`. -/
inductive DispPc (T : Type) where
  /-- Blocked at `case msg, ok := <-messageReceiver`. -/
  | recv
  /-- Received `msg` with `ok`; about to lock and copy the subscriber map. -/
  | snapshot (msg : T)
  /-- In `for _, s := range subscribers`; `pending` are the channels not yet served. -/
  | sending (msg : T) (pending : List Nat)
  /-- In the `default` branch for channel `cur`, at the inner `select`. -/
  | drain (msg : T) (cur : Nat) (pending : List Nat)
  /-- At the blocking `s <- msg` for channel `cur`. -/
  | resend (msg : T) (cur : Nat) (pending : List Nat)
  /-- Received `!ok`; about to take the mutex. -/
  | stopping
  /-- Holds the mutex, in `for subscriberSender := range broadcaster.subscribers`. -/
  | closing (pending : List Nat)
  /-- Returned. -/
  | exited
deriving DecidableEq, Repr

/-- Program counter of a goroutine inside `Broadcaster.Publish`. -/
inductive PubPc (T : Type) where
  /-- At the outer `select` (non-blocking send). -/
  | trySend (msg : T)
  /-- In the `default` branch, at the inner `select` (non-blocking receive). -/
  | drain (msg : T)
  /-- At the blocking `broadcaster.messageReceiver <- msg`. -/
  | resend (msg : T)
deriving DecidableEq, Repr

/-- State of a `Broadcaster[T]` together with its dispatcher goroutine.
Subscriber channels are named by their index in `chans`; `subscribers` is the
key set of the Go map.  `panicked` records a run-time panic (send on a closed
channel, close of a closed channel). -/
structure Broadcaster (T : Type) where
  messageReceiver : Chan T
  subscribers : List Nat
  stopped : Bool
  chans : List (Chan T)
  disp : DispPc T
  panicked : Bool
deriving DecidableEq, Repr

/-- Go `RunNewBroadcaster`: inbox of capacity 1, empty map, dispatcher started. -/
def RunNewBroadcaster (T : Type) : Broadcaster T :=
  { messageReceiver := Chan.make T 1, subscribers := [], stopped := false,
    chans := [], disp := .recv, panicked := false }

/-- Whether the dispatcher holds `broadcaster.mu` (it does only in its closing loop). -/
def Broadcaster.muHeld {T : Type} (b : Broadcaster T) : Bool :=
  match b.disp with
  | .closing _ => true
  | _ => false

/-- Replace subscriber channel `i`. -/
def Broadcaster.setChan {T : Type} (b : Broadcaster T) (i : Nat) (c : Chan T) : Broadcaster T :=
  { b with chans := b.chans.set i c }

/-- The statements `ch := make(chan T, 1)` and
`broadcaster.subscribers[ch] = struct{}{}`: the new channel gets the next free
index. -/
def Broadcaster.register {T : Type} (b : Broadcaster T) : Broadcaster T :=
  { b with chans := b.chans ++ [Chan.make T 1],
           subscribers := b.subscribers ++ [b.chans.length] }

/-- Go `Broadcaster.Subscribe`: `none` while the mutex is held by the dispatcher;
otherwise the new state and the new channel, or no channel (the error) when
`stopped`. -/
def Broadcaster.Subscribe {T : Type} (b : Broadcaster T) : Option (Broadcaster T × Option Nat) :=
  if b.muHeld then none
  else if b.stopped then some (b, none)
  else some (b.register, some b.chans.length)

/-- Go `Broadcaster.Stop`: `close(broadcaster.messageReceiver)`. -/
def Broadcaster.Stop {T : Type} (b : Broadcaster T) : Broadcaster T :=
  if b.messageReceiver.closed then { b with panicked := true }
  else { b with messageReceiver := b.messageReceiver.close }

/-- One atomic step of a goroutine inside `Broadcaster.Publish`: the new
broadcaster and the goroutine's next program counter (`none` once `Publish`
has returned); no result when the step is blocked. -/
def Broadcaster.publishStep {T : Type} (b : Broadcaster T) :
    PubPc T → Option (Broadcaster T × Option (PubPc T))
  | .trySend msg =>
    if b.messageReceiver.closed then some ({ b with panicked := true }, none)
    else if b.messageReceiver.hasRoom then
      some ({ b with messageReceiver := b.messageReceiver.push msg }, none)
    else some (b, some (.drain msg))
  | .drain msg => some ({ b with messageReceiver := b.messageReceiver.pop }, some (.resend msg))
  | .resend msg =>
    if b.messageReceiver.closed then some ({ b with panicked := true }, none)
    else if b.messageReceiver.hasRoom then
      some ({ b with messageReceiver := b.messageReceiver.push msg }, none)
    else none

/-- One atomic step of the dispatcher goroutine.  `pick` is the subscriber
channel chosen next where the Go code ranges over a map (the order is not
specified); it is ignored elsewhere. -/
def Broadcaster.dispStep {T : Type} (b : Broadcaster T) (pick : Nat) : Option (Broadcaster T) :=
  match b.disp with
  | .recv =>
    match b.messageReceiver.buf with
    | msg :: _ => some { b with messageReceiver := b.messageReceiver.pop, disp := .snapshot msg }
    | [] => if b.messageReceiver.closed then some { b with disp := .stopping } else none
  | .snapshot msg => some { b with disp := .sending msg b.subscribers }
  | .sending msg pending =>
    match pending with
    | [] => some { b with disp := .recv }
    | _ :: _ =>
      if pick ∈ pending then
        match b.chans[pick]? with
        | none => none
        | some c =>
          if c.closed then some { b with panicked := true }
          else if c.hasRoom then
            some { b.setChan pick (c.push msg) with disp := .sending msg (pending.erase pick) }
          else some { b with disp := .drain msg pick (pending.erase pick) }
      else none
  | .drain msg cur pending =>
    match b.chans[cur]? with
    | none => none
    | some c => some { b.setChan cur c.pop with disp := .resend msg cur pending }
  | .resend msg cur pending =>
    match b.chans[cur]? with
    | none => none
    | some c =>
      if c.closed then some { b with panicked := true }
      else if c.hasRoom then some { b.setChan cur (c.push msg) with disp := .sending msg pending }
      else none
  | .stopping => some { b with disp := .closing b.subscribers }
  | .closing pending =>
    match pending with
    | [] => some { b with stopped := true, disp := .exited }
    | _ :: _ =>
      if pick ∈ pending then
        match b.chans[pick]? with
        | none => none
        | some c =>
          if c.closed then some { b with panicked := true }
          else some { b.setChan pick c.close with disp := .closing (pending.erase pick) }
      else none
  | .exited => none

/-! ## output_storage.go -/

/-- A byte slice. -/
abbrev Chunk := List Nat

/-- Program counter of a subscriber goroutine (`subscribeRunningProcess` or
`subscribeStoppedProcess`). -/
inductive SubPc where
  /-- At `current := prev.next.Load()`. -/
  | load
  /-- After `current == nil` on the running path: at `_, ok := <-notifier`. -/
  | wait
  /-- After `prev = current`: at `ch <- current.data`. -/
  | send (data : Chunk)
  /-- At `close(ch)`. -/
  | close
  /-- Returned. -/
  | done
deriving DecidableEq, Repr

/-- A subscriber goroutine started by `OutputStorage.Subscribe`.  `notifier` is
the broadcaster channel of the running path, absent on the stopped path;
`prev` is the cursor, as the number of nodes between the sentinel head and it;
`ch` is the output channel.  `sent` and `delivered` are history variables: all
chunks sent on `ch` so far, and all chunks received from `ch` so far. -/
structure Subscriber where
  notifier : Option Nat
  prev : Nat
  pc : SubPc
  ch : Chan Chunk
  sent : List Chunk
  delivered : List Chunk
deriving DecidableEq, Repr

/-- An `OutputStorage` with its goroutines, for a single appender: the calls of
`Append` do not overlap.  `nodes` is the data of the nodes linked after the
sentinel head, in list order (so `tail` is the last one); `publishing` is the
appender goroutine when it is inside `Publish`.  The store on which `Append`
is called from several goroutines at once is `SharedStore`. -/
structure System where
  nodes : List Chunk
  broadcaster : Broadcaster Unit
  publishing : Option (PubPc Unit)
  subs : List Subscriber
deriving DecidableEq, Repr

/-- Go `RunNewOutputStorage`. -/
def RunNewOutputStorage : System :=
  { nodes := [], broadcaster := RunNewBroadcaster Unit, publishing := none, subs := [] }

/-- One atomic step of subscriber goroutine `sub`: the new broadcaster and
subscriber; no result when the step is blocked or the goroutine has returned. -/
def subscriberStep (nodes : List Chunk) (b : Broadcaster Unit) (sub : Subscriber) :
    Option (Broadcaster Unit × Subscriber) :=
  match sub.pc with
  | .load =>
    match nodes[sub.prev]? with
    | some data => some (b, { sub with prev := sub.prev + 1, pc := .send data })
    | none =>
      match sub.notifier with
      | some _ => some (b, { sub with pc := .wait })
      | none => some (b, { sub with pc := .close })
  | .wait =>
    match sub.notifier with
    | none => none
    | some n =>
      match b.chans[n]? with
      | none => none
      | some c =>
        match c.buf with
        | _ :: _ => some (b.setChan n c.pop, { sub with pc := .load })
        | [] => if c.closed then some (b, { sub with pc := .close }) else none
  | .send data =>
    if sub.ch.closed then none
    else if sub.ch.hasRoom then
      some (b, { sub with ch := sub.ch.push data, sent := sub.sent ++ [data], pc := .load })
    else none
  | .close =>
    if sub.ch.closed then none
    else some (b, { sub with ch := sub.ch.close, pc := .done })
  | .done => none

/-- Scheduler labels: which goroutine takes its next atomic step. -/
inductive Action where
  /-- The appender calls `Append(data)`: the node is linked (lines 66-69) and
  the goroutine enters `Publish`.  With one appender only it reads and writes
  `tail`, so lines 68 and 69 are one step to every other goroutine. -/
  | append (data : Chunk)
  /-- The appender takes its next step inside `Publish`. -/
  | publish
  /-- Go `OutputStorage.Stop`. -/
  | stop
  /-- The dispatcher takes its next step. -/
  | dispatch (pick : Nat)
  /-- Go `OutputStorage.Subscribe(capacity)`. -/
  | subscribe (capacity : Nat)
  /-- Subscriber goroutine `k` takes its next step. -/
  | subscriber (k : Nat)
  /-- Subscriber goroutine `k` completes `ch <- current.data` by handing the
  chunk to a consumer blocked in a receive on `ch`. -/
  | handoff (k : Nat)
  /-- The consumer of subscriber `k` receives the oldest buffered chunk. -/
  | consume (k : Nat)
deriving DecidableEq, Repr

/-- One atomic step of the system.  No step is taken after a panic. -/
def step (s : System) (a : Action) : Option System :=
  if s.broadcaster.panicked then none
  else
    match a with
    | .append data =>
      match s.publishing with
      | some _ => none
      | none => some { s with nodes := s.nodes ++ [data], publishing := some (.trySend ()) }
    | .publish =>
      match s.publishing with
      | none => none
      | some pc =>
        match s.broadcaster.publishStep pc with
        | none => none
        | some (b, pc') => some { s with broadcaster := b, publishing := pc' }
    | .stop => some { s with broadcaster := s.broadcaster.Stop }
    | .dispatch pick =>
      match s.broadcaster.dispStep pick with
      | none => none
      | some b => some { s with broadcaster := b }
    | .subscribe capacity =>
      match s.broadcaster.Subscribe with
      | none => none
      | some (b, notifier) =>
        let sub : Subscriber :=
          { notifier := notifier, prev := 0, pc := .load, ch := Chan.make Chunk capacity,
            sent := [], delivered := [] }
        some { s with broadcaster := b, subs := s.subs ++ [sub] }
    | .subscriber k =>
      match s.subs[k]? with
      | none => none
      | some sub =>
        match subscriberStep s.nodes s.broadcaster sub with
        | none => none
        | some (b, sub') => some { s with broadcaster := b, subs := s.subs.set k sub' }
    | .handoff k =>
      match s.subs[k]? with
      | none => none
      | some sub =>
        match sub.pc with
        | .send data =>
          if sub.ch.closed ∨ sub.ch.buf ≠ [] then none
          else
            let sub' : Subscriber :=
              { sub with sent := sub.sent ++ [data], delivered := sub.delivered ++ [data],
                         pc := .load }
            some { s with subs := s.subs.set k sub' }
        | _ => none
    | .consume k =>
      match s.subs[k]? with
      | none => none
      | some sub =>
        match sub.ch.buf with
        | [] => none
        | data :: _ =>
          let sub' : Subscriber :=
            { sub with ch := sub.ch.pop, delivered := sub.delivered ++ [data] }
          some { s with subs := s.subs.set k sub' }

/-- Run a schedule from a state; `none` when some step of it cannot be taken. -/
def run (s : System) : List Action → Option System
  | [] => some s
  | a :: rest =>
    match step s a with
    | none => none
    | some s' => run s' rest

/-- The usage the supervisor guarantees (`runner_start.go`: the reaper stops a
store only after `cmd.Wait()` has returned, which waits for the copying
goroutine): `Stop` is not called while `Append` is in progress, and `Append`
is not called after `Stop`. -/
def allowed (s : System) : Action → Bool
  | .append _ => !s.broadcaster.messageReceiver.closed
  | .stop => s.publishing.isNone
  | _ => true

/-- Run a schedule that respects `allowed`. -/
def exec (s : System) : List Action → Option System
  | [] => some s
  | a :: rest =>
    if allowed s a then
      match step s a with
      | none => none
      | some s' => exec s' rest
    else none

/-- The data of the `append` steps of a schedule, in order: the byte slices the
appender has passed to `Append`. -/
def appended : List Action → List Chunk
  | [] => []
  | .append data :: rest => data :: appended rest
  | _ :: rest => appended rest

/-- The loop of `OutputStorage.ForEach` from the node `cur` on, `nodes` being
the data of `cur` and of the nodes after it.  An iterator is a Go closure: it
gets the slice and the state it has captured, and returns whether to go on
and the new state. -/
def forEachFrom {σ : Type} (iter : Chunk → σ → Bool × σ) : List Chunk → σ → σ
  | [], st => st
  | data :: rest, st =>
    match iter data st with
    | (true, st') => forEachFrom iter rest st'
    | (false, st') => st'

/-- Go `OutputStorage.ForEach`, run while no `Append` is in progress; a nil
receiver and a nil iterator are `none`.  The result is the state of the
iterator afterwards. -/
def ForEach {σ : Type} (s : Option System) (iter : Option (Chunk → σ → Bool × σ)) (st : σ) : σ :=
  match s, iter with
  | some s, some iter => forEachFrom iter s.nodes st
  | _, _ => st

/-- The iterator `iter` made to record, besides its own state, every slice it
is called on and what it returned. -/
def traced {σ : Type} (iter : Chunk → σ → Bool × σ) :
    Chunk → σ × List (Chunk × Bool) → Bool × (σ × List (Chunk × Bool)) :=
  fun data st =>
    match iter data st.1 with
    | (goOn, st') => (goOn, (st', st.2 ++ [(data, goOn)]))

/-- The iterator of a predicate `f` on slices, which captures no state. -/
def pureIter (f : Chunk → Bool) : Chunk → Unit → Bool × Unit :=
  fun data _ => (f data, ())

/-- Go `OutputStorage.Bytes`: the first pass gathers the slices and their total
length with `ForEach`, the second appends them to `out`. -/
def Bytes (s : Option System) : List Nat :=
  let gathered : List Chunk × Nat :=
    ForEach s (some fun b st => (true, (st.1 ++ [b], st.2 + b.length))) ([], 0)
  gathered.1.foldl (fun out b => out ++ b) []

/-! ## Invariants of the output store -/

/-- The cursor of a subscriber against the node list: the cursor is within the
list, the consumer's history and the buffered chunks make up what was sent, the
output channel is closed only by the returning goroutine, and what was sent is
the list up to the cursor (up to the node before it while that node's chunk is
still to be sent). -/
def Subscriber.wf (nodes : List Chunk) (sub : Subscriber) : Prop :=
  sub.prev ≤ nodes.length ∧
  sub.delivered ++ sub.ch.buf = sub.sent ∧
  (sub.ch.closed = true → sub.pc = .done) ∧
  match sub.pc with
  | .send d => ∃ m, sub.prev = m + 1 ∧ nodes[m]? = some d ∧ sub.sent = nodes.take m
  | _ => sub.sent = nodes.take sub.prev

/-- The dispatcher has seen the inbox closed. -/
def DispPc.halting {T : Type} : DispPc T → Prop
  | .stopping => True
  | .closing _ => True
  | .exited => True
  | _ => False

/-- The dispatcher holds a message that it has yet to send on channel `n`. -/
def DispPc.targets {T : Type} : DispPc T → Nat → Prop
  | .snapshot _, _ => True
  | .sending _ pending, n => n ∈ pending
  | .drain _ cur pending, n => cur = n ∨ n ∈ pending
  | .resend _ cur pending, n => cur = n ∨ n ∈ pending
  | _, _ => False

/-- Invariant of a broadcaster whose `Publish` is never called after `Stop`:
once the dispatcher has seen the inbox closed the inbox stays closed and empty,
`stopped` is set only by the returning dispatcher, and subscriber channels are
closed only from then on. -/
structure Broadcaster.Inv {T : Type} (b : Broadcaster T) : Prop where
  halting_inbox : b.disp.halting → b.messageReceiver.closed = true ∧ b.messageReceiver.buf = []
  stopped_exited : b.stopped = true → b.disp = .exited
  closed_halting :
    ∀ (n : Nat) (c : Chan T), b.chans[n]? = some c → c.closed = true → b.disp.halting

/-- A token is buffered in subscriber channel `n` or on its way to it. -/
def Broadcaster.covers {T : Type} (b : Broadcaster T) (n : Nat) : Prop :=
  (∃ c : Chan T, b.chans[n]? = some c ∧ c.buf ≠ []) ∨ b.disp.targets n ∨
    b.messageReceiver.buf ≠ []

/-- Subscriber channel `n` will see a token: one is buffered or on its way, or
the appender is inside `Publish`. -/
def Covered (s : System) (n : Nat) : Prop :=
  s.broadcaster.covers n ∨ s.publishing ≠ none

/-- Invariant of the system under the supervisor's usage (`exec`). -/
structure System.Inv (s : System) : Prop where
  binv : s.broadcaster.Inv
  wf : ∀ (k : Nat) (sub : Subscriber), s.subs[k]? = some sub → sub.wf s.nodes
  pub_idle : s.broadcaster.messageReceiver.closed = true → s.publishing = none
  notif : ∀ (k : Nat) (sub : Subscriber) (n : Nat), s.subs[k]? = some sub →
    sub.notifier = some n → n < s.broadcaster.chans.length ∧ n ∈ s.broadcaster.subscribers
  notif_inj : ∀ (i j : Nat) (si sj : Subscriber) (n : Nat), s.subs[i]? = some si →
    s.subs[j]? = some sj → si.notifier = some n → sj.notifier = some n → i = j
  covered : ∀ (k : Nat) (sub : Subscriber) (n : Nat), s.subs[k]? = some sub →
    sub.notifier = some n → sub.pc = .wait → sub.prev < s.nodes.length → Covered s n
  fin : ∀ (k : Nat) (sub : Subscriber), s.subs[k]? = some sub →
    sub.pc = .close ∨ sub.pc = .done →
    sub.prev = s.nodes.length ∧ s.broadcaster.messageReceiver.closed = true
  stoppedPath : ∀ (k : Nat) (sub : Subscriber), s.subs[k]? = some sub →
    sub.notifier = none → s.broadcaster.messageReceiver.closed = true

/-! ## Schedules used below -/

/-- The schedule on which subscriber goroutine `k`, at its load with `m` nodes
ahead of its cursor, hands each of them to a receiving consumer and then
closes its channel. -/
def replaySchedule (k : Nat) : Nat → List Action
  | 0 => [.subscriber k, .subscriber k]
  | m + 1 => .subscriber k :: .handoff k :: replaySchedule k m

/-- A schedule in which one chunk is appended and the broadcaster stops. -/
def stoppedSchedule : List Action :=
  [.append [104, 105], .publish, .stop, .dispatch 0, .dispatch 0, .dispatch 0, .dispatch 0,
   .dispatch 0, .dispatch 0]

/-- The state `stoppedSchedule` leads to. -/
def stoppedSystem : System :=
  { nodes := [[104, 105]],
    broadcaster :=
      { messageReceiver := ⟨[], 1, true⟩, subscribers := [], stopped := true, chans := [],
        disp := .exited, panicked := false },
    publishing := none,
    subs := [] }

/-- A store with the nodes `nodes`, no subscriber and an idle broadcaster. -/
def quietSystem (nodes : List Chunk) : System :=
  { nodes := nodes, broadcaster := RunNewBroadcaster Unit, publishing := none, subs := [] }

/-- A store with the nodes `nodes` and no subscriber whose broadcaster has stopped. -/
def frozenSystem (nodes : List Chunk) : System :=
  { nodes := nodes,
    broadcaster :=
      { messageReceiver := ⟨[], 1, true⟩, subscribers := [], stopped := true, chans := [],
        disp := .exited, panicked := false },
    publishing := none, subs := [] }

/-- The schedule that appends the chunks one by one, letting the dispatcher
take each token, and then stops the store. -/
def fillSchedule : List Chunk → List Action
  | [] => [.stop, .dispatch 0, .dispatch 0, .dispatch 0]
  | c :: rest =>
    .append c :: .publish :: .dispatch 0 :: .dispatch 0 :: .dispatch 0 :: fillSchedule rest

/-- A schedule with a subscriber on the running path that is woken for one
chunk and then sees the store stop. -/
def liveSchedule : List Action :=
  [.subscribe 2, .append [111, 107], .publish, .dispatch 0, .dispatch 0, .dispatch 0,
   .dispatch 0, .subscriber 0, .subscriber 0, .subscriber 0, .subscriber 0, .subscriber 0,
   .stop, .dispatch 0, .dispatch 0, .dispatch 0, .dispatch 0, .subscriber 0, .subscriber 0]

/-- The subscriber of `liveSchedule` at its end. -/
def liveSubscriber : Subscriber :=
  { notifier := some 0, prev := 1, pc := .done, ch := ⟨[[111, 107]], 2, true⟩,
    sent := [[111, 107]], delivered := [] }

/-- The state `liveSchedule` leads to. -/
def liveSystem : System :=
  { nodes := [[111, 107]],
    broadcaster :=
      { messageReceiver := ⟨[], 1, true⟩, subscribers := [0], stopped := true,
        chans := [⟨[], 1, true⟩], disp := .exited, panicked := false },
    publishing := none,
    subs := [liveSubscriber] }

/-- The iterator of `TestAppendAndForEach_OrderAndEarlyStop`: it counts its
calls in its state and returns `calls < 2`. -/
def twoCalls : Chunk → Nat → Bool × Nat := fun _ calls => (decide (calls + 1 < 2), calls + 1)

/-! ## writer.go, and the calls of a store with their receiver -/

/-- A Go byte slice: the address of its backing array, its offset in the
array, and its length. -/
structure Slice where
  array : Nat
  off : Nat
  len : Nat
deriving DecidableEq, Repr

/-- The backing arrays of the byte slices, by address. -/
abbrev Memory := List (List Nat)

/-- The bytes of a slice. -/
def Slice.bytes (mem : Memory) (p : Slice) : Chunk :=
  ((mem.getD p.array []).drop p.off).take p.len

/-- The assignment `p[i] = v`. -/
def Memory.assign (mem : Memory) (p : Slice) (i v : Nat) : Memory :=
  if i < p.len then mem.set p.array ((mem.getD p.array []).set (p.off + i) v) else mem

/-- The expression `append([]byte(nil), p...)` for a non-empty `p`: a new
backing array with the bytes of `p`, and the slice of it. -/
def copyOf (mem : Memory) (p : Slice) : Memory × Slice :=
  (mem ++ [p.bytes mem], { array := mem.length, off := 0, len := p.len })

/-- The rest of a call of `Publish` by the appender, run with no other
goroutine in between: `none` when the call does not return, because it blocks
or panics. -/
def returnFromPublish : Nat → System → Option System
  | 0, s => if s.publishing.isNone ∧ ¬ s.broadcaster.panicked then some s else none
  | fuel + 1, s =>
    match s.publishing with
    | none => if s.broadcaster.panicked then none else some s
    | some _ =>
      match step s .publish with
      | none => none
      | some s' => returnFromPublish fuel s'

/-- Go `OutputStorage.Append`, run to its return with no other goroutine in
between; a nil receiver is `none`, and there is no result when the call does
not return. -/
def OutputStorage.Append (s : Option System) (data : Chunk) : Option (Option System) :=
  match s with
  | none => some none
  | some s =>
    match step s (.append data) with
    | none => none
    | some s' => (returnFromPublish 3 s').map some

/-- Go `OutputStorage.Stop`; a nil receiver is `none`, and there is no result
when the call panics. -/
def OutputStorage.Stop (s : Option System) : Option (Option System) :=
  match s with
  | none => some none
  | some s =>
    match step s .stop with
    | none => none
    | some s' => if s'.broadcaster.panicked then none else some (some s')

/-- An `OutputStorage` in memory: `data` is the field `data` of each linked
node, a slice, in list order; the node list of `sys` holds the bytes each
slice had when its node was linked. -/
structure Stored where
  data : List Slice
  sys : System
deriving DecidableEq, Repr

/-- The content of a store: the bytes that its nodes hold now. -/
def Stored.content (mem : Memory) (s : Stored) : List Chunk := s.data.map (Slice.bytes mem)

/-- Go `OutputStorage.Append` in memory: the node holds the slice it is given. -/
def Stored.Append (mem : Memory) (s : Option Stored) (data : Slice) : Option (Option Stored) :=
  match s with
  | none => some none
  | some s =>
    match OutputStorage.Append (some s.sys) (data.bytes mem) with
    | some (some sys) => some (some { data := s.data ++ [data], sys := sys })
    | _ => none

/-- Go `OutputStorage.Write`: what it returns, the memory and the store
afterwards; there is no result when the call does not return. -/
def OutputStorage.Write (mem : Memory) (s : Option Stored) (p : Slice) :
    Option ((Nat × Option String) × Memory × Option Stored) :=
  match s with
  | none => some ((p.len, none), mem, none)
  | some s =>
    if p.len = 0 then some ((0, none), mem, some s)
    else
      let cp := copyOf mem p
      match Stored.Append cp.1 (some s) cp.2 with
      | none => none
      | some s' => some ((p.len, none), cp.1, s')

/-- The inbox has capacity 1 and holds at most one token, and while it is open
nothing has panicked, the dispatcher has not seen it closed, and every
subscriber channel is open. -/
def Broadcaster.Sane {T : Type} (b : Broadcaster T) : Prop :=
  b.messageReceiver.cap = 1 ∧ b.messageReceiver.buf.length ≤ 1 ∧
  (b.messageReceiver.closed = false →
    b.panicked = false ∧ ¬ b.disp.halting ∧
      ∀ (n : Nat) (c : Chan T), b.chans[n]? = some c → c.closed = false)


/-- A schedule outside the supervisor's usage: the store is stopped while the
appender is between linking a node and `Publish`, and a subscriber on the
running path sees its notifier closed. -/
def racingSchedule : List Action :=
  [.subscribe 1, .subscriber 0, .append [120], .stop, .dispatch 0, .dispatch 0, .dispatch 0,
   .dispatch 0, .subscriber 0, .subscriber 0]

/-- The state `racingSchedule` leads to. -/
def racedSystem : System :=
  { nodes := [[120]],
    broadcaster :=
      { messageReceiver := ⟨[], 1, true⟩, subscribers := [0], stopped := true,
        chans := [⟨[], 1, true⟩], disp := .exited, panicked := false },
    publishing := some (.trySend ()),
    subs := [{ notifier := some 0, prev := 0, pc := .done, ch := ⟨[], 1, true⟩, sent := [],
               delivered := [] }] }

/-- The part of `liveSchedule` up to the point where the subscriber is about
to see its notifier closed. -/
def waitingSchedule : List Action :=
  [.subscribe 2, .append [111, 107], .publish, .dispatch 0, .dispatch 0, .dispatch 0,
   .dispatch 0, .subscriber 0, .subscriber 0, .subscriber 0, .subscriber 0, .subscriber 0,
   .stop, .dispatch 0, .dispatch 0, .dispatch 0, .dispatch 0]

/-- The subscriber of `waitingSchedule` at its end. -/
def waitingSubscriber : Subscriber :=
  { notifier := some 0, prev := 1, pc := .wait, ch := ⟨[[111, 107]], 2, false⟩,
    sent := [[111, 107]], delivered := [] }

/-- The state `waitingSchedule` leads to. -/
def waitingSystem : System :=
  { nodes := [[111, 107]],
    broadcaster :=
      { messageReceiver := ⟨[], 1, true⟩, subscribers := [0], stopped := true,
        chans := [⟨[], 1, true⟩], disp := .exited, panicked := false },
    publishing := none,
    subs := [waitingSubscriber] }

/-- A new store after `Stop`, before the dispatcher has run. -/
def stoppedNew : System :=
  { nodes := [],
    broadcaster :=
      { messageReceiver := ⟨[], 1, true⟩, subscribers := [], stopped := false,
        chans := [], disp := .recv, panicked := false },
    publishing := none,
    subs := [] }

/-- The store `stoppedNew` after `Write` has linked its node and its `Publish`
has sent on the closed inbox. -/
def panickedWrite : System :=
  { nodes := [[104, 105]],
    broadcaster :=
      { messageReceiver := ⟨[], 1, true⟩, subscribers := [], stopped := false,
        chans := [], disp := .recv, panicked := true },
    publishing := none,
    subs := [] }


/-! ## The broadcaster with its callers -/

/-- The critical section of `Broadcaster.Unsubscribe` (lines 99-102): `none`
while the mutex is held by the dispatcher; otherwise the new state and the
value read from `stopped`. -/
def Broadcaster.Unsubscribe {T : Type} (b : Broadcaster T) (subscriberSender : Nat) :
    Option (Broadcaster T × Bool) :=
  if b.muHeld then none
  else some ({ b with subscribers := b.subscribers.erase subscriberSender }, b.stopped)

/-- The statement `close(subscriberSender)` of `Broadcaster.Unsubscribe` (line
104). -/
def Broadcaster.closeSender {T : Type} (b : Broadcaster T) (subscriberSender : Nat) :
    Option (Broadcaster T) :=
  match b.chans[subscriberSender]? with
  | none => none
  | some c =>
    if c.closed then some { b with panicked := true }
    else some (b.setChan subscriberSender c.close)

/-- A call of `Broadcaster.Unsubscribe` that has left its critical section:
`closing` while it is at `close(subscriberSender)`, having read `stopped` as
false; otherwise it has returned. -/
structure Unsubscriber where
  subscriberSender : Nat
  closing : Bool
deriving DecidableEq, Repr

/-- A `Broadcaster[T]` with the goroutines that call it: the calls of `Publish`,
each with its program counter (`none` once it has returned), and the calls of
`Unsubscribe`. -/
structure Hub (T : Type) where
  broadcaster : Broadcaster T
  publishers : List (Option (PubPc T))
  unsubscribers : List Unsubscriber
deriving DecidableEq, Repr

/-- A new broadcaster, with no caller yet. -/
def Hub.new (T : Type) : Hub T :=
  { broadcaster := RunNewBroadcaster T, publishers := [], unsubscribers := [] }

/-- Scheduler labels of a broadcaster with its callers. -/
inductive HubAction (T : Type) where
  /-- A goroutine calls `Subscribe()`. -/
  | subscribe
  /-- A goroutine calls `Unsubscribe(ch)` on a channel that `Subscribe` has
  returned, and runs its critical section. -/
  | unsubscribe (ch : Nat)
  /-- Call `k` of `Unsubscribe` closes its channel and returns. -/
  | close (k : Nat)
  /-- A goroutine calls `Publish(msg)` and stands at the outer `select`. -/
  | publish (msg : T)
  /-- Call `k` of `Publish` takes its next step. -/
  | publisher (k : Nat)
  /-- Go `Broadcaster.Stop`. -/
  | stop
  /-- The dispatcher takes its next step. -/
  | dispatch (pick : Nat)
  /-- A consumer receives the message buffered in subscriber channel `ch`. -/
  | receive (ch : Nat)
deriving DecidableEq, Repr

/-- One atomic step of a broadcaster with its callers.  No step is taken after
a panic. -/
def Hub.step {T : Type} (h : Hub T) (a : HubAction T) : Option (Hub T) :=
  if h.broadcaster.panicked then none
  else
    match a with
    | .subscribe =>
      match h.broadcaster.Subscribe with
      | none => none
      | some (b, _) => some { h with broadcaster := b }
    | .unsubscribe ch =>
      if ch < h.broadcaster.chans.length then
        match h.broadcaster.Unsubscribe ch with
        | none => none
        | some (b, stopped) =>
          some { h with broadcaster := b,
                        unsubscribers := h.unsubscribers ++ [⟨ch, !stopped⟩] }
      else none
    | .close k =>
      match h.unsubscribers[k]? with
      | none => none
      | some u =>
        if u.closing then
          match h.broadcaster.closeSender u.subscriberSender with
          | none => none
          | some b =>
            some { h with broadcaster := b,
                          unsubscribers := h.unsubscribers.set k { u with closing := false } }
        else none
    | .publish msg => some { h with publishers := h.publishers ++ [some (.trySend msg)] }
    | .publisher k =>
      match h.publishers[k]? with
      | some (some pc) =>
        match h.broadcaster.publishStep pc with
        | none => none
        | some (b, pc') => some { h with broadcaster := b, publishers := h.publishers.set k pc' }
      | _ => none
    | .stop => some { h with broadcaster := h.broadcaster.Stop }
    | .dispatch pick =>
      match h.broadcaster.dispStep pick with
      | none => none
      | some b => some { h with broadcaster := b }
    | .receive ch =>
      match h.broadcaster.chans[ch]? with
      | none => none
      | some c =>
        match c.buf with
        | [] => none
        | _ :: _ => some { h with broadcaster := h.broadcaster.setChan ch c.pop }

/-- Run a schedule from a state; `none` when some step of it cannot be taken. -/
def Hub.run {T : Type} (h : Hub T) : List (HubAction T) → Option (Hub T)
  | [] => some h
  | a :: rest =>
    match h.step a with
    | none => none
    | some h' => Hub.run h' rest

/-- The usage of a broadcaster that keeps its callers from a panic of their own:
each channel is unsubscribed at most once, `Stop` is called at most once, and
only when every call of `Publish` has returned, and `Publish` is not called
after `Stop`. -/
def Hub.allowed {T : Type} (h : Hub T) : HubAction T → Bool
  | .unsubscribe ch => h.unsubscribers.all fun u => u.subscriberSender ≠ ch
  | .stop => !h.broadcaster.messageReceiver.closed && h.publishers.all fun pc => pc.isNone
  | .publish _ => !h.broadcaster.messageReceiver.closed
  | _ => true

/-- Run a schedule that respects `Hub.allowed`. -/
def Hub.exec {T : Type} (h : Hub T) : List (HubAction T) → Option (Hub T)
  | [] => some h
  | a :: rest =>
    if h.allowed a then
      match h.step a with
      | none => none
      | some h' => Hub.exec h' rest
    else none

/-- The dispatcher alone takes steps, with the given picks. -/
def Broadcaster.dispRun {T : Type} (b : Broadcaster T) : List Nat → Option (Broadcaster T)
  | [] => some b
  | pick :: rest =>
    match b.dispStep pick with
    | none => none
    | some b' => Broadcaster.dispRun b' rest

/-- A schedule within `Hub.allowed` on which a subscriber is unsubscribed while
the dispatcher holds its channel in the snapshot of a round. -/
def unsubscribeRace : List (HubAction Nat) :=
  [.subscribe, .publish 1, .publisher 0, .dispatch 0, .dispatch 0, .unsubscribe 0, .close 0]

/-- Subscriber channel `i` of the set has been closed by the dispatcher: the
closing loop has passed it, or the dispatcher has returned. -/
def DispPc.closedAt {T : Type} : DispPc T → Nat → Prop
  | .closing pending, i => i ∉ pending
  | .exited, _ => True
  | _, _ => False

/-- The dispatcher holds channel `i` in the snapshot of its round, with the
send on it still to come. -/
def DispPc.holds {T : Type} : DispPc T → Nat → Prop
  | .sending _ pending, i => i ∈ pending
  | .drain _ cur pending, i => cur = i ∨ i ∈ pending
  | .resend _ cur pending, i => cur = i ∨ i ∈ pending
  | _, _ => False

/-- Invariant of a broadcaster under every schedule of its callers: the inbox
and the subscriber channels have capacity 1 and hold at most one message, the
subscriber set names channels that exist, `stopped` is set exactly when the
dispatcher has returned, and a channel of the set is closed exactly when the
dispatcher has closed it. -/
structure Broadcaster.Tidy {T : Type} (b : Broadcaster T) : Prop where
  inbox : b.messageReceiver.cap = 1 ∧ b.messageReceiver.buf.length ≤ 1
  chan_wf : ∀ (i : Nat) (c : Chan T), b.chans[i]? = some c → c.cap = 1 ∧ c.buf.length ≤ 1
  subs_lt : ∀ i ∈ b.subscribers, i < b.chans.length
  subs_nodup : b.subscribers.Nodup
  stopped_iff : b.stopped = true ↔ b.disp = .exited
  subs_closed : ∀ i ∈ b.subscribers, ∀ c : Chan T, b.chans[i]? = some c →
    (c.closed = true ↔ b.disp.closedAt i)
  closing_nodup : ∀ pending : List Nat, b.disp = .closing pending → pending.Nodup

/-- Invariant of a broadcaster with its callers: the broadcaster is tidy, and a
call of `Unsubscribe` that has left its critical section names a channel that
exists and is no longer in the subscriber set. -/
structure Hub.Inv {T : Type} (h : Hub T) : Prop where
  tidy : h.broadcaster.Tidy
  unsub : ∀ u ∈ h.unsubscribers,
    u.subscriberSender < h.broadcaster.chans.length ∧
      u.subscriberSender ∉ h.broadcaster.subscribers

/-- Where the dispatcher stands in the round that sends `m` to the subscribers
`subs`, and which channels it has served: past the send on a channel, the
channel holds `m` and nothing else. -/
def DispPc.inRound {T : Type} (m : T) (subs : List Nat) (chans : List (Chan T)) :
    DispPc T → Prop
  | .snapshot msg => msg = m
  | .sending msg pending =>
    msg = m ∧ pending ⊆ subs ∧ pending.Nodup ∧
      ∀ i ∈ subs, i ∉ pending → chans[i]? = some ⟨[m], 1, false⟩
  | .drain msg cur pending =>
    msg = m ∧ cur ∈ subs ∧ cur ∉ pending ∧ pending ⊆ subs ∧ pending.Nodup ∧
      ∀ i ∈ subs, i ≠ cur → i ∉ pending → chans[i]? = some ⟨[m], 1, false⟩
  | .resend msg cur pending =>
    msg = m ∧ cur ∈ subs ∧ cur ∉ pending ∧ pending ⊆ subs ∧ pending.Nodup ∧
      (∀ i ∈ subs, i ≠ cur → i ∉ pending → chans[i]? = some ⟨[m], 1, false⟩) ∧
      ∃ c, chans[cur]? = some c ∧ c.buf = []
  | .recv => ∀ i ∈ subs, chans[i]? = some ⟨[m], 1, false⟩
  | _ => False

/-- Invariant of the round in which the dispatcher, started in `b0`, sends `m`
to the subscribers of `b0` while no other goroutine takes a step; `b` is the
state within the round. -/
structure Broadcaster.InRound {T : Type} (b b0 : Broadcaster T) (m : T) : Prop where
  subscribers : b.subscribers = b0.subscribers
  inbox : b.messageReceiver.buf = []
  panicked : b.panicked = b0.panicked
  length : b.chans.length = b0.chans.length
  others : ∀ i, i ∉ b0.subscribers → b.chans[i]? = b0.chans[i]?
  open_ : ∀ i ∈ b0.subscribers,
    ∃ c, b.chans[i]? = some c ∧ c.closed = false ∧ c.cap = 1 ∧ c.buf.length ≤ 1
  nodup : b0.subscribers.Nodup
  disp : b.disp.inRound m b0.subscribers b.chans

/-- The number of steps the dispatcher has left in its round, at most. -/
def DispPc.stepsLeft {T : Type} (subs : Nat) : DispPc T → Nat
  | .snapshot _ => 3 * subs + 2
  | .sending _ pending => 3 * pending.length + 1
  | .drain _ _ pending => 3 * pending.length + 3
  | .resend _ _ pending => 3 * pending.length + 2
  | _ => 0

/-- Invariant of a broadcaster with its callers under `Hub.allowed`: besides
`Hub.Inv`, the closing loop ranges over subscribers, a call of `Unsubscribe`
that is about to close its channel finds it open, no two calls of
`Unsubscribe` name the same channel, every channel is in the subscriber set or
named by a call of `Unsubscribe`, and no call of `Publish` is in progress once
the inbox is closed. -/
structure Hub.Careful {T : Type} (h : Hub T) : Prop where
  inv : h.Inv
  closing_sub : ∀ pending : List Nat,
    h.broadcaster.disp = .closing pending → pending ⊆ h.broadcaster.subscribers
  frame_open : ∀ (j : Nat) (u : Unsubscriber), h.unsubscribers[j]? = some u →
    u.closing = true → ∃ c, h.broadcaster.chans[u.subscriberSender]? = some c ∧ c.closed = false
  frame_inj : (h.unsubscribers.map fun u => u.subscriberSender).Nodup
  covered : ∀ i, i < h.broadcaster.chans.length →
    i ∈ h.broadcaster.subscribers ∨ i ∈ h.unsubscribers.map fun u => u.subscriberSender
  pub_idle : h.broadcaster.messageReceiver.closed = true → ∀ pc ∈ h.publishers, pc = none

/-- The message a call of `Publish` was given. -/
def PubPc.msg {T : Type} : PubPc T → T
  | .trySend msg => msg
  | .drain msg => msg
  | .resend msg => msg

/-- The action is a step of call `k` of `Publish`. -/
def HubAction.isPublisher {T : Type} (k : Nat) : HubAction T → Bool
  | .publisher j => j = k
  | _ => false

/-- The action is neither `Stop` nor a call or a step of another `Publish` than
call `k`. -/
def HubAction.leaves {T : Type} (k : Nat) : HubAction T → Bool
  | .stop => false
  | .publish _ => false
  | .publisher j => j = k
  | _ => true

/-- Call `k` of `Publish`, the only one in progress, publishes `m` to an open
inbox and has taken `n` steps: at its blocking send it has drained the inbox. -/
def Hub.publishing {T : Type} (h : Hub T) (k : Nat) (m : T) (n : Nat) : Prop :=
  h.broadcaster.messageReceiver.closed = false ∧
  match h.publishers[k]? with
  | some (some (.trySend msg)) => msg = m ∧ n = 0
  | some (some (.drain msg)) => msg = m ∧ n = 1
  | some (some (.resend msg)) => msg = m ∧ n = 2 ∧ h.broadcaster.messageReceiver.buf = []
  | some none => 1 ≤ n ∧ n ≤ 3
  | none => False

/-- A run in which the second of two subscribers has received the first
message, the first has not, and a second message is in the inbox. -/
def behindSchedule : List (HubAction Nat) :=
  [.subscribe, .subscribe, .publish 1, .publisher 0, .dispatch 0, .dispatch 0, .dispatch 0,
   .dispatch 1, .dispatch 0, .receive 1, .publish 2, .publisher 1]

/-- The state `behindSchedule` leads to. -/
def behindHub : Hub Nat :=
  { broadcaster :=
      { messageReceiver := ⟨[2], 1, false⟩, subscribers := [0, 1], stopped := false,
        chans := [⟨[1], 1, false⟩, ⟨[], 1, false⟩], disp := .recv, panicked := false },
    publishers := [none, none], unsubscribers := [] }

/-- The broadcaster of `behindHub` after the round of the dispatcher. -/
def caughtUp : Broadcaster Nat :=
  { messageReceiver := ⟨[], 1, false⟩, subscribers := [0, 1], stopped := false,
    chans := [⟨[2], 1, false⟩, ⟨[2], 1, false⟩], disp := .recv, panicked := false }

/-- A run in which a subscriber is registered, a message goes through, and the
broadcaster is stopped. -/
def stopSchedule : List (HubAction Nat) :=
  [.subscribe, .publish 7, .publisher 0, .dispatch 0, .dispatch 0, .dispatch 0, .dispatch 0,
   .stop, .dispatch 0, .dispatch 0, .dispatch 0, .dispatch 0]

/-- The state `stopSchedule` leads to. -/
def stoppedHub : Hub Nat :=
  { broadcaster :=
      { messageReceiver := ⟨[], 1, true⟩, subscribers := [0], stopped := true,
        chans := [⟨[7], 1, true⟩], disp := .exited, panicked := false },
    publishers := [none], unsubscribers := [] }

/-- A run that leaves one message pending in the inbox. -/
def pendingSchedule : List (HubAction Nat) := [.subscribe, .publish 1, .publisher 0]

/-- The state `pendingSchedule` leads to. -/
def pendingHub : Hub Nat :=
  { broadcaster :=
      { messageReceiver := ⟨[1], 1, false⟩, subscribers := [0], stopped := false,
        chans := [⟨[], 1, false⟩], disp := .recv, panicked := false },
    publishers := [none], unsubscribers := [] }

/-- The state of `pendingHub` after `Publish(2)` has evicted the pending
message. -/
def evictedHub : Hub Nat :=
  { pendingHub with
    broadcaster := { pendingHub.broadcaster with messageReceiver := ⟨[2], 1, false⟩ },
    publishers := [none, none] }

/-- Channel `a` has been unsubscribed and closed, and the dispatcher does not
hold it in the snapshot of a round. -/
def Hub.gone {T : Type} (h : Hub T) (a : Nat) : Prop :=
  a ∉ h.broadcaster.subscribers ∧ ¬ h.broadcaster.disp.holds a ∧
    ∃ c, h.broadcaster.chans[a]? = some c ∧ c.closed = true

/-- The state `unsubscribeRace` leads to. -/
def raceHub : Hub Nat :=
  { broadcaster :=
      { messageReceiver := ⟨[], 1, false⟩, subscribers := [], stopped := false,
        chans := [⟨[], 1, true⟩], disp := .sending 1 [0], panicked := false },
    publishers := [none], unsubscribers := [⟨0, false⟩] }

/-- A schedule within `Hub.allowed` on which, after the first subscriber is
unsubscribed, two messages are published before the dispatcher runs. -/
def coalescedSchedule : List (HubAction Nat) :=
  [.subscribe, .subscribe, .unsubscribe 0, .close 0, .publish 100, .publisher 0, .publish 101,
   .publisher 1, .publisher 1, .publisher 1, .dispatch 0, .dispatch 0, .dispatch 1, .dispatch 0]

/-- The state `coalescedSchedule` leads to. -/
def coalescedHub : Hub Nat :=
  { broadcaster :=
      { messageReceiver := ⟨[], 1, false⟩, subscribers := [1], stopped := false,
        chans := [⟨[], 1, true⟩, ⟨[101], 1, false⟩], disp := .recv, panicked := false },
    publishers := [none, none], unsubscribers := [⟨0, false⟩] }

/-- A run with two subscribers whose channels both hold the first message. -/
def pairSchedule : List (HubAction Nat) :=
  [.subscribe, .subscribe, .publish 1, .publisher 0, .dispatch 0, .dispatch 0, .dispatch 0,
   .dispatch 1, .dispatch 0]

/-- The state `pairSchedule` leads to. -/
def pairHub : Hub Nat :=
  { broadcaster :=
      { messageReceiver := ⟨[], 1, false⟩, subscribers := [0, 1], stopped := false,
        chans := [⟨[1], 1, false⟩, ⟨[1], 1, false⟩], disp := .recv, panicked := false },
    publishers := [none], unsubscribers := [] }

/-- The state of `pairHub` after `Unsubscribe` of channel 0. -/
def unsubscribedHub : Hub Nat :=
  { broadcaster :=
      { messageReceiver := ⟨[], 1, false⟩, subscribers := [1], stopped := false,
        chans := [⟨[1], 1, true⟩, ⟨[1], 1, false⟩], disp := .recv, panicked := false },
    publishers := [none], unsubscribers := [⟨0, false⟩] }

/-- The state of `unsubscribedHub` after `Publish(2)`. -/
def republishedHub : Hub Nat :=
  { unsubscribedHub with
    broadcaster := { unsubscribedHub.broadcaster with messageReceiver := ⟨[2], 1, false⟩ },
    publishers := [none, none] }

/-- The broadcaster of `republishedHub` after the round of the dispatcher. -/
def redelivered : Broadcaster Nat :=
  { messageReceiver := ⟨[], 1, false⟩, subscribers := [1], stopped := false,
    chans := [⟨[1], 1, true⟩, ⟨[2], 1, false⟩], disp := .recv, panicked := false }

/-! ## Append called from several goroutines -/

/-- A node of the linked list in the heap: its data, and its `next` pointer as
the address of a node. -/
structure Node where
  data : Chunk
  next : Option Nat
deriving DecidableEq, Repr

/-- Program counter of a goroutine inside `Append`; `newTail` is the address of
the node it has allocated at line 66. -/
inductive AppendPc where
  /-- At `s.tail.next.Store(newTail)` (line 68). -/
  | store (newTail : Nat)
  /-- At `s.tail = newTail` (line 69). -/
  | setTail (newTail : Nat)
  /-- Inside `s.broadcaster.Publish` (line 72). -/
  | publish (pc : PubPc Unit)
  /-- Returned. -/
  | returned
deriving DecidableEq, Repr

/-- An `OutputStorage` whose `Append` may be called from any number of
goroutines.  `heap` holds the nodes by address, in the order of their
allocation, the sentinel head at address 0; `tail` is the field `tail`;
`appenders` are the goroutines that have called `Append`.  The cursor `prev` of
a subscriber is the address of a node. -/
structure SharedStore where
  heap : List Node
  tail : Nat
  broadcaster : Broadcaster Unit
  appenders : List AppendPc
  subs : List Subscriber
deriving DecidableEq, Repr

/-- Go `RunNewOutputStorage`, in the heap. -/
def SharedStore.new : SharedStore :=
  { heap := [⟨[], none⟩], tail := 0, broadcaster := RunNewBroadcaster Unit, appenders := [],
    subs := [] }

/-- One atomic step of a subscriber goroutine over the heap: at
`current := prev.next.Load()` it follows the pointer; its other steps do not
read the list and are those of `subscriberStep`. -/
def heapSubscriberStep (heap : List Node) (b : Broadcaster Unit) (sub : Subscriber) :
    Option (Broadcaster Unit × Subscriber) :=
  match sub.pc with
  | .load =>
    match (heap[sub.prev]?).bind Node.next with
    | some current =>
      match heap[current]? with
      | some node => some (b, { sub with prev := current, pc := .send node.data })
      | none => none
    | none =>
      match sub.notifier with
      | some _ => some (b, { sub with pc := .wait })
      | none => some (b, { sub with pc := .close })
  | _ => subscriberStep [] b sub

/-- Scheduler labels of the store in the heap. -/
inductive SharedAction where
  /-- A goroutine calls `Append(data)` and allocates its node (line 66). -/
  | append (data : Chunk)
  /-- Goroutine `k` inside `Append` takes its next step. -/
  | appender (k : Nat)
  /-- Subscriber goroutine `k` takes its next step. -/
  | subscriber (k : Nat)
  /-- Go `OutputStorage.Stop`. -/
  | stop
  /-- The dispatcher takes its next step. -/
  | dispatch (pick : Nat)
  /-- Go `OutputStorage.Subscribe(capacity)`. -/
  | subscribe (capacity : Nat)
  /-- Subscriber goroutine `k` hands its chunk to a consumer blocked in a
  receive. -/
  | handoff (k : Nat)
  /-- The consumer of subscriber `k` receives the oldest buffered chunk. -/
  | consume (k : Nat)
deriving DecidableEq, Repr

/-- The broadcaster and the subscribers of a store in the heap, as a `System`
with no node and no appender: the steps `stop`, `dispatch`, `subscribe`,
`handoff` and `consume` of `step` read and write nothing else. -/
def SharedStore.rest (s : SharedStore) : System :=
  { nodes := [], broadcaster := s.broadcaster, publishing := none, subs := s.subs }

/-- The store after a step of `step` on its broadcaster and subscribers. -/
def SharedStore.lift (s : SharedStore) (a : Action) : Option SharedStore :=
  match step s.rest a with
  | none => none
  | some sys => some { s with broadcaster := sys.broadcaster, subs := sys.subs }

/-- One atomic step of the store in the heap.  No step is taken after a
panic. -/
def SharedStore.step (s : SharedStore) (a : SharedAction) : Option SharedStore :=
  if s.broadcaster.panicked then none
  else
    match a with
    | .append data =>
      some { s with heap := s.heap ++ [⟨data, none⟩],
                    appenders := s.appenders ++ [.store s.heap.length] }
    | .appender k =>
      match s.appenders[k]? with
      | none => none
      | some (.store newTail) =>
        match s.heap[s.tail]? with
        | none => none
        | some t =>
          some { s with heap := s.heap.set s.tail { t with next := some newTail },
                        appenders := s.appenders.set k (.setTail newTail) }
      | some (.setTail newTail) =>
        some { s with tail := newTail, appenders := s.appenders.set k (.publish (.trySend ())) }
      | some (.publish pc) =>
        match s.broadcaster.publishStep pc with
        | none => none
        | some (b, none) =>
          some { s with broadcaster := b, appenders := s.appenders.set k .returned }
        | some (b, some pc') =>
          some { s with broadcaster := b, appenders := s.appenders.set k (.publish pc') }
      | some .returned => none
    | .subscriber k =>
      match s.subs[k]? with
      | none => none
      | some sub =>
        match heapSubscriberStep s.heap s.broadcaster sub with
        | none => none
        | some (b, sub') => some { s with broadcaster := b, subs := s.subs.set k sub' }
    | .stop => s.lift .stop
    | .dispatch pick => s.lift (.dispatch pick)
    | .subscribe capacity => s.lift (.subscribe capacity)
    | .handoff k => s.lift (.handoff k)
    | .consume k => s.lift (.consume k)

/-- Run a schedule from a state; `none` when some step of it cannot be taken. -/
def SharedStore.run (s : SharedStore) : List SharedAction → Option SharedStore
  | [] => some s
  | a :: rest =>
    match s.step a with
    | none => none
    | some s' => s'.run rest

/-- The calls of `Append` do not overlap: a goroutine calls `Append` only when
every earlier call has returned. -/
def SharedStore.serial (s : SharedStore) : SharedAction → Bool
  | .append _ => s.appenders.all (fun pc => pc = .returned)
  | _ => true

/-- Run a schedule that respects `SharedStore.serial`. -/
def SharedStore.exec (s : SharedStore) : List SharedAction → Option SharedStore
  | [] => some s
  | a :: rest =>
    if s.serial a then
      match s.step a with
      | none => none
      | some s' => s'.exec rest
    else none

/-- The data of the `append` steps of a schedule, in order: the byte slices
passed to `Append`, in the order of the calls. -/
def SharedStore.appended : List SharedAction → List Chunk
  | [] => []
  | .append data :: rest => data :: SharedStore.appended rest
  | _ :: rest => SharedStore.appended rest

/-- The number of nodes linked after the sentinel head, when the calls of
`Append` do not overlap: every allocated node, but for the node of a call that
stands before its store. -/
def SharedStore.linked (s : SharedStore) : Nat :=
  match s.appenders.getLast? with
  | some (.store _) => s.heap.length - 2
  | _ => s.heap.length - 1

/-- The store with one appender that a store in the heap amounts to when the
calls of `Append` do not overlap: the node list is the data of the linked
nodes, and the appender is inside `Publish` from its store on. -/
def SharedStore.view (s : SharedStore) : System :=
  { nodes := ((s.heap.drop 1).take s.linked).map Node.data,
    broadcaster := s.broadcaster,
    publishing :=
      match s.appenders.getLast? with
      | some (.setTail _) => some (.trySend ())
      | some (.publish pc) => some pc
      | _ => none,
    subs := s.subs }

end output_storage

/-! # Go standard library: unicode and strings -/

namespace unicode

/-- Go `unicode.IsSpace`: the Latin-1 spaces `\t`, `\n`, `\v`, `\f`, `\r`, the
blank, U+0085 and U+00A0, and the other characters with the property
White_Space. -/
def IsSpace (r : Char) : Bool :=
  let v := r.toNat
  (9 ≤ v ∧ v ≤ 13) ∨ v = 32 ∨ v = 0x85 ∨ v = 0xA0 ∨ v = 0x1680 ∨ (0x2000 ≤ v ∧ v ≤ 0x200A) ∨
    v = 0x2028 ∨ v = 0x2029 ∨ v = 0x202F ∨ v = 0x205F ∨ v = 0x3000

end unicode

namespace strings

/-- Go `len(s)` of a string: the number of bytes of its UTF-8 encoding. -/
def len (s : String) : Nat := s.utf8ByteSize

/-- Go `strings.Repeat(s, count)`. -/
def Repeat (s : String) (count : Nat) : String := ⟨(List.replicate count s.data).flatten⟩

/-- Go `strings.Join(elems, sep)`. -/
def Join (elems : List String) (sep : String) : String := sep.intercalate elems

/-- Go `strings.TrimSpace(s)`: `s` without its leading and trailing white space. -/
def TrimSpace (s : String) : String :=
  ⟨((s.data.dropWhile unicode.IsSpace).reverse.dropWhile unicode.IsSpace).reverse⟩

/-- Go `strings.TrimPrefix(s, pre)`. -/
def TrimPrefix (s pre : String) : String :=
  if pre.data.isPrefixOf s.data then ⟨s.data.drop pre.data.length⟩ else s

/-- The loop of `strings.Fields` over the characters left, with the field
gathered so far. -/
def fieldsFrom : List Char → List Char → List String
  | [], cur => if cur = [] then [] else [⟨cur⟩]
  | c :: rest, cur =>
    if unicode.IsSpace c then
      if cur = [] then fieldsFrom rest [] else ⟨cur⟩ :: fieldsFrom rest []
    else fieldsFrom rest (cur ++ [c])

/-- Go `strings.Fields(s)`: the maximal runs of characters that are not white
space. -/
def Fields (s : String) : List String := fieldsFrom s.data []

end strings

/-! # pkg/lib/types.go -/

namespace lib

/-- Go `ProcessState`. -/
inductive ProcessState where
  | Unspecified
  | Running
  | Stopped
deriving DecidableEq, Repr

/-- Go `Command`. -/
structure Command where
  Command : String
  Args : List String
deriving DecidableEq, Repr

/-- Go `ProcessStatus`; a nil pointer is `none`, a `time.Time` is a clock reading. -/
structure ProcessStatus where
  State : ProcessState
  ExitCode : Option Int
  StartTime : Nat
  EndTime : Option Nat
deriving DecidableEq, Repr

end lib

/-! # pkg/lib/runner -/

namespace runner

open lib

/-- Errors returned by the runner. -/
inductive Error where
  /-- Go `errors.New("command is required")`. -/
  | commandRequired
  /-- Go `os.ErrNotExist`. -/
  | notExist
  /-- An error of the operating system (`MkdirAll`, `GetSysProcAttr`, `cmd.Start`,
  the write to `cgroup.kill`), named by its errno. -/
  | os (msg : String)
deriving DecidableEq, Repr

/-- What `cmd.Wait()` returned. -/
inductive WaitResult where
  /-- The value `nil`. -/
  | success
  /-- An error with an `*exec.ExitError` in its chain; `code` is `exitErr.ExitCode()`. -/
  | exitError (code : Int)
  /-- Any other error. -/
  | otherError
deriving DecidableEq, Repr

/-- The waiter goroutine that `Start` launches for an entry. -/
inductive ReaperPc where
  /-- Blocked at `err := <-done`. -/
  | waiting
  /-- Returned. -/
  | finished
deriving DecidableEq, Repr

/-- Go `processEntry`: the fields that `Start`, `Status` and `Stop` read or write
(`end_` is the field `end`), and the state of the entry's waiter goroutine.
The two output stores of an entry are the subject of `output_storage`. -/
structure processEntry where
  id : String
  command : Command
  workDir : String
  state : ProcessState
  exitCode : Option Int
  start : Nat
  end_ : Option Nat
  pid : Int
  reaper : ReaperPc
deriving DecidableEq, Repr

/-- Go `StartResult`. -/
structure StartResult where
  ID : String
  pid : Int
  Status : ProcessStatus
deriving DecidableEq, Repr

/-- Go `StatusResult`. -/
structure StatusResult where
  Command : Command
  Status : ProcessStatus
deriving DecidableEq, Repr

/-- Go `StopResult`. -/
structure StopResult where
  Command : Command
  Status : ProcessStatus
deriving DecidableEq, Repr

/-- Go `processEntry.lockAndGetStatus`: a copy of the status fields, taken under
the read lock. -/
def processEntry.lockAndGetStatus (pe : processEntry) : ProcessStatus :=
  let st : ProcessStatus :=
    { State := pe.state, StartTime := pe.start, ExitCode := none, EndTime := none }
  let st := match pe.exitCode with
    | some code => { st with ExitCode := some code }
    | none => st
  match pe.end_ with
  | some t => { st with EndTime := some t }
  | none => st

/-- The critical section of the waiter goroutine (`runner_start.go`, lines
92-110), run with the write lock held: `err` is what `cmd.Wait()` returned and
`now` is `time.Now()`. -/
def processEntry.finalize (pe : processEntry) (err : WaitResult) (now : Nat) : processEntry :=
  let pe := match err with
    | .exitError code => { pe with exitCode := some code }
    | .otherError => pe
    | .success => { pe with exitCode := some 0 }
  { pe with end_ := some now, state := .Stopped, reaper := .finished }

/-- What the operating system answers during one call of `Start`. -/
structure StartEnv where
  /-- Go `lib.NewID()`. -/
  processId : String
  /-- Go `os.MkdirAll(workDir, 0o700)`. -/
  mkdirErr : Option Error
  /-- Go `GetSysProcAttr(processId)`. -/
  sysProcAttrErr : Option Error
  /-- Go `cmd.Start()`. -/
  startErr : Option Error
  /-- Go `cmd.Process.Pid`. -/
  pid : Int
  /-- The value of `time.Now()` when the entry is built. -/
  now : Nat
deriving DecidableEq, Repr

/-- The platform `KillCgroup` is built for. -/
inductive Platform where
  | linux
  | other
deriving DecidableEq, Repr

/-- Go `KillCgroup`: on Linux the result of writing `1` to `cgroup.kill`
(`writeErr`), elsewhere `(false, nil)`. -/
def KillCgroup (platform : Platform) (writeErr : Option Error) : Bool × Option Error :=
  match platform with
  | .linux => (writeErr.isNone, writeErr)
  | .other => (false, none)

/-- A kill that `Stop` has delivered. -/
inductive Kill where
  /-- The value `1` was written to the `cgroup.kill` file of process `id`. -/
  | cgroup (id : String)
  /-- Go `syscall.Kill(-pid, syscall.SIGKILL)`. -/
  | processGroup (pid : Int)
deriving DecidableEq, Repr

deriving instance DecidableEq for Except

/-- A call of `Start`, `Status` or `Stop`: where it stands, or what it returned. -/
inductive Call where
  /-- The call of `Start` has registered the entry (line 119) and is at
  `processEntry.lockAndGetStatus()` (line 121). -/
  | startStatus (id : String) (pid : Int)
  /-- The call of `Stop` found `alreadyStopped` and is at `pe.lockAndGetStatus()`
  (line 27). -/
  | stopAlready (id : String)
  /-- The call of `Stop` found the entry running and is at `KillCgroup(id)` (line 32). -/
  | stopKill (id : String)
  /-- The call of `Stop` is at the head of its wait loop (line 43). -/
  | stopPoll (id : String)
  /-- The call of `Start` returned. -/
  | startDone (res : Except Error StartResult)
  /-- The call of `Status` returned. -/
  | statusDone (res : Except Error StatusResult)
  /-- The call of `Stop` returned. -/
  | stopDone (res : Except Error StopResult)
deriving DecidableEq, Repr

/-- The status snapshot a call has returned, if it has returned one. -/
def Call.returned : Call → Option ProcessStatus
  | .startDone (.ok res) => some res.Status
  | .statusDone (.ok res) => some res.Status
  | .stopDone (.ok res) => some res.Status
  | _ => none

/-- A `Runner` with its goroutines: the registry `processes` (a Go map, newest
binding first), the calls made so far, and the kills delivered so far. -/
structure Runner where
  processes : List (String × processEntry)
  baseDir : String
  calls : List Call
  kills : List Kill
deriving DecidableEq, Repr

/-- Go `NewRunner` with the temporary directory `baseDir`. -/
def NewRunner (baseDir : String) : Runner :=
  { processes := [], baseDir := baseDir, calls := [], kills := [] }

/-- Go `Runner.getProcess`. -/
def Runner.getProcess (r : Runner) (id : String) : Except Error processEntry :=
  match r.processes.lookup id with
  | some pe => .ok pe
  | none => .error .notExist

/-- Replace the entry registered under `id` (a write through the entry pointer). -/
def Runner.setEntry (r : Runner) (id : String) (pe : processEntry) : Runner :=
  { r with processes := r.processes.map fun p => if p.1 = id then (p.1, pe) else p }

/-- Go `Runner.Start` up to the registration of the entry (lines 21-119): the
entry to register, or the error returned. -/
def startEntry (baseDir : String) (command : String) (args : List String) (env : StartEnv) :
    Except Error processEntry :=
  if command = "" then .error .commandRequired
  else
    match env.mkdirErr with
    | some err => .error err
    | none =>
      match env.sysProcAttrErr with
      | some err => .error err
      | none =>
        match env.startErr with
        | some err => .error err
        | none =>
          .ok { id := env.processId,
                command := { Command := command, Args := args },
                workDir := baseDir ++ "/" ++ env.processId,
                state := .Running, exitCode := none, start := env.now, end_ := none,
                pid := env.pid, reaper := .waiting }

/-- Go `Runner.Status`. -/
def Runner.Status (r : Runner) (id : String) : Except Error StatusResult :=
  match r.getProcess id with
  | .error err => .error err
  | .ok pe => .ok { Command := pe.command, Status := pe.lockAndGetStatus }

/-- Scheduler labels of the runner. -/
inductive Action where
  /-- A client calls `Start(command, args...)`; the call runs up to line 119. -/
  | start (command : String) (args : List String) (env : StartEnv)
  /-- The child of entry `id` has been waited for with result `err`, and the
  entry's waiter goroutine runs to its end, reading the clock as `now`. -/
  | reap (id : String) (err : WaitResult) (now : Nat)
  /-- A client calls `Status(id)`. -/
  | status (id : String)
  /-- A client calls `Stop(id)`; the call runs up to line 26. -/
  | stop (id : String)
  /-- Call `k` takes its next step.  For a `Stop` at `KillCgroup`, `platform`
  and `writeErr` are what `KillCgroup` meets; for a `Stop` in its wait loop,
  `inTime` is `time.Now().Before(deadline)`. -/
  | resume (k : Nat) (platform : Platform) (writeErr : Option Error) (inTime : Bool)
deriving DecidableEq, Repr

/-- The next step of a call that has not returned: the call afterwards and the
kills it delivers. -/
def resumeCall (r : Runner) (platform : Platform) (writeErr : Option Error) (inTime : Bool) :
    Call → Option (Call × List Kill)
  | .startStatus id pid =>
    match r.getProcess id with
    | .ok pe => some (.startDone (.ok { ID := id, pid := pid, Status := pe.lockAndGetStatus }), [])
    | .error _ => none
  | .stopAlready id =>
    match r.getProcess id with
    | .ok pe =>
      some (.stopDone (.ok { Command := pe.command, Status := pe.lockAndGetStatus }), [])
    | .error _ => none
  | .stopKill id =>
    match r.getProcess id with
    | .ok pe =>
      match KillCgroup platform writeErr with
      | (_, some err) => some (.stopDone (.error err), [])
      | (true, none) => some (.stopPoll id, [.cgroup id])
      | (false, none) => some (.stopPoll id, [.processGroup pe.pid])
    | .error _ => none
  | .stopPoll id =>
    match r.getProcess id with
    | .ok pe =>
      let st := pe.lockAndGetStatus
      if inTime then
        if st.State = .Stopped then
          some (.stopDone (.ok { Command := pe.command, Status := st }), [])
        else some (.stopPoll id, [])
      else some (.stopDone (.ok { Command := pe.command, Status := st }), [])
    | .error _ => none
  | _ => none

/-- One atomic step of the runner.  An identifier made by `lib.NewID` is taken
to be new. -/
def step (r : Runner) : Action → Option Runner
  | .start command args env =>
    match startEntry r.baseDir command args env with
    | .error err => some { r with calls := r.calls ++ [.startDone (.error err)] }
    | .ok pe =>
      match r.processes.lookup env.processId with
      | some _ => none
      | none =>
        some { r with processes := (env.processId, pe) :: r.processes,
                      calls := r.calls ++ [.startStatus env.processId env.pid] }
  | .reap id err now =>
    match r.getProcess id with
    | .ok pe =>
      match pe.reaper with
      | .waiting => some (r.setEntry id (pe.finalize err now))
      | .finished => none
    | .error _ => none
  | .status id => some { r with calls := r.calls ++ [.statusDone (r.Status id)] }
  | .stop id =>
    match r.getProcess id with
    | .error err => some { r with calls := r.calls ++ [.stopDone (.error err)] }
    | .ok pe =>
      let alreadyStopped := pe.state = .Stopped ∨ pe.end_ ≠ none
      if alreadyStopped then some { r with calls := r.calls ++ [.stopAlready id] }
      else some { r with calls := r.calls ++ [.stopKill id] }
  | .resume k platform writeErr inTime =>
    match r.calls[k]? with
    | none => none
    | some call =>
      match resumeCall r platform writeErr inTime call with
      | none => none
      | some (call', kills) =>
        some { r with calls := r.calls.set k call', kills := r.kills ++ kills }

/-- Run a schedule from a state; `none` when some step of it cannot be taken. -/
def run (r : Runner) : List Action → Option Runner
  | [] => some r
  | a :: rest =>
    match step r a with
    | none => none
    | some r' => run r' rest

/-- Whether `errors.Is(err, os.ErrNotExist)`: an error of the operating
system is named by its errno, and `ENOENT` matches `os.ErrNotExist`. -/
def Error.isNotExist : Error → Bool
  | .notExist => true
  | .os msg => msg = "ENOENT"
  | .commandRequired => false

/-- The two output stores of an entry, the fields `stdout` and `stderr` of
`processEntry`, each with its goroutines. -/
structure Stores where
  stdout : output_storage.System
  stderr : output_storage.System
deriving DecidableEq, Repr

/-- Replace the stores kept for `id`. -/
def setStores (stores : List (String × Stores)) (id : String) (st : Stores) :
    List (String × Stores) :=
  stores.map fun p => if p.1 = id then (p.1, st) else p

/-- Go `Runner.Output`; `stores` holds the output stores of the registered
entries by process id.  The two channels are named by the index of their
subscriber in the store; the two calls of `Subscribe` are taken together, and
there is no result while one of them waits for the broadcaster's mutex. -/
def Runner.Output (r : Runner) (stores : List (String × Stores)) (id : String) :
    Option (Except Error (Nat × Nat) × List (String × Stores)) :=
  match r.getProcess id with
  | .error err => some (.error err, stores)
  | .ok _ =>
    match stores.lookup id with
    | none => none
    | some st =>
      match output_storage.step st.stdout (.subscribe 5) with
      | none => none
      | some stdout =>
        match output_storage.step st.stderr (.subscribe 5) with
        | none => none
        | some stderr =>
          some (.ok (st.stdout.subs.length, st.stderr.subs.length),
                setStores stores id { stdout := stdout, stderr := stderr })

/-! ## linux_utils.go: the cgroup root -/

open strings

/-- What the operating system answers during `initCgroupsImpl`: the effective
uid, the error of `os.MkdirAll(cgroupRoot, 0755)`, what `os.ReadFile` returns
for `cgroup.controllers` and for `cgroup.subtree_control`, and the error of
`os.WriteFile`. -/
structure CgroupEnv where
  euid : Nat
  mkdirErr : Option Error
  controllers : Except Error String
  subtreeControl : Except Error String
  writeErr : Option Error
deriving DecidableEq, Repr

/-- Go `cgroupRoot`. -/
def cgroupRoot : String := "/sys/fs/cgroup/prn"

/-- The loop of `readControllerSet` over the fields: the keys of the map `set`. -/
def controllerKeys (fields : List String) : List String :=
  fields.map fun f => TrimPrefix f "+"

/-- Go `readControllerSet`; `file` is what `os.ReadFile(path)` returns, and the
result is the keys of the map. -/
def readControllerSet (file : Except Error String) : Except Error (List String) :=
  match file with
  | .error err => .error err
  | .ok data => .ok (controllerKeys (Fields data))

/-- The loop `for _, ctrl := range desired` of `initCgroupsImpl`. -/
def toAdd (available enabled : List String) : List String → List String
  | [] => []
  | ctrl :: rest =>
    if ctrl ∈ available ∧ ctrl ∉ enabled then ("+" ++ ctrl) :: toAdd available enabled rest
    else toAdd available enabled rest

/-- Go `initCgroupsImpl`: the files written, each with its path and content, and
the error returned. -/
def initCgroupsImpl (env : CgroupEnv) : List (String × String) × Option Error :=
  if env.euid ≠ 0 then ([], none)
  else
    match env.mkdirErr with
    | some err => ([], some err)
    | none =>
      match readControllerSet env.controllers with
      | .error err => ([], some err)
      | .ok available =>
        match readControllerSet env.subtreeControl with
        | .error err => ([], some err)
        | .ok enabled =>
          let toAdd := toAdd available enabled ["cpu", "io", "memory"]
          if toAdd.length > 0 then
            match env.writeErr with
            | some err => ([], some err)
            | none => ([(cgroupRoot ++ "/cgroup.subtree_control", Join toAdd " ")], none)
          else ([], none)

/-- A root environment in which `cpu`, `io`, `memory` and `pids` are available
and `io` is enabled. -/
def exampleCgroupEnv : CgroupEnv :=
  { euid := 0, mkdirErr := none, controllers := .ok "cpuset cpu io memory pids\n",
    subtreeControl := .ok "+io pids\n", writeErr := none }

/-! ## Invariants of the runner -/

/-- The status fields of an entry agree with the state of its waiter goroutine. -/
def processEntry.ok (pe : processEntry) : Prop :=
  (pe.reaper = .waiting ∧ pe.state = .Running ∧ pe.exitCode = none ∧ pe.end_ = none) ∨
  (pe.reaper = .finished ∧ pe.state = .Stopped ∧ pe.end_ ≠ none)

/-- The invariant of a status snapshot: no exit code and no end time while
running, an end time once stopped. -/
def StatusInv (st : ProcessStatus) : Prop :=
  (st.State = .Running → st.ExitCode = none ∧ st.EndTime = none) ∧
  (st.State = .Stopped → st.EndTime ≠ none)

/-- Invariant of the runner: every registered entry is `ok`, and every status
snapshot that a call has returned satisfies `StatusInv`. -/
structure Runner.Inv (r : Runner) : Prop where
  entries : ∀ (id : String) (pe : processEntry), r.processes.lookup id = some pe → pe.ok
  calls : ∀ (call : Call), call ∈ r.calls → ∀ (st : ProcessStatus),
    call.returned = some st → StatusInv st

/-- How an entry can differ between an earlier and a later state: not at all,
or it was running and is now stopped. -/
def Evolves (pe pe' : processEntry) : Prop :=
  pe' = pe ∨ (pe.state = .Running ∧ pe'.state = .Stopped)

/-! ## Runs used below -/

/-- What the operating system answers to the `Start` call of the example runs. -/
def exampleEnv : StartEnv :=
  { processId := "p1", mkdirErr := none, sysProcAttrErr := none, startErr := none,
    pid := 4242, now := 100 }

/-- The entry of the example runs after its child has exited with code 3. -/
def exampleEntry : processEntry :=
  { id := "p1", command := { Command := "sh", Args := ["-c", "exit 3"] },
    workDir := "/tmp/prn-1/p1", state := .Stopped, exitCode := some 3, start := 100,
    end_ := some 107, pid := 4242, reaper := .finished }

/-- The status of `exampleEntry`. -/
def exampleStatus : ProcessStatus :=
  { State := .Stopped, ExitCode := some 3, StartTime := 100, EndTime := some 107 }

/-- A run in which a process is started, observed, and reaped. -/
def exampleSchedule : List Action :=
  [.start "sh" ["-c", "exit 3"] exampleEnv, .resume 0 .linux none true, .status "p1",
   .reap "p1" (.exitError 3) 107]

/-- The state `exampleSchedule` leads to. -/
def exampleRunner : Runner :=
  { processes := [("p1", exampleEntry)],
    baseDir := "/tmp/prn-1",
    calls :=
      [.startDone (.ok ⟨"p1", 4242, ⟨.Running, none, 100, none⟩⟩),
       .statusDone (.ok ⟨⟨"sh", ["-c", "exit 3"]⟩, ⟨.Running, none, 100, none⟩⟩)],
    kills := [] }

/-- The state of `exampleRunner` after a further `Stop` of the process. -/
def exampleStopped : Runner :=
  { exampleRunner with
    calls := exampleRunner.calls ++ [.stopDone (.ok ⟨exampleEntry.command, exampleStatus⟩)] }

/-- A run in which the child exits, and is reaped, before `Start` takes the
status snapshot it returns. -/
def earlyExitSchedule : List Action :=
  [.start "true" [] exampleEnv, .reap "p1" .success 107, .resume 0 .linux none true]

/-- Answers of the operating system with a spawn that fails. -/
def failingEnv : StartEnv :=
  { exampleEnv with processId := "p2", startErr := some (.os "ENOENT") }

/-- The state of `exampleRunner` after a `Start` whose spawn fails. -/
def exampleFailed : Runner :=
  { exampleRunner with
    calls := exampleRunner.calls ++ [.startDone (.error (.os "ENOENT"))] }

/-- The output stores of the example runs: the child has written two chunks to
its standard output and nothing to its standard error. -/
def exampleStores : List (String × Stores) :=
  [("p1", { stdout := output_storage.quietSystem [[111, 117, 116], [10]],
            stderr := output_storage.quietSystem [] })]

/-- The entry of the example runs while its child is running. -/
def exampleRunning : processEntry :=
  { exampleEntry with state := .Running, exitCode := none, end_ := none, reaper := .waiting }

/-- The state after the first three steps of `exampleSchedule`. -/
def exampleBefore : Runner := { exampleRunner with processes := [("p1", exampleRunning)] }

end runner


/-! # cmd/server -/

namespace server

/-- The gRPC status codes the handlers return, and `InvalidArgument`. -/
inductive Code where
  | Aborted
  | Internal
  | InvalidArgument
  | NotFound
  | PermissionDenied
  | Unauthenticated
deriving DecidableEq, Repr

/-- A `*url.URL`, as far as `auth.go` reads it. -/
structure URL where
  Scheme : String
  Host : String
deriving DecidableEq, Repr

/-- An `*x509.Certificate`, as far as `auth.go` reads it; a nil entry of `URIs`
is `none`. -/
structure Certificate where
  URIs : List (Option URL)
deriving DecidableEq, Repr

/-- The `AuthInfo` of a peer: `credentials.TLSInfo` with its
`State.PeerCertificates`, or anything else. -/
inductive AuthInfo where
  | tls (PeerCertificates : List (Option Certificate))
  | other
deriving DecidableEq, Repr

/-- A `context.Context`, as far as `auth.go` reads it: the string stored under
`spiffeIdContextKey{}` and the peer of `peer.FromContext`. -/
structure Context where
  spiffeId : Option String
  peer : Option AuthInfo
deriving DecidableEq, Repr

/-- Go `context.Background()`. -/
def Context.background : Context := { spiffeId := none, peer := none }

/-- Go `extractSpiffeIdFromContext`. -/
def extractSpiffeIdFromContext (ctx : Context) : Option String := ctx.spiffeId

/-- Go `injectSpiffeId`. -/
def injectSpiffeId (ctx : Context) (spiffeId : String) : Context :=
  { ctx with spiffeId := some spiffeId }

/-- Go `ProcessRunnerServiceServer`: the map `ownersMap` (a Go map, newest binding
first).  The runner it holds is the subject of `runner`. -/
structure ProcessRunnerServiceServer where
  ownersMap : List (String × String)
deriving DecidableEq, Repr

/-- Go `NewProcessRunnerServiceServer`. -/
def NewProcessRunnerServiceServer : ProcessRunnerServiceServer := { ownersMap := [] }

/-- The map read `s.ownersMap[processIdentifier]`: the zero value `""` for a missing key. -/
def ProcessRunnerServiceServer.owner (s : ProcessRunnerServiceServer)
    (processIdentifier : String) : String :=
  (s.ownersMap.lookup processIdentifier).getD ""

/-- Go `ProcessRunnerServiceServer.checkOwnership`. -/
def ProcessRunnerServiceServer.checkOwnership (s : ProcessRunnerServiceServer) (ctx : Context)
    (processIdentifier : String) : Except Code Unit :=
  match extractSpiffeIdFromContext ctx with
  | none => .error .Unauthenticated
  | some spiffeId =>
    let realOwner := s.owner processIdentifier
    if realOwner ≠ spiffeId then .error .PermissionDenied
    else .ok ()

/-- Go `protov1.ProcessState`. -/
inductive ProtoProcessState where
  | PROCESS_STATE_UNSPECIFIED
  | PROCESS_STATE_RUNNING
  | PROCESS_STATE_STOPPED
deriving DecidableEq, Repr

/-- Go `protov1.ProcessStatus`. -/
structure ProtoProcessStatus where
  State : ProtoProcessState
  ExitCode : Option Int
  StartTime : Option Nat
  EndTime : Option Nat
deriving DecidableEq, Repr

/-- Go `protov1.StartResponse`. -/
structure StartResponse where
  ProcessIdentifier : String
  Status : ProtoProcessStatus
deriving DecidableEq, Repr

/-- The `Start` handler; `startResult` is what
`s.runner.Start(request.Command, request.Args...)` returned. -/
def ProcessRunnerServiceServer.Start (s : ProcessRunnerServiceServer) (ctx : Context)
    (startResult : Except runner.Error runner.StartResult) :
    Except Code StartResponse × ProcessRunnerServiceServer :=
  match startResult with
  | .error _ => (.error .Aborted, s)
  | .ok res =>
    let response : StartResponse :=
      { ProcessIdentifier := res.ID,
        Status := { State := .PROCESS_STATE_RUNNING, ExitCode := some 0, StartTime := none,
                    EndTime := none } }
    match extractSpiffeIdFromContext ctx with
    | some spiffeId => (.ok response, { s with ownersMap := (res.ID, spiffeId) :: s.ownersMap })
    | none => (.ok response, s)

/-- The server after a sequence of `Start` calls, each given as the caller's
context and the result of the runner. -/
def afterStarts (calls : List (Context × Except runner.Error runner.StartResult)) :
    ProcessRunnerServiceServer :=
  calls.foldl (fun s call => (s.Start call.1 call.2).2) NewProcessRunnerServiceServer

/-- Identity `I` made a `Start` call among `calls` that returned the process id `X`. -/
def startedBy (calls : List (Context × Except runner.Error runner.StartResult))
    (I X : String) : Prop :=
  ∃ ctx res,
    (ctx, Except.ok res) ∈ calls ∧ extractSpiffeIdFromContext ctx = some I ∧ res.ID = X

/-- The process ids that the successful calls among `calls` returned. -/
def returnedIds (calls : List (Context × Except runner.Error runner.StartResult)) :
    List String :=
  calls.filterMap fun c =>
    match c.2 with
    | .ok res => some res.ID
    | .error _ => none

/-! ## auth.go: the peer identity and the interceptors -/

/-- The loop `for _, uri := range leaf.URIs` of `extractSpiffeIdFromTls`. -/
def firstSpiffeHost : List (Option URL) → Option String
  | [] => none
  | none :: rest => firstSpiffeHost rest
  | some uri :: rest => if uri.Scheme = "spiffe" then some uri.Host else firstSpiffeHost rest

/-- Go `extractSpiffeIdFromTls`. -/
def extractSpiffeIdFromTls (ctx : Context) : Option String :=
  match extractSpiffeIdFromContext ctx with
  | some v => some v
  | none =>
    match ctx.peer with
    | none => none
    | some .other => none
    | some (.tls PeerCertificates) =>
      match PeerCertificates with
      | [] => none
      | none :: _ => none
      | some leaf :: _ => firstSpiffeHost leaf.URIs

/-- Go `injectSpiffeIdUnary`.  The handler is a function of the context, the
request and the state of the server, so that a handler that is not invoked
leaves the state as it is. -/
def injectSpiffeIdUnary {Req Resp σ : Type} (ctx : Context) (req : Req)
    (handler : Context → Req → σ → Except Code Resp × σ) (st : σ) : Except Code Resp × σ :=
  match extractSpiffeIdFromTls ctx with
  | none => (.error .Unauthenticated, st)
  | some spiffeId => handler (injectSpiffeId ctx spiffeId) req st

/-- Go `injectSpiffeIdStream`; `ctx` is `ss.Context()`, and the handler gets the
stream with the new context. -/
def injectSpiffeIdStream {Srv σ : Type} (srv : Srv) (ctx : Context)
    (handler : Srv → Context → σ → Except Code Unit × σ) (st : σ) : Except Code Unit × σ :=
  match extractSpiffeIdFromTls ctx with
  | none => (.error .Unauthenticated, st)
  | some spiffeId => handler srv (injectSpiffeId ctx spiffeId) st

/-! ## utils.go and the Status, Stop and GetOutput handlers -/

/-- Go `protov1.Process`. -/
structure ProtoProcess where
  Command : String
  Args : List String
deriving DecidableEq, Repr

/-- Go `toProtoProcess`. -/
def toProtoProcess (p : lib.Command) : ProtoProcess := { Command := p.Command, Args := p.Args }

/-- Go `toProtoProcessState`. -/
def toProtoProcessState : lib.ProcessState → ProtoProcessState
  | .Running => .PROCESS_STATE_RUNNING
  | .Stopped => .PROCESS_STATE_STOPPED
  | _ => .PROCESS_STATE_UNSPECIFIED

/-- The conversion `int32(v)` of a Go `int`. -/
def toInt32 (v : Int) : Int := (v + 2 ^ 31) % 2 ^ 32 - 2 ^ 31

/-- Go `toProtoProcessStatus`; `timestamppb.New(t)` is the clock reading `t`. -/
def toProtoProcessStatus (st : lib.ProcessStatus) : ProtoProcessStatus :=
  let ps : ProtoProcessStatus :=
    { State := toProtoProcessState st.State, StartTime := some st.StartTime, ExitCode := none,
      EndTime := none }
  let ps := match st.ExitCode with
    | some v => { ps with ExitCode := some (toInt32 v) }
    | none => ps
  match st.EndTime with
  | some t => { ps with EndTime := some t }
  | none => ps

/-- Go `protov1.StatusResponse` and `protov1.StopResponse`. -/
structure StatusResponse where
  Process : ProtoProcess
  Status : ProtoProcessStatus
deriving DecidableEq, Repr

/-- The mapping of an error of the runner that the `Status` and `Stop` handlers
share: `NotFound` when `errors.Is(err, os.ErrNotExist)`, else `Internal`. -/
def lookupErrorCode (err : runner.Error) : Code :=
  if err.isNotExist then .NotFound else .Internal

/-- The `Status` handler; `r` is the runner of the server. -/
def ProcessRunnerServiceServer.Status (s : ProcessRunnerServiceServer) (r : runner.Runner)
    (ctx : Context) (processIdentifier : String) : Except Code StatusResponse :=
  match s.checkOwnership ctx processIdentifier with
  | .error code => .error code
  | .ok () =>
    match r.Status processIdentifier with
    | .error err => .error (lookupErrorCode err)
    | .ok statusResult =>
      .ok { Process := toProtoProcess statusResult.Command,
            Status := toProtoProcessStatus statusResult.Status }

/-- The `Stop` handler; `stopResult` is what `s.runner.Stop(processIdentifier)`
returns when it is called. -/
def ProcessRunnerServiceServer.Stop (s : ProcessRunnerServiceServer) (ctx : Context)
    (processIdentifier : String) (stopResult : Except runner.Error runner.StopResult) :
    Except Code StatusResponse :=
  match s.checkOwnership ctx processIdentifier with
  | .error code => .error code
  | .ok () =>
    match stopResult with
    | .error err => .error (lookupErrorCode err)
    | .ok res =>
      .ok { Process := toProtoProcess res.Command, Status := toProtoProcessStatus res.Status }

/-- Go `protov1.GetOutputResponse_Type`. -/
inductive OutputType where
  | TYPE_UNSPECIFIED
  | TYPE_STDOUT
  | TYPE_STDERR
deriving DecidableEq, Repr

/-- Go `protov1.GetOutputResponse` (`Type_` is the field `Type`). -/
structure GetOutputResponse where
  Type_ : OutputType
  Data : output_storage.Chunk
deriving DecidableEq, Repr

/-- What the `select` of one iteration of the loop of `GetOutput` takes: the
context is done, or a receive from `stdout` or from `stderr`, with the chunk
received or `none` for `!ok`. -/
inductive Selected where
  | done
  | stdout (chunk : Option output_storage.Chunk)
  | stderr (chunk : Option output_storage.Chunk)
deriving DecidableEq, Repr

/-- What `GetOutput` returned: `nil`, a status error, or the error of
`streaming.Send`. -/
inductive OutputReturn where
  | nil
  | status (code : Code)
  | sendError (err : String)
deriving DecidableEq, Repr

/-- The loop of `GetOutput` (lines 23-50) at its `select`, or after its return:
`stdout` and `stderr` tell whether the variable still holds its channel,
`sent` are the messages that `streaming.Send` has accepted, and `ret` is what
the handler returned, once it has. -/
structure OutputLoop where
  stdout : Bool
  stderr : Bool
  sent : List GetOutputResponse
  ret : Option OutputReturn
deriving DecidableEq, Repr

/-- The head of the loop (lines 24-26) after a `continue`. -/
def OutputLoop.head (st : OutputLoop) : OutputLoop :=
  if !st.stdout && !st.stderr then { st with ret := some .nil } else st

/-- One iteration of the loop of `GetOutput`: the event is what the `select`
takes, with the error `streaming.Send` would answer.  There is no step after
the return, and a nil channel is never selected. -/
def OutputLoop.step (st : OutputLoop) (e : Selected × Option String) : Option OutputLoop :=
  if st.ret.isSome then none
  else
    match e.1 with
    | .done => some { st with ret := some .nil }
    | .stdout none => if st.stdout then some { st with stdout := false }.head else none
    | .stderr none => if st.stderr then some { st with stderr := false }.head else none
    | .stdout (some chunk) =>
      if st.stdout then
        match e.2 with
        | some err => some { st with ret := some (.sendError err) }
        | none => some { st with sent := st.sent ++ [⟨.TYPE_STDOUT, chunk⟩] }
      else none
    | .stderr (some chunk) =>
      if st.stderr then
        match e.2 with
        | some err => some { st with ret := some (.sendError err) }
        | none => some { st with sent := st.sent ++ [⟨.TYPE_STDERR, chunk⟩] }
      else none

/-- The loop of `GetOutput` through a list of events. -/
def OutputLoop.run (st : OutputLoop) : List (Selected × Option String) → Option OutputLoop
  | [] => some st
  | e :: rest =>
    match st.step e with
    | none => none
    | some st' => st'.run rest

/-- The leaf certificate of the peer of a context: the first of the peer
certificates of a TLS peer, when it is there. -/
def leafCertificate (ctx : Context) : Option Certificate :=
  match ctx.peer with
  | some (.tls (some leaf :: _)) => some leaf
  | _ => none

/-- The peer identity in the words of the specification: the host component of
the first URI with scheme `spiffe` in the SAN list of the peer leaf
certificate, if there is one. -/
def specPeerIdentity (ctx : Context) : Option String :=
  match leafCertificate ctx with
  | none => none
  | some leaf =>
    ((leaf.URIs.filterMap fun uri => uri).find? fun uri => uri.Scheme = "spiffe").map
      fun uri => uri.Host

/-- A handler that counts its invocations. -/
def countingHandler : Context → Unit → Nat → Except Code Unit × Nat :=
  fun _ _ n => (.ok (), n + 1)

/-- A stream handler that counts its invocations. -/
def countingStreamHandler : Unit → Context → Nat → Except Code Unit × Nat :=
  fun _ _ n => (.ok (), n + 1)

/-- A context whose peer shows a leaf certificate with the SANs
`https://example.org` and `spiffe://client2`. -/
def client2Context : Context :=
  { spiffeId := none,
    peer := some (.tls [some { URIs := [some ⟨"https", "example.org"⟩, none,
                                        some ⟨"spiffe", "client2"⟩] }]) }

/-- A context whose peer shows a leaf certificate without a SPIFFE URI. -/
def anonymousContext : Context :=
  { spiffeId := none, peer := some (.tls [some { URIs := [some ⟨"https", "example.org"⟩] }]) }

/-- The server after `client1` has started the process `p1`. -/
def exampleServer : ProcessRunnerServiceServer :=
  afterStarts [(injectSpiffeId Context.background "client1",
                .ok ⟨"p1", 4242, ⟨.Running, none, 100, none⟩⟩)]

end server

/-! # cmd/cli/print.go -/

namespace cli

open strings

/-- Go `maxInt`. -/
def maxInt (a b : Nat) : Nat := if a > b then a else b

/-- Go `pad`. -/
def pad (s : String) (w : Nat) : String :=
  if len s ≥ w then s else s ++ Repeat " " (w - len s)

/-- The text of the state column (`print.go`, lines 11-21); a nil status is `none`. -/
def stateText (st : Option server.ProtoProcessStatus) : String :=
  match st with
  | none => ""
  | some st =>
    match st.State with
    | .PROCESS_STATE_RUNNING => "Running"
    | .PROCESS_STATE_STOPPED => "Stopped"
    | _ => "Unknown"

/-- The text of the command column (`print.go`, lines 22-26); a nil process is `none`. -/
def commandText (p : Option server.ProtoProcess) : String :=
  match p with
  | none => ""
  | some p => TrimSpace (Join (p.Command :: p.Args) " ")

/-- Go `printStatusTable`: what the five print calls write to standard output,
in order. -/
def printStatusTable (id : String) (st : Option server.ProtoProcessStatus)
    (p : Option server.ProtoProcess) : List String :=
  let state := stateText st
  let cmd := commandText p
  let idW := maxInt 36 (len id)
  let stateW := maxInt 7 (len state)
  let cmdW := maxInt 7 (len cmd)
  let sep := "+-" ++ Repeat "-" idW ++ "-+-" ++ Repeat "-" stateW ++ "-+-" ++ Repeat "-" cmdW
    ++ "-+\n"
  [sep,
   "| " ++ pad "ID" idW ++ " | " ++ pad "STATE" stateW ++ " | " ++ pad "COMMAND" cmdW ++ " |\n",
   sep,
   "| " ++ pad id idW ++ " | " ++ pad state stateW ++ " | " ++ pad cmd cmdW ++ " |\n",
   sep]

/-- The loop of `lines` over the characters left, with the line gathered so far. -/
def linesFrom : List Char → List Char → List String
  | [], cur => if cur = [] then [] else [⟨cur⟩]
  | c :: rest, cur => if c = '\n' then ⟨cur⟩ :: linesFrom rest [] else linesFrom rest (cur ++ [c])

/-- The lines of a text as a terminal shows it: each line feed ends a line, and
characters after the last line feed are a line of their own. -/
def lines (text : String) : List String := linesFrom text.data []

end cli

/-! # Theorems: output store -/

namespace output_storage

theorem getElem?_set_cases {α : Type} {l : List α} {i n : Nat} {a c : α}
    (h : (l.set i a)[n]? = some c) : (n = i ∧ c = a) ∨ (n ≠ i ∧ l[n]? = some c) := by
  rw [List.getElem?_set] at h
  split at h
  · split at h
    · left; rename_i h1 _; exact ⟨h1.symm, by simpa using h.symm⟩
    · cases h
  · right; rename_i h1; exact ⟨fun e => h1 e.symm, h⟩

theorem Broadcaster.Inv.dispStep {T : Type} {b b' : Broadcaster T} {pick : Nat}
    (hi : b.Inv) (h : b.dispStep pick = some b') : b'.Inv := by
  obtain ⟨h1, h2, h3⟩ := hi
  unfold Broadcaster.dispStep at h
  split at h <;> rename_i hd <;> simp only [hd, DispPc.halting] at h1 h2 h3
  all_goals repeat' split at h
  all_goals cases h
  all_goals constructor
  all_goals simp_all [DispPc.halting, Broadcaster.setChan, Chan.pop, Chan.push, Chan.close]
  all_goals first
    | assumption
    | (intro n c hc
       rcases getElem?_set_cases hc with ⟨-, rfl⟩ | ⟨-, hc'⟩
       · first | rfl | assumption | (dsimp only; exact h3 _ _ (by assumption))
       · exact h3 n c hc')

theorem Broadcaster.dispStep_frame {T : Type} {b b' : Broadcaster T} {pick : Nat}
    (h : b.dispStep pick = some b') :
    b'.messageReceiver.closed = b.messageReceiver.closed ∧ b'.subscribers = b.subscribers ∧
    b'.chans.length = b.chans.length ∧ (b.stopped = true → b'.stopped = true) := by
  unfold Broadcaster.dispStep at h
  split at h
  all_goals repeat' split at h
  all_goals cases h
  all_goals simp [Broadcaster.setChan, Chan.pop, Chan.push, Chan.close]

theorem exists_getElem?_set_ne {α : Type} {l : List α} {i n : Nat} {a : α} {P : α → Prop}
    (h : i ≠ n) : (∃ c, (l.set i a)[n]? = some c ∧ P c) ↔ (∃ c, l[n]? = some c ∧ P c) := by
  rw [List.getElem?_set_ne h]

theorem exists_getElem?_set_self {α : Type} {l : List α} {n : Nat} {a c0 : α} {P : α → Prop}
    (h0 : l[n]? = some c0) : (∃ c, (l.set n a)[n]? = some c ∧ P c) ↔ P a := by
  have hlt : n < l.length := (List.getElem?_eq_some_iff.mp h0).1
  rw [List.getElem?_set_self hlt]
  simp

theorem Broadcaster.dispStep_covers {T : Type} {b b' : Broadcaster T} {pick n : Nat}
    (h : b.dispStep pick = some b') (hn : n ∈ b.subscribers) (hc : b.covers n) : b'.covers n := by
  unfold Broadcaster.covers at hc ⊢
  unfold Broadcaster.dispStep at h
  cases hd : b.disp with
  | recv =>
    simp only [hd, DispPc.targets] at h hc
    split at h
    · cases h; simp [DispPc.targets]
    · split at h
      · cases h; simpa [DispPc.targets] using hc
      · cases h
  | snapshot msg =>
    simp only [hd] at h; cases h
    simp [DispPc.targets, hn]
  | sending msg pending =>
    simp only [hd, DispPc.targets] at h hc
    split at h
    · cases h; simpa [DispPc.targets] using hc
    · split at h
      · split at h
        · cases h
        · rename_i c hcp
          split at h
          · cases h; simpa [hd, DispPc.targets] using hc
          · split at h
            · cases h
              by_cases hpn : pick = n
              · subst hpn
                left
                simp [Broadcaster.setChan, exists_getElem?_set_self hcp, Chan.push]
              · rcases hc with hc | hc | hc
                · left; simpa [Broadcaster.setChan, exists_getElem?_set_ne hpn] using hc
                · right; left
                  simp only [DispPc.targets]
                  exact (List.mem_erase_of_ne (fun e => hpn e.symm)).mpr hc
                · right; right; exact hc
            · cases h
              by_cases hpn : pick = n
              · right; left; simp [DispPc.targets, hpn]
              · rcases hc with hc | hc | hc
                · left; exact hc
                · right; left
                  simp only [DispPc.targets]
                  exact Or.inr ((List.mem_erase_of_ne (fun e => hpn e.symm)).mpr hc)
                · right; right; exact hc
      · cases h
  | drain msg cur pending =>
    simp only [hd, DispPc.targets] at h hc
    split at h
    · cases h
    · cases h
      by_cases hpn : cur = n
      · right; left; simp [DispPc.targets, hpn]
      · rcases hc with hc | hc | hc
        · left; simpa [Broadcaster.setChan, exists_getElem?_set_ne hpn] using hc
        · right; left; simpa [DispPc.targets] using hc
        · right; right; exact hc
  | resend msg cur pending =>
    simp only [hd, DispPc.targets] at h hc
    split at h
    · cases h
    · rename_i c hcp
      split at h
      · cases h; simpa [hd, DispPc.targets] using hc
      · split at h
        · cases h
          by_cases hpn : cur = n
          · subst hpn
            left
            simp [Broadcaster.setChan, exists_getElem?_set_self hcp, Chan.push]
          · rcases hc with hc | hc | hc
            · left; simpa [Broadcaster.setChan, exists_getElem?_set_ne hpn] using hc
            · right; left
              simp only [DispPc.targets]
              rcases hc with hc | hc
              · exact absurd hc hpn
              · exact hc
            · right; right; exact hc
        · cases h
  | stopping =>
    simp only [hd, DispPc.targets] at h hc
    cases h; simpa [DispPc.targets] using hc
  | closing pending =>
    simp only [hd, DispPc.targets] at h hc
    split at h
    · cases h; simpa [DispPc.targets] using hc
    · split at h
      · split at h
        · cases h
        · rename_i c hcp
          split at h
          · cases h; simpa [hd, DispPc.targets] using hc
          · cases h
            rcases hc with hc | hc | hc
            · left
              by_cases hpn : pick = n
              · subst hpn
                obtain ⟨c1, hc1, hc2⟩ := hc
                rw [hcp] at hc1; cases hc1
                simpa [Broadcaster.setChan, exists_getElem?_set_self hcp, Chan.close] using hc2
              · simpa [Broadcaster.setChan, exists_getElem?_set_ne hpn] using hc
            · exact absurd hc (by simp)
            · right; right; exact hc
      · cases h
  | exited => simp only [hd] at h; cases h

theorem Broadcaster.Inv.publishStep {T : Type} {b b' : Broadcaster T} {pc : PubPc T}
    {pc' : Option (PubPc T)} (hi : b.Inv) (h : b.publishStep pc = some (b', pc')) : b'.Inv := by
  obtain ⟨h1, h2, h3⟩ := hi
  unfold Broadcaster.publishStep at h
  cases pc with
  | trySend msg =>
    simp only at h
    split at h
    · cases h; exact ⟨h1, h2, h3⟩
    · rename_i hc
      split at h
      · cases h
        exact ⟨fun hh => absurd (h1 hh).1 hc, h2, h3⟩
      · cases h; exact ⟨h1, h2, h3⟩
  | drain msg =>
    simp only at h
    cases h
    refine ⟨fun hh => ?_, h2, h3⟩
    have := h1 hh
    simp [Chan.pop, this.1, this.2]
  | resend msg =>
    simp only at h
    split at h
    · cases h; exact ⟨h1, h2, h3⟩
    · rename_i hc
      split at h
      · cases h
        exact ⟨fun hh => absurd (h1 hh).1 hc, h2, h3⟩
      · cases h

theorem Broadcaster.publishStep_frame {T : Type} {b b' : Broadcaster T} {pc : PubPc T}
    {pc' : Option (PubPc T)} (h : b.publishStep pc = some (b', pc')) :
    b'.messageReceiver.closed = b.messageReceiver.closed ∧ b'.subscribers = b.subscribers ∧
    b'.chans = b.chans ∧ b'.disp = b.disp ∧ b'.stopped = b.stopped := by
  unfold Broadcaster.publishStep at h
  cases pc <;> simp only at h
  all_goals repeat' split at h
  all_goals cases h
  all_goals simp [Chan.pop, Chan.push]

theorem Broadcaster.publishStep_covers {T : Type} {b b' : Broadcaster T} {pc : PubPc T}
    {pc' : Option (PubPc T)} (n : Nat) (h : b.publishStep pc = some (b', pc'))
    (hc : b.messageReceiver.closed = false) : b'.covers n ∨ pc' ≠ none := by
  unfold Broadcaster.publishStep at h
  cases pc <;> simp only [hc] at h
  all_goals repeat' split at h
  all_goals cases h
  all_goals first
    | contradiction
    | simp [Broadcaster.covers, Chan.push]

theorem Broadcaster.Inv.Stop {T : Type} {b : Broadcaster T} (hi : b.Inv) : b.Stop.Inv := by
  obtain ⟨h1, h2, h3⟩ := hi
  unfold Broadcaster.Stop
  split
  · exact ⟨h1, h2, h3⟩
  · exact ⟨fun hh => ⟨rfl, (h1 hh).2⟩, h2, h3⟩

theorem Broadcaster.Stop_frame {T : Type} (b : Broadcaster T) :
    b.Stop.messageReceiver.closed = true ∧ b.Stop.subscribers = b.subscribers ∧
    b.Stop.chans = b.chans ∧ b.Stop.disp = b.disp ∧ b.Stop.stopped = b.stopped ∧
    b.Stop.messageReceiver.buf = b.messageReceiver.buf := by
  unfold Broadcaster.Stop
  split
  · rename_i h; simp [h]
  · simp [Chan.close]

theorem Broadcaster.Stop_covers {T : Type} {b : Broadcaster T} {n : Nat} (h : b.covers n) :
    b.Stop.covers n := by
  obtain ⟨-, -, h3, h4, -, h6⟩ := Broadcaster.Stop_frame b
  unfold Broadcaster.covers at h ⊢
  rw [h3, h4, h6]; exact h

theorem Broadcaster.Subscribe_cases {T : Type} {b b' : Broadcaster T} {r : Option Nat}
    (h : b.Subscribe = some (b', r)) :
    (b.stopped = true ∧ b' = b ∧ r = none) ∨
    (b.stopped = false ∧ r = some b.chans.length ∧ b' = b.register) := by
  unfold Broadcaster.Subscribe at h
  split at h
  · cases h
  · split at h
    · rename_i hs; cases h; exact Or.inl ⟨hs, rfl, rfl⟩
    · rename_i hs; cases h; exact Or.inr ⟨by simpa using hs, rfl, rfl⟩

theorem Broadcaster.Inv.subscribed {T : Type} {b : Broadcaster T} (hi : b.Inv) :
    b.register.Inv := by
  obtain ⟨h1, h2, h3⟩ := hi
  refine ⟨h1, h2, ?_⟩
  intro n c hc hcl
  simp only [Broadcaster.register] at hc
  by_cases hlt : n < b.chans.length
  · rw [List.getElem?_append_left hlt] at hc
    exact h3 n c hc hcl
  · rw [List.getElem?_append_right (by omega)] at hc
    have : c = Chan.make T 1 := by
      rcases List.getElem?_eq_some_iff.mp hc with ⟨hl, he⟩
      simp at hl
      have h0 : n - b.chans.length = 0 := by omega
      simp [h0] at he
      exact he.symm
    subst this
    simp [Chan.make] at hcl

theorem Broadcaster.covers_subscribed {T : Type} {b : Broadcaster T} {n : Nat} (h : b.covers n) :
    b.register.covers n := by
  unfold Broadcaster.covers at h ⊢
  rcases h with ⟨c, hc, hb⟩ | h | h
  · left
    have hlt : n < b.chans.length := (List.getElem?_eq_some_iff.mp hc).1
    refine ⟨c, ?_, hb⟩
    simp only [Broadcaster.register]
    rw [List.getElem?_append_left hlt]; exact hc
  · right; left; exact h
  · right; right; exact h

theorem Broadcaster.Inv.setChan_pop {T : Type} {b : Broadcaster T} {n : Nat} {c : Chan T}
    (hi : b.Inv) (hc : b.chans[n]? = some c) : (b.setChan n c.pop).Inv := by
  obtain ⟨h1, h2, h3⟩ := hi
  refine ⟨h1, h2, ?_⟩
  intro m c' hc' hcl
  rcases getElem?_set_cases hc' with ⟨-, rfl⟩ | ⟨-, hm⟩
  · exact h3 n c hc hcl
  · exact h3 m c' hm hcl

theorem Broadcaster.covers_setChan_ne {T : Type} {b : Broadcaster T} {n m : Nat} {c : Chan T}
    (hne : n ≠ m) (h : b.covers m) : (b.setChan n c).covers m := by
  unfold Broadcaster.covers at h ⊢
  rcases h with h | h | h
  · left; simpa [Broadcaster.setChan, exists_getElem?_set_ne hne] using h
  · right; left; exact h
  · right; right; exact h

theorem Broadcaster.Inv.stopped_halting {T : Type} {b : Broadcaster T} (hi : b.Inv)
    (h : b.stopped = true) : b.disp.halting := by
  rw [hi.stopped_exited h]; trivial

theorem Subscriber.wf_append {nodes : List Chunk} {sub : Subscriber} (d : Chunk)
    (h : sub.wf nodes) : sub.wf (nodes ++ [d]) := by
  obtain ⟨h1, h2, h3, h4⟩ := h
  refine ⟨by simp; omega, h2, h3, ?_⟩
  cases hpc : sub.pc <;> simp only [hpc] at h4 ⊢ <;>
    first
    | (rw [List.take_append_of_le_length h1]; exact h4)
    | (obtain ⟨m, hm, hd, hs⟩ := h4
       refine ⟨m, hm, ?_, ?_⟩
       · rw [List.getElem?_append_left (by omega)]; exact hd
       · rw [List.take_append_of_le_length (by omega)]; exact hs)

theorem subscriberStep_wf {nodes : List Chunk} {b b' : Broadcaster Unit} {sub sub' : Subscriber}
    (h : subscriberStep nodes b sub = some (b', sub')) (hw : sub.wf nodes) : sub'.wf nodes := by
  obtain ⟨h1, h2, h3, h4⟩ := hw
  unfold subscriberStep at h
  split at h
  · -- load
    rename_i hpc
    simp only [hpc] at h4 h3
    split at h
    · rename_i data hd
      simp only [Option.some.injEq, Prod.mk.injEq] at h
      obtain ⟨-, rfl⟩ := h
      have hlt : sub.prev < nodes.length := by
        rcases List.getElem?_eq_some_iff.mp hd with ⟨hlt, -⟩; exact hlt
      refine ⟨hlt, h2, ?_, ?_⟩
      · intro hc; cases h3 hc
      · exact ⟨sub.prev, rfl, hd, h4⟩
    · split at h <;>
      · simp only [Option.some.injEq, Prod.mk.injEq] at h
        obtain ⟨-, rfl⟩ := h
        refine ⟨h1, h2, ?_, h4⟩
        intro hc; cases h3 hc
  · -- wait
    rename_i hpc
    simp only [hpc] at h4 h3
    split at h
    · simp at h
    · split at h
      · simp at h
      · split at h
        · simp only [Option.some.injEq, Prod.mk.injEq] at h
          obtain ⟨-, rfl⟩ := h
          refine ⟨h1, h2, ?_, h4⟩
          intro hc; cases h3 hc
        · split at h
          · simp only [Option.some.injEq, Prod.mk.injEq] at h
            obtain ⟨-, rfl⟩ := h
            refine ⟨h1, h2, ?_, h4⟩
            intro hc; cases h3 hc
          · simp at h
  · -- send
    rename_i data hpc
    simp only [hpc] at h4 h3
    obtain ⟨m, hm, hd, hs⟩ := h4
    split at h
    · simp at h
    · split at h
      · simp only [Option.some.injEq, Prod.mk.injEq] at h
        obtain ⟨-, rfl⟩ := h
        refine ⟨h1, ?_, ?_, ?_⟩
        · simp [Chan.push, ← h2, List.append_assoc]
        · intro hc; cases h3 hc
        · simp only [hm, hs]
          rw [List.take_succ, hd]; rfl
      · simp at h
  · -- close
    rename_i hpc
    simp only [hpc] at h4 h3
    split at h
    · simp at h
    · simp only [Option.some.injEq, Prod.mk.injEq] at h
      obtain ⟨-, rfl⟩ := h
      exact ⟨h1, h2, fun _ => rfl, h4⟩
  · simp at h

theorem wf_step {s s' : System} {a : Action}
    (hw : ∀ (k : Nat) (sub : Subscriber), s.subs[k]? = some sub → sub.wf s.nodes)
    (h : step s a = some s') :
    ∀ (k : Nat) (sub : Subscriber), s'.subs[k]? = some sub → sub.wf s'.nodes := by
  unfold step at h
  split at h
  · cases h
  cases a with
  | append data =>
    simp only at h
    split at h
    · cases h
    · cases h
      intro k sub hk
      exact Subscriber.wf_append data (hw k sub hk)
  | publish =>
    simp only at h
    split at h
    · cases h
    · split at h
      · cases h
      · cases h; exact hw
  | stop => simp only at h; cases h; exact hw
  | dispatch pick =>
    simp only at h
    split at h
    · cases h
    · cases h; exact hw
  | subscribe capacity =>
    simp only at h
    split at h
    · cases h
    · cases h
      intro k sub hk
      simp only at hk
      by_cases hlt : k < s.subs.length
      · rw [List.getElem?_append_left hlt] at hk
        exact hw k sub hk
      · rw [List.getElem?_append_right (by omega)] at hk
        rcases List.getElem?_eq_some_iff.mp hk with ⟨hl, he⟩
        simp at hl
        have h0 : k - s.subs.length = 0 := by omega
        simp [h0] at he
        subst he
        simp [Subscriber.wf, Chan.make]
  | subscriber k =>
    simp only at h
    split at h
    · cases h
    · rename_i sub hsub
      split at h
      · cases h
      · rename_i b sub' hstep
        cases h
        intro j x hj
        simp only at hj
        rcases getElem?_set_cases hj with ⟨-, rfl⟩ | ⟨-, hj'⟩
        · exact subscriberStep_wf hstep (hw k sub hsub)
        · exact hw j x hj'
  | handoff k =>
    simp only at h
    split at h
    · cases h
    · rename_i sub hsub
      split at h
      · rename_i data hpc
        split at h
        · cases h
        · rename_i hcond
          cases h
          intro j x hj
          simp only at hj
          rcases getElem?_set_cases hj with ⟨-, rfl⟩ | ⟨-, hj'⟩
          · obtain ⟨h1, h2, h3, h4⟩ := hw k sub hsub
            simp only [hpc] at h4
            obtain ⟨m, hm, hd, hs⟩ := h4
            have hbuf : sub.ch.buf = [] := by
              by_contra hne; exact hcond (Or.inr hne)
            refine ⟨h1, ?_, ?_, ?_⟩
            · simp [← h2, hbuf]
            · intro hc; exact absurd (Or.inl hc) hcond
            · simp only [hm, hs]
              rw [List.take_succ, hd]; rfl
          · exact hw j x hj'
      · cases h
  | consume k =>
    simp only at h
    split at h
    · cases h
    · rename_i sub hsub
      split at h
      · cases h
      · rename_i data rest hbuf
        cases h
        intro j x hj
        simp only at hj
        rcases getElem?_set_cases hj with ⟨-, rfl⟩ | ⟨-, hj'⟩
        · obtain ⟨h1, h2, h3, h4⟩ := hw k sub hsub
          refine ⟨h1, ?_, h3, h4⟩
          simp [Chan.pop, hbuf, ← h2]
        · exact hw j x hj'

theorem System.Inv.init : RunNewOutputStorage.Inv := by
  refine ⟨⟨?_, ?_, ?_⟩, ?_, ?_, ?_, ?_, ?_, ?_, ?_⟩ <;>
    simp [RunNewOutputStorage, RunNewBroadcaster, DispPc.halting, Chan.make]

theorem System.Inv.step_append {s s' : System} {data : Chunk} (hi : s.Inv)
    (ha : allowed s (.append data) = true) (h : step s (.append data) = some s') : s'.Inv := by
  have hw := wf_step hi.wf h
  have hc : s.broadcaster.messageReceiver.closed = false := by simpa [allowed] using ha
  unfold step at h
  split at h
  · cases h
  simp only at h
  split at h
  · cases h
  cases h
  refine ⟨hi.binv, hw, ?_, hi.notif, hi.notif_inj, ?_, ?_, hi.stoppedPath⟩
  · intro hcl; simp [hc] at hcl
  · intro k sub n _ _ _ _
    right; simp
  · intro k sub hk hpc
    have := (hi.fin k sub hk hpc).2
    simp [hc] at this

theorem System.Inv.step_publish {s s' : System} (hi : s.Inv)
    (h : step s .publish = some s') : s'.Inv := by
  have hw := wf_step hi.wf h
  unfold step at h
  split at h
  · cases h
  simp only at h
  split at h
  · cases h
  rename_i pc hpc
  split at h
  · cases h
  rename_i b pc' hstep
  cases h
  have hc : s.broadcaster.messageReceiver.closed = false := by
    cases hcl : s.broadcaster.messageReceiver.closed
    · rfl
    · have := hi.pub_idle hcl
      simp [hpc] at this
  obtain ⟨f1, f2, f3, f4, f5⟩ := Broadcaster.publishStep_frame hstep
  refine ⟨hi.binv.publishStep hstep, hw, ?_, ?_, hi.notif_inj, ?_, ?_, ?_⟩
  · intro hcl; simp only at hcl; rw [f1, hc] at hcl; cases hcl
  · intro k sub n hk hn
    simp only [f2, f3]
    exact hi.notif k sub n hk hn
  · intro k sub n _ _ _ _
    exact Broadcaster.publishStep_covers n hstep hc
  · intro k sub hk hp
    simp only [f1]
    exact hi.fin k sub hk hp
  · intro k sub hk hn
    simp only [f1]
    exact hi.stoppedPath k sub hk hn

theorem System.Inv.step_stop {s s' : System} (hi : s.Inv)
    (ha : allowed s .stop = true) (h : step s .stop = some s') : s'.Inv := by
  have hw := wf_step hi.wf h
  have hp : s.publishing = none := by simpa [allowed] using ha
  unfold step at h
  split at h
  · cases h
  simp only at h
  cases h
  obtain ⟨f1, f2, f3, f4, f5, f6⟩ := Broadcaster.Stop_frame s.broadcaster
  refine ⟨hi.binv.Stop, hw, fun _ => hp, ?_, hi.notif_inj, ?_, ?_, fun _ _ _ _ => f1⟩
  · intro k sub n hk hn
    simp only [f2, f3]
    exact hi.notif k sub n hk hn
  · intro k sub n hk hn hpc hlt
    rcases hi.covered k sub n hk hn hpc hlt with hcov | hcov
    · exact Or.inl (Broadcaster.Stop_covers hcov)
    · exact absurd hp hcov
  · intro k sub hk hpc
    exact ⟨(hi.fin k sub hk hpc).1, f1⟩

theorem System.Inv.step_dispatch {s s' : System} {pick : Nat} (hi : s.Inv)
    (h : step s (.dispatch pick) = some s') : s'.Inv := by
  have hw := wf_step hi.wf h
  unfold step at h
  split at h
  · cases h
  simp only at h
  split at h
  · cases h
  rename_i b hstep
  cases h
  obtain ⟨f1, f2, f3, f4⟩ := Broadcaster.dispStep_frame hstep
  refine ⟨hi.binv.dispStep hstep, hw, ?_, ?_, hi.notif_inj, ?_, ?_, ?_⟩
  · intro hcl; simp only at hcl; rw [f1] at hcl; exact hi.pub_idle hcl
  · intro k sub n hk hn
    simp only [f2, f3]
    exact hi.notif k sub n hk hn
  · intro k sub n hk hn hpc hlt
    rcases hi.covered k sub n hk hn hpc hlt with hcov | hcov
    · exact Or.inl (Broadcaster.dispStep_covers hstep (hi.notif k sub n hk hn).2 hcov)
    · exact Or.inr hcov
  · intro k sub hk hp
    simp only [f1]
    exact hi.fin k sub hk hp
  · intro k sub hk hn
    simp only [f1]
    exact hi.stoppedPath k sub hk hn

theorem getElem?_snoc_cases {α : Type} {l : List α} {x y : α} {k : Nat}
    (h : (l ++ [x])[k]? = some y) :
    (k < l.length ∧ l[k]? = some y) ∨ (k = l.length ∧ y = x) := by
  by_cases hlt : k < l.length
  · rw [List.getElem?_append_left hlt] at h
    exact Or.inl ⟨hlt, h⟩
  · rw [List.getElem?_append_right (by omega)] at h
    rcases List.getElem?_eq_some_iff.mp h with ⟨hl, he⟩
    simp at hl
    have h0 : k - l.length = 0 := by omega
    simp [h0] at he
    exact Or.inr ⟨by omega, he.symm⟩

theorem System.Inv.step_subscribe {s s' : System} {capacity : Nat} (hi : s.Inv)
    (h : step s (.subscribe capacity) = some s') : s'.Inv := by
  have hw := wf_step hi.wf h
  unfold step at h
  split at h
  · cases h
  simp only at h
  split at h
  · cases h
  rename_i b notifier hsub
  cases h
  rcases Broadcaster.Subscribe_cases hsub with ⟨hst, rfl, rfl⟩ | ⟨hst, rfl, rfl⟩
  · -- the stopped path
    have hcl : s.broadcaster.messageReceiver.closed = true :=
      (hi.binv.halting_inbox (hi.binv.stopped_halting hst)).1
    refine ⟨hi.binv, hw, hi.pub_idle, ?_, ?_, ?_, ?_, fun _ _ _ _ => hcl⟩
    · intro k sub n hk hn
      rcases getElem?_snoc_cases hk with ⟨-, hk'⟩ | ⟨-, rfl⟩
      · exact hi.notif k sub n hk' hn
      · cases hn
    · intro i j si sj n hi' hj hni hnj
      rcases getElem?_snoc_cases hi' with ⟨-, hi''⟩ | ⟨-, rfl⟩
      · rcases getElem?_snoc_cases hj with ⟨-, hj''⟩ | ⟨-, rfl⟩
        · exact hi.notif_inj i j si sj n hi'' hj'' hni hnj
        · cases hnj
      · cases hni
    · intro k sub n hk hn hpc hlt
      rcases getElem?_snoc_cases hk with ⟨-, hk'⟩ | ⟨-, rfl⟩
      · exact hi.covered k sub n hk' hn hpc hlt
      · cases hpc
    · intro k sub hk hpc
      rcases getElem?_snoc_cases hk with ⟨-, hk'⟩ | ⟨-, rfl⟩
      · exact hi.fin k sub hk' hpc
      · rcases hpc with hpc | hpc <;> cases hpc
  · -- the running path
    refine ⟨hi.binv.subscribed, hw, hi.pub_idle, ?_, ?_, ?_, ?_, ?_⟩
    · intro k sub n hk hn
      rcases getElem?_snoc_cases hk with ⟨-, hk'⟩ | ⟨-, rfl⟩
      · have := hi.notif k sub n hk' hn
        simp only [Broadcaster.register, List.length_append, List.length_singleton,
          List.mem_append]
        exact ⟨by omega, Or.inl this.2⟩
      · simp only [Option.some.injEq] at hn
        subst hn
        simp [Broadcaster.register]
    · intro i j si sj n hi' hj hni hnj
      rcases getElem?_snoc_cases hi' with ⟨-, hi''⟩ | ⟨hie, rfl⟩
      · rcases getElem?_snoc_cases hj with ⟨-, hj''⟩ | ⟨-, rfl⟩
        · exact hi.notif_inj i j si sj n hi'' hj'' hni hnj
        · simp only [Option.some.injEq] at hnj
          have := (hi.notif i si n hi'' hni).1
          omega
      · rcases getElem?_snoc_cases hj with ⟨-, hj''⟩ | ⟨hje, rfl⟩
        · simp only [Option.some.injEq] at hni
          have := (hi.notif j sj n hj'' hnj).1
          omega
        · omega
    · intro k sub n hk hn hpc hlt
      rcases getElem?_snoc_cases hk with ⟨-, hk'⟩ | ⟨-, rfl⟩
      · rcases hi.covered k sub n hk' hn hpc hlt with hcov | hcov
        · exact Or.inl (Broadcaster.covers_subscribed hcov)
        · exact Or.inr hcov
      · cases hpc
    · intro k sub hk hpc
      rcases getElem?_snoc_cases hk with ⟨-, hk'⟩ | ⟨-, rfl⟩
      · exact hi.fin k sub hk' hpc
      · rcases hpc with hpc | hpc <;> cases hpc
    · intro k sub hk hn
      rcases getElem?_snoc_cases hk with ⟨-, hk'⟩ | ⟨-, rfl⟩
      · exact hi.stoppedPath k sub hk' hn
      · cases hn

/-- A step that changes only subscriber `k`, keeps its notifier, and leaves it
neither waiting behind the list nor finished before the end of a closed store. -/
theorem System.Inv.set_sub {s : System} {k : Nat} {sub sub' : Subscriber} (hi : s.Inv)
    (hk : s.subs[k]? = some sub) (hn : sub'.notifier = sub.notifier)
    (hw : sub'.wf s.nodes)
    (hcov : ∀ n, sub'.notifier = some n → sub'.pc = .wait → sub'.prev < s.nodes.length →
      Covered s n)
    (hfin : sub'.pc = .close ∨ sub'.pc = .done →
      sub'.prev = s.nodes.length ∧ s.broadcaster.messageReceiver.closed = true) :
    System.Inv { s with subs := s.subs.set k sub' } := by
  refine ⟨hi.binv, ?_, hi.pub_idle, ?_, ?_, ?_, ?_, ?_⟩
  · intro j x hj
    rcases getElem?_set_cases hj with ⟨-, rfl⟩ | ⟨-, hj'⟩
    · exact hw
    · exact hi.wf j x hj'
  · intro j x n hj hxn
    rcases getElem?_set_cases hj with ⟨-, rfl⟩ | ⟨-, hj'⟩
    · exact hi.notif k sub n hk (hn ▸ hxn)
    · exact hi.notif j x n hj' hxn
  · intro i j si sj n hi' hj hni hnj
    rcases getElem?_set_cases hi' with ⟨rfl, rfl⟩ | ⟨hik, hi''⟩
    · rcases getElem?_set_cases hj with ⟨rfl, rfl⟩ | ⟨hjk, hj''⟩
      · rfl
      · exact hi.notif_inj i j sub sj n hk hj'' (hn ▸ hni) hnj
    · rcases getElem?_set_cases hj with ⟨rfl, rfl⟩ | ⟨hjk, hj''⟩
      · exact hi.notif_inj i j si sub n hi'' hk hni (hn ▸ hnj)
      · exact hi.notif_inj i j si sj n hi'' hj'' hni hnj
  · intro j x n hj hxn hpc hlt
    rcases getElem?_set_cases hj with ⟨-, rfl⟩ | ⟨-, hj'⟩
    · exact hcov n hxn hpc hlt
    · exact hi.covered j x n hj' hxn hpc hlt
  · intro j x hj hpc
    rcases getElem?_set_cases hj with ⟨-, rfl⟩ | ⟨-, hj'⟩
    · exact hfin hpc
    · exact hi.fin j x hj' hpc
  · intro j x hj hxn
    rcases getElem?_set_cases hj with ⟨-, rfl⟩ | ⟨-, hj'⟩
    · exact hi.stoppedPath k sub hk (hn ▸ hxn)
    · exact hi.stoppedPath j x hj' hxn

/-- Taking the buffered token out of notifier `n` when no subscriber on `n` is
waiting. -/
theorem System.Inv.pop_notifier {s : System} {n : Nat} {c : Chan Unit} (hi : s.Inv)
    (hc : s.broadcaster.chans[n]? = some c)
    (hnw : ∀ (k : Nat) (sub : Subscriber), s.subs[k]? = some sub → sub.notifier = some n →
      sub.pc ≠ .wait) :
    System.Inv { s with broadcaster := s.broadcaster.setChan n c.pop } := by
  refine ⟨hi.binv.setChan_pop hc, hi.wf, hi.pub_idle, ?_, hi.notif_inj, ?_, hi.fin,
    hi.stoppedPath⟩
  · intro k sub m hk hm
    have := hi.notif k sub m hk hm
    simpa [Broadcaster.setChan] using this
  · intro k sub m hk hm hpc hlt
    have hne : n ≠ m := by
      rintro rfl
      exact hnw k sub hk hm hpc
    rcases hi.covered k sub m hk hm hpc hlt with hcov | hcov
    · exact Or.inl (Broadcaster.covers_setChan_ne hne hcov)
    · exact Or.inr hcov

theorem DispPc.not_targets_of_halting {T : Type} {d : DispPc T} (n : Nat) (h : d.halting) :
    ¬ d.targets n := by
  cases d <;> simp [DispPc.halting, DispPc.targets] at h ⊢

theorem System.Inv.step_subscriber {s s' : System} {k : Nat} (hi : s.Inv)
    (h : step s (.subscriber k) = some s') : s'.Inv := by
  unfold step at h
  split at h
  · cases h
  simp only at h
  split at h
  · cases h
  rename_i sub hk
  split at h
  · cases h
  rename_i b sub' hstep
  cases h
  have hw' := subscriberStep_wf hstep (hi.wf k sub hk)
  have hwf := hi.wf k sub hk
  unfold subscriberStep at hstep
  cases hpc : sub.pc with
  | load =>
    simp only [hpc] at hstep
    split at hstep
    · cases hstep
      refine hi.set_sub hk rfl hw' ?_ ?_
      · intro n _ hp; cases hp
      · intro hp; rcases hp with hp | hp <;> cases hp
    · rename_i hnone
      have hge : s.nodes.length ≤ sub.prev := List.getElem?_eq_none_iff.mp hnone
      split at hstep
      · cases hstep
        refine hi.set_sub hk rfl hw' ?_ ?_
        · intro n _ _ hlt; simp only at hlt; omega
        · intro hp; rcases hp with hp | hp <;> cases hp
      · rename_i hnot
        cases hstep
        refine hi.set_sub hk rfl hw' ?_ ?_
        · intro n _ hp; cases hp
        · intro _
          exact ⟨Nat.le_antisymm hwf.1 hge, hi.stoppedPath k sub hk hnot⟩
  | wait =>
    simp only [hpc] at hstep
    split at hstep
    · cases hstep
    rename_i n hn
    split at hstep
    · cases hstep
    rename_i c hc
    split at hstep
    · cases hstep
      have h1 : System.Inv { s with subs := s.subs.set k { sub with pc := SubPc.load } } := by
        refine hi.set_sub hk rfl hw' ?_ ?_
        · intro n _ hp; cases hp
        · intro hp; rcases hp with hp | hp <;> cases hp
      refine h1.pop_notifier hc ?_
      intro j x hj hxn hxw
      rcases getElem?_set_cases hj with ⟨-, rfl⟩ | ⟨hjk, hj'⟩
      · cases hxw
      · exact hjk (hi.notif_inj j k x sub n hj' hk hxn hn)
    · rename_i hbuf
      split at hstep
      · rename_i hcl
        cases hstep
        have hhalt := hi.binv.closed_halting n c hc hcl
        have hin := hi.binv.halting_inbox hhalt
        refine hi.set_sub hk rfl hw' ?_ ?_
        · intro n _ hp; cases hp
        · intro _
          refine ⟨?_, hin.1⟩
          by_contra hne
          have hlt : sub.prev < s.nodes.length := lt_of_le_of_ne hwf.1 hne
          rcases hi.covered k sub n hk hn hpc hlt with hcov | hcov
          · rcases hcov with ⟨c', hc', hb'⟩ | ht | hm
            · rw [hc] at hc'; cases hc'; exact hb' hbuf
            · exact DispPc.not_targets_of_halting n hhalt ht
            · exact hm hin.2
          · exact hcov (hi.pub_idle hin.1)
      · cases hstep
  | send data =>
    simp only [hpc] at hstep
    split at hstep
    · cases hstep
    · split at hstep
      · cases hstep
        refine hi.set_sub hk rfl hw' ?_ ?_
        · intro n _ hp; cases hp
        · intro hp; rcases hp with hp | hp <;> cases hp
      · cases hstep
  | close =>
    simp only [hpc] at hstep
    split at hstep
    · cases hstep
    · cases hstep
      refine hi.set_sub hk rfl hw' ?_ ?_
      · intro n _ hp; cases hp
      · intro _
        exact hi.fin k sub hk (Or.inl hpc)
  | done =>
    simp only [hpc] at hstep
    cases hstep

theorem System.Inv.step_handoff {s s' : System} {k : Nat} (hi : s.Inv)
    (h : step s (.handoff k) = some s') : s'.Inv := by
  have hw := wf_step hi.wf h
  unfold step at h
  split at h
  · cases h
  simp only at h
  split at h
  · cases h
  rename_i sub hk
  split at h
  · split at h
    · cases h
    · cases h
      refine hi.set_sub hk rfl ?_ ?_ ?_
      · have := hw k
        simp only [List.getElem?_set_self (List.getElem?_eq_some_iff.mp hk).1] at this
        exact this _ rfl
      · intro n _ hp; cases hp
      · intro hp; rcases hp with hp | hp <;> cases hp
  · cases h

theorem System.Inv.step_consume {s s' : System} {k : Nat} (hi : s.Inv)
    (h : step s (.consume k) = some s') : s'.Inv := by
  have hw := wf_step hi.wf h
  unfold step at h
  split at h
  · cases h
  simp only at h
  split at h
  · cases h
  rename_i sub hk
  split at h
  · cases h
  · cases h
    refine hi.set_sub hk rfl ?_ ?_ ?_
    · have := hw k
      simp only [List.getElem?_set_self (List.getElem?_eq_some_iff.mp hk).1] at this
      exact this _ rfl
    · intro n hn hp hlt
      exact hi.covered k sub n hk hn hp hlt
    · intro hp
      exact hi.fin k sub hk hp

theorem System.Inv.step {s s' : System} {a : Action} (hi : s.Inv)
    (ha : allowed s a = true) (h : step s a = some s') : s'.Inv := by
  cases a with
  | append data => exact hi.step_append ha h
  | publish => exact hi.step_publish h
  | stop => exact hi.step_stop ha h
  | dispatch pick => exact hi.step_dispatch h
  | subscribe capacity => exact hi.step_subscribe h
  | subscriber k => exact hi.step_subscriber h
  | handoff k => exact hi.step_handoff h
  | consume k => exact hi.step_consume h

theorem System.Inv.exec {acts : List Action} {s s' : System} (hi : s.Inv)
    (h : exec s acts = some s') : s'.Inv := by
  induction acts generalizing s with
  | nil => simp only [output_storage.exec, Option.some.injEq] at h; exact h ▸ hi
  | cons a rest ih =>
    simp only [output_storage.exec] at h
    split at h
    · rename_i ha
      split at h
      · cases h
      · rename_i s1 hs1
        exact ih (hi.step ha hs1) h
    · cases h

theorem wf_run {acts : List Action} {s s' : System}
    (hw : ∀ (k : Nat) (sub : Subscriber), s.subs[k]? = some sub → sub.wf s.nodes)
    (h : run s acts = some s') :
    ∀ (k : Nat) (sub : Subscriber), s'.subs[k]? = some sub → sub.wf s'.nodes := by
  induction acts generalizing s with
  | nil => simp only [run, Option.some.injEq] at h; exact h ▸ hw
  | cons a rest ih =>
    simp only [run] at h
    split at h
    · cases h
    · rename_i s1 hs1
      exact ih (wf_step hw hs1) h

theorem Subscriber.wf.sent_initial {nodes : List Chunk} {sub : Subscriber} (h : sub.wf nodes) :
    sub.sent <+: nodes := by
  obtain ⟨-, -, -, h4⟩ := h
  cases hpc : sub.pc <;> simp only [hpc] at h4
  case send d =>
    obtain ⟨m, -, -, hs⟩ := h4
    rw [hs]; exact List.take_prefix _ _
  all_goals rw [h4]; exact List.take_prefix _ _

theorem Subscriber.wf.sent_eq_of_done {nodes : List Chunk} {sub : Subscriber} (h : sub.wf nodes)
    (hp : sub.prev = nodes.length) (hd : sub.pc = .done) : sub.sent = nodes := by
  obtain ⟨-, -, -, h4⟩ := h
  simp only [hd] at h4
  rw [h4, hp, List.take_length]

theorem System.Inv.closed_sent {s : System} (hi : s.Inv) {k : Nat} {sub : Subscriber}
    (hk : s.subs[k]? = some sub) (hcl : sub.ch.closed = true) : sub.sent = s.nodes := by
  have hw := hi.wf k sub hk
  have hd : sub.pc = .done := hw.2.2.1 hcl
  exact hw.sent_eq_of_done (hi.fin k sub hk (Or.inr hd)).1 hd

theorem exec_append {s : System} (l1 l2 : List Action) :
    exec s (l1 ++ l2) = (exec s l1).bind (fun s1 => exec s1 l2) := by
  induction l1 generalizing s with
  | nil => simp [exec]
  | cons a rest ih =>
    simp only [List.cons_append, exec]
    split
    · split
      · simp
      · exact ih
    · simp

theorem replay_loop (m : Nat) (s : System) (k : Nat) (sub : Subscriber)
    (hp : s.broadcaster.panicked = false) (hk : s.subs[k]? = some sub)
    (hnot : sub.notifier = none) (hpc : sub.pc = .load) (hbuf : sub.ch.buf = [])
    (hcl : sub.ch.closed = false) (hm : sub.prev + m = s.nodes.length) :
    ∃ s' sub', exec s (replaySchedule k m) = some s' ∧ s'.nodes = s.nodes ∧
      s'.subs[k]? = some sub' ∧ sub'.notifier = none ∧ sub'.ch.closed = true ∧
      sub'.ch.buf = [] ∧ sub'.delivered = sub.delivered ++ s.nodes.drop sub.prev := by
  induction m generalizing s sub with
  | zero =>
    have hnone : s.nodes[sub.prev]? = none := List.getElem?_eq_none_iff.mpr (by omega)
    have hlt : k < s.subs.length := (List.getElem?_eq_some_iff.mp hk).1
    let subF : Subscriber := { sub with pc := .done, ch := sub.ch.close }
    refine ⟨{ s with subs := s.subs.set k subF }, subF, ?_, rfl, ?_, hnot, rfl, hbuf, ?_⟩
    · simp [replaySchedule, exec, allowed, step, hp, hk, subscriberStep, hpc, hnone, hnot,
        hlt, hcl, subF]
    · simp [hlt]
    · simp [List.drop_eq_nil_of_le (show s.nodes.length ≤ sub.prev by omega)]
  | succ m ih =>
    have hlt : k < s.subs.length := (List.getElem?_eq_some_iff.mp hk).1
    have hlt' : sub.prev < s.nodes.length := by omega
    obtain ⟨d, hd⟩ : ∃ d, s.nodes[sub.prev]? = some d :=
      ⟨s.nodes[sub.prev], List.getElem?_eq_getElem hlt'⟩
    let sub2 : Subscriber :=
      { sub with prev := sub.prev + 1, sent := sub.sent ++ [d],
                 delivered := sub.delivered ++ [d] }
    let s2 : System := { s with subs := s.subs.set k sub2 }
    have h2 : exec s [.subscriber k, .handoff k] = some s2 := by
      simp [exec, allowed, step, hp, hk, subscriberStep, hpc, hd, hlt, hcl, hbuf, s2, sub2]
    obtain ⟨s', sub', he, hn, hk', hnot', hcl', hbuf', hdel⟩ :=
      ih s2 sub2 hp (by simp [s2, hlt]) hnot hpc hbuf hcl (by simp [s2, sub2]; omega)
    refine ⟨s', sub', ?_, hn, hk', hnot', hcl', hbuf', ?_⟩
    · have : replaySchedule k (m + 1) = [.subscriber k, .handoff k] ++ replaySchedule k m := rfl
      rw [this, exec_append, h2]
      exact he
    · rw [hdel]
      simp only [s2, sub2, List.append_assoc]
      congr 1
      rw [List.drop_eq_getElem_cons hlt']
      have := List.getElem?_eq_getElem hlt'
      rw [hd] at this
      simp only [Option.some.injEq] at this
      simp [this]

theorem exec_fillSchedule (chunks nodes : List Chunk) :
    exec (quietSystem nodes) (fillSchedule chunks) = some (frozenSystem (nodes ++ chunks)) := by
  induction chunks generalizing nodes with
  | nil =>
    simp [fillSchedule, exec, allowed, step, quietSystem, frozenSystem, RunNewBroadcaster,
      Broadcaster.Stop, Broadcaster.dispStep, Chan.make, Chan.close]
  | cons c rest ih =>
    have h1 : exec (quietSystem nodes)
        [.append c, .publish, .dispatch 0, .dispatch 0, .dispatch 0]
        = some (quietSystem (nodes ++ [c])) := by
      simp [exec, allowed, step, quietSystem, RunNewBroadcaster, Broadcaster.publishStep,
        Broadcaster.dispStep, Chan.make, Chan.hasRoom, Chan.push, Chan.pop]
    have h2 : fillSchedule (c :: rest) =
        [.append c, .publish, .dispatch 0, .dispatch 0, .dispatch 0] ++ fillSchedule rest := rfl
    rw [h2, exec_append, h1]
    simpa using ih (nodes ++ [c])

/-- Every sequence of chunks is the content of a reachable store whose
broadcaster has stopped. -/
theorem stopped_store_reachable (chunks : List Chunk) :
    exec RunNewOutputStorage (fillSchedule chunks) = some (frozenSystem chunks) := by
  have := exec_fillSchedule chunks []
  simpa [quietSystem, RunNewOutputStorage] using this

/-- C1, replay completeness at close.  In every state that a schedule of the
store reaches under the supervisor's usage (one appender, `Stop` only after
the last `Append` has returned), a subscriber whose output channel is closed
has sent on it exactly the chunks appended to the store, in order; what its
consumer has received together with what is still buffered in the closed
channel is that same sequence.  A closed channel stays closed and the node
list is frozen by then, so this is the state at the moment of closing too. -/
theorem replay_complete_at_close (acts : List Action) (s : System)
    (h : exec RunNewOutputStorage acts = some s) (k : Nat) (sub : Subscriber)
    (hk : s.subs[k]? = some sub) (hcl : sub.ch.closed = true) :
    sub.sent = s.nodes ∧ sub.delivered ++ sub.ch.buf = s.nodes := by
  have hi := System.Inv.init.exec h
  have hs := hi.closed_sent hk hcl
  exact ⟨hs, hs ▸ (hi.wf k sub hk).2.1⟩

/-- The running-path subscriber of `liveSchedule` is closed with the one
appended chunk sent. -/
theorem replay_complete_at_close_witness :
    exec RunNewOutputStorage liveSchedule = some liveSystem ∧
    liveSystem.subs[0]? = some liveSubscriber ∧
    liveSubscriber.notifier = some 0 ∧ liveSubscriber.ch.closed = true ∧
    (liveSubscriber.sent = liveSystem.nodes ∧
      liveSubscriber.delivered ++ liveSubscriber.ch.buf = liveSystem.nodes) :=
  ⟨by decide, by decide, by decide, by decide,
   replay_complete_at_close liveSchedule liveSystem (by decide) 0 liveSubscriber
     (by decide) (by decide)⟩

theorem exec_run {acts : List Action} {s s' : System} (h : exec s acts = some s') :
    run s acts = some s' := by
  induction acts generalizing s with
  | nil => simpa [exec, run] using h
  | cons a rest ih =>
    simp only [exec] at h
    split at h
    · split at h
      · cases h
      · rename_i s1 hs1
        simp only [run, hs1]
        exact ih h
    · cases h

/-- Ordering in the store with one appender.  In every state that any schedule
reaches (with or without the supervisor's usage), for every subscriber of
either path, the chunks sent
on its channel so far are an initial segment of the chunks appended to the
store, and the chunks its consumer has received are an initial segment of
those sent: no chunk is skipped, duplicated or reordered. -/
theorem sent_in_append_order (acts : List Action) (s : System)
    (h : run RunNewOutputStorage acts = some s) (k : Nat) (sub : Subscriber)
    (hk : s.subs[k]? = some sub) :
    sub.sent <+: s.nodes ∧ sub.delivered <+: sub.sent := by
  have hw := wf_run (s := RunNewOutputStorage) (by simp [RunNewOutputStorage]) h k sub hk
  exact ⟨hw.sent_initial, ⟨sub.ch.buf, hw.2.1⟩⟩

/-- The subscriber of `liveSchedule` has sent an initial segment of the store. -/
theorem sent_in_append_order_witness :
    run RunNewOutputStorage liveSchedule = some liveSystem ∧
    liveSystem.subs[0]? = some liveSubscriber ∧
    (liveSubscriber.sent <+: liveSystem.nodes ∧
      liveSubscriber.delivered <+: liveSubscriber.sent) :=
  ⟨by decide, by decide,
   sent_in_append_order liveSchedule liveSystem (by decide) 0 liveSubscriber (by decide)⟩

theorem subscriberStep_frame {nodes : List Chunk} {b b' : Broadcaster Unit}
    {sub sub' : Subscriber} (h : subscriberStep nodes b sub = some (b', sub')) :
    b'.messageReceiver = b.messageReceiver ∧ sub'.notifier = sub.notifier := by
  unfold subscriberStep at h
  split at h
  all_goals repeat' split at h
  all_goals cases h
  all_goals exact ⟨rfl, rfl⟩

theorem step_keeps_subscriber {s s' : System} {a : Action} (h : step s a = some s')
    {k : Nat} {sub : Subscriber} (hk : s.subs[k]? = some sub) :
    ∃ sub', s'.subs[k]? = some sub' ∧ sub'.notifier = sub.notifier := by
  have hlt : k < s.subs.length := (List.getElem?_eq_some_iff.mp hk).1
  unfold step at h
  split at h
  · cases h
  cases a with
  | append data =>
    simp only at h
    split at h
    · cases h
    · cases h; exact ⟨sub, hk, rfl⟩
  | publish =>
    simp only at h
    split at h
    · cases h
    · split at h
      · cases h
      · cases h; exact ⟨sub, hk, rfl⟩
  | stop => simp only at h; cases h; exact ⟨sub, hk, rfl⟩
  | dispatch pick =>
    simp only at h
    split at h
    · cases h
    · cases h; exact ⟨sub, hk, rfl⟩
  | subscribe capacity =>
    simp only at h
    split at h
    · cases h
    · cases h
      refine ⟨sub, ?_, rfl⟩
      simp only
      rw [List.getElem?_append_left hlt]; exact hk
  | subscriber j =>
    simp only at h
    split at h
    · cases h
    · rename_i x hx
      split at h
      · cases h
      · rename_i b x' hstep
        cases h
        by_cases hjk : j = k
        · subst hjk
          rw [hk] at hx; cases hx
          exact ⟨x', List.getElem?_set_self hlt, (subscriberStep_frame hstep).2⟩
        · exact ⟨sub, by simp only; rw [List.getElem?_set_ne hjk]; exact hk, rfl⟩
  | handoff j =>
    simp only at h
    split at h
    · cases h
    · rename_i x hx
      split at h
      · split at h
        · cases h
        · cases h
          by_cases hjk : j = k
          · subst hjk
            rw [hk] at hx; cases hx
            exact ⟨_, List.getElem?_set_self hlt, rfl⟩
          · exact ⟨sub, by simp only; rw [List.getElem?_set_ne hjk]; exact hk, rfl⟩
      · cases h
  | consume j =>
    simp only at h
    split at h
    · cases h
    · rename_i x hx
      split at h
      · cases h
      · cases h
        by_cases hjk : j = k
        · subst hjk
          rw [hk] at hx; cases hx
          exact ⟨_, List.getElem?_set_self hlt, rfl⟩
        · exact ⟨sub, by simp only; rw [List.getElem?_set_ne hjk]; exact hk, rfl⟩

theorem step_frozen {s s' : System} {a : Action} (ha : allowed s a = true)
    (h : step s a = some s') (hc : s.broadcaster.messageReceiver.closed = true) :
    s'.nodes = s.nodes ∧ s'.broadcaster.messageReceiver.closed = true := by
  unfold step at h
  split at h
  · cases h
  cases a with
  | append data => simp [allowed, hc] at ha
  | publish =>
    simp only at h
    split at h
    · cases h
    · split at h
      · cases h
      · rename_i hstep
        cases h
        exact ⟨rfl, by simp only; rw [(Broadcaster.publishStep_frame hstep).1]; exact hc⟩
  | stop => simp only at h; cases h; exact ⟨rfl, (Broadcaster.Stop_frame _).1⟩
  | dispatch pick =>
    simp only at h
    split at h
    · cases h
    · rename_i hstep
      cases h
      exact ⟨rfl, by simp only; rw [(Broadcaster.dispStep_frame hstep).1]; exact hc⟩
  | subscribe capacity =>
    simp only at h
    split at h
    · cases h
    · rename_i hsub
      cases h
      rcases Broadcaster.Subscribe_cases hsub with ⟨-, rfl, -⟩ | ⟨-, -, rfl⟩
      · exact ⟨rfl, hc⟩
      · exact ⟨rfl, hc⟩
  | subscriber j =>
    simp only at h
    split at h
    · cases h
    · split at h
      · cases h
      · rename_i hstep
        cases h
        exact ⟨rfl, by simp only; rw [(subscriberStep_frame hstep).1]; exact hc⟩
  | handoff j =>
    simp only at h
    split at h
    · cases h
    · split at h
      · split at h
        · cases h
        · cases h; exact ⟨rfl, hc⟩
      · cases h
  | consume j =>
    simp only at h
    split at h
    · cases h
    · split at h
      · cases h
      · cases h; exact ⟨rfl, hc⟩

theorem exec_frozen {acts : List Action} {s s' : System} (h : exec s acts = some s')
    (hc : s.broadcaster.messageReceiver.closed = true) {k : Nat} {sub : Subscriber}
    (hk : s.subs[k]? = some sub) :
    s'.nodes = s.nodes ∧ ∃ sub', s'.subs[k]? = some sub' ∧ sub'.notifier = sub.notifier := by
  induction acts generalizing s sub with
  | nil =>
    simp only [exec, Option.some.injEq] at h
    subst h; exact ⟨rfl, sub, hk, rfl⟩
  | cons a rest ih =>
    simp only [exec] at h
    split at h
    · rename_i ha
      split at h
      · cases h
      · rename_i s1 hs1
        obtain ⟨hn1, hc1⟩ := step_frozen ha hs1 hc
        obtain ⟨sub1, hk1, hnot1⟩ := step_keeps_subscriber hs1 hk
        obtain ⟨hn2, sub2, hk2, hnot2⟩ := ih h hc1 hk1
        exact ⟨hn2.trans hn1, sub2, hk2, hnot2.trans hnot1⟩
    · cases h

/-- C3, replay after stop.  From every state reached under the supervisor's
usage in which the broadcaster has stopped (and the process has not crashed),
`Subscribe` with any capacity starts a subscriber on the stopped path.  On
every schedule from there the node list stays as it was, the chunks that this
subscriber has sent are an initial segment of it, and once its channel is
closed they are all of it.  On the schedule where its consumer keeps
receiving, the consumer receives exactly the appended chunks in order and the
channel is then closed and empty; every other subscriber whose channel is
closed, whichever path it took, has sent that same sequence. -/
theorem replay_after_stop (acts : List Action) (s : System)
    (h : exec RunNewOutputStorage acts = some s)
    (hst : s.broadcaster.stopped = true) (hp : s.broadcaster.panicked = false)
    (capacity : Nat) :
    (∀ (more : List Action) (t : System), exec s (.subscribe capacity :: more) = some t →
      ∃ x, t.subs[s.subs.length]? = some x ∧ x.notifier = none ∧ t.nodes = s.nodes ∧
        x.sent <+: s.nodes ∧ (x.ch.closed = true → x.sent = s.nodes)) ∧
    ∃ s' sub,
      exec s (.subscribe capacity :: replaySchedule s.subs.length s.nodes.length) = some s' ∧
      s'.subs[s.subs.length]? = some sub ∧
      sub.delivered = s.nodes ∧ sub.ch.buf = [] ∧ sub.ch.closed = true ∧
      ∀ (j : Nat) (x : Subscriber), s'.subs[j]? = some x → x.ch.closed = true →
        x.sent = sub.delivered := by
  have hi := System.Inv.init.exec h
  have hex : s.broadcaster.disp = .exited := hi.binv.stopped_exited hst
  have hc : s.broadcaster.messageReceiver.closed = true :=
    (hi.binv.halting_inbox (hi.binv.stopped_halting hst)).1
  let sub0 : Subscriber :=
    { notifier := none, prev := 0, pc := .load, ch := Chan.make Chunk capacity, sent := [],
      delivered := [] }
  let s1 : System := { s with subs := s.subs ++ [sub0] }
  have h1 : exec s [.subscribe capacity] = some s1 := by
    simp [exec, allowed, step, hp, Broadcaster.Subscribe, Broadcaster.muHeld, hex, hst, s1, sub0]
  have hcons : ∀ more : List Action,
      exec s (.subscribe capacity :: more) = exec s1 more := by
    intro more
    have : (Action.subscribe capacity :: more) = [.subscribe capacity] ++ more := rfl
    rw [this, exec_append, h1]; rfl
  have hk0 : s1.subs[s.subs.length]? = some sub0 := by simp [s1]
  constructor
  · intro more t ht
    rw [hcons] at ht
    obtain ⟨hn, x, hx, hnot⟩ := exec_frozen ht hc hk0
    have hit : t.Inv := (hi.exec h1).exec ht
    refine ⟨x, hx, hnot, hn, ?_, ?_⟩
    · have := (hit.wf _ x hx).sent_initial
      rwa [hn] at this
    · intro hcl
      rw [hit.closed_sent hx hcl, hn]
  · obtain ⟨s', sub, he, hn, hk, -, hcl, hbuf, hdel⟩ :=
      replay_loop s.nodes.length s1 s.subs.length sub0 hp hk0 rfl rfl rfl rfl
        (by simp [s1, sub0])
    have hall : exec s (.subscribe capacity :: replaySchedule s.subs.length s.nodes.length)
        = some s' := by rw [hcons]; exact he
    have hi' : s'.Inv := hi.exec hall
    have hd : sub.delivered = s.nodes := by simpa [s1, sub0] using hdel
    refine ⟨s', sub, hall, hk, hd, hbuf, hcl, ?_⟩
    intro j x hj hx
    rw [hd, hi'.closed_sent hj hx, hn]

/-- After `stoppedSchedule`, a new subscriber of capacity 0 replays the store. -/
theorem replay_after_stop_witness :
    exec RunNewOutputStorage stoppedSchedule = some stoppedSystem ∧
    stoppedSystem.broadcaster.stopped = true ∧ stoppedSystem.broadcaster.panicked = false ∧
    ((∀ (more : List Action) (t : System),
        exec stoppedSystem (.subscribe 0 :: more) = some t →
        ∃ x, t.subs[stoppedSystem.subs.length]? = some x ∧ x.notifier = none ∧
          t.nodes = stoppedSystem.nodes ∧ x.sent <+: stoppedSystem.nodes ∧
          (x.ch.closed = true → x.sent = stoppedSystem.nodes)) ∧
     ∃ s' sub,
      exec stoppedSystem
        (.subscribe 0 :: replaySchedule stoppedSystem.subs.length stoppedSystem.nodes.length)
        = some s' ∧
      s'.subs[stoppedSystem.subs.length]? = some sub ∧
      sub.delivered = stoppedSystem.nodes ∧ sub.ch.buf = [] ∧ sub.ch.closed = true ∧
      ∀ (j : Nat) (x : Subscriber), s'.subs[j]? = some x → x.ch.closed = true →
        x.sent = sub.delivered) :=
  ⟨by decide, by decide, by decide,
   replay_after_stop stoppedSchedule stoppedSystem (by decide) (by decide) (by decide) 0⟩

/-! ## ForEach and Bytes -/

theorem step_nodes {s s' : System} {a : Action} (h : step s a = some s') :
    s'.nodes = s.nodes ++ appended [a] := by
  unfold step at h
  split at h
  · cases h
  cases a <;> simp only at h
  all_goals repeat' split at h
  all_goals cases h
  all_goals simp [appended]

theorem appended_cons (a : Action) (rest : List Action) :
    appended (a :: rest) = appended [a] ++ appended rest := by
  cases a <;> simp [appended]

theorem run_nodes {acts : List Action} {s s' : System} (h : run s acts = some s') :
    s'.nodes = s.nodes ++ appended acts := by
  induction acts generalizing s with
  | nil => simp only [run, Option.some.injEq] at h; subst h; simp [appended]
  | cons a rest ih =>
    simp only [run] at h
    split at h
    · cases h
    · rename_i s1 hs1
      rw [ih h, step_nodes hs1, appended_cons a rest, List.append_assoc]

theorem forEachFrom_record (nodes : List Chunk) (log : List (Chunk × Bool)) :
    forEachFrom (traced (pureIter fun _ => true)) nodes ((), log) =
      ((), log ++ nodes.map fun c => (c, true)) := by
  induction nodes generalizing log with
  | nil => simp [forEachFrom]
  | cons c rest ih =>
    simp only [forEachFrom, traced, pureIter]
    rw [ih]
    simp

theorem forEachFrom_gather (nodes : List Chunk) (acc : List Chunk) (total : Nat) :
    (forEachFrom (fun (b : Chunk) (st : List Chunk × Nat) =>
        (true, (st.1 ++ [b], st.2 + b.length))) nodes (acc, total)).1 = acc ++ nodes := by
  induction nodes generalizing acc total with
  | nil => simp [forEachFrom]
  | cons c rest ih =>
    simp only [forEachFrom]
    rw [ih]
    simp

theorem foldl_append_eq_join (l : List Chunk) (out : List Nat) :
    l.foldl (fun out b => out ++ b) out = out ++ l.flatten := by
  induction l generalizing out with
  | nil => simp
  | cons c rest ih => simp [ih]

theorem Bytes_eq (s : System) : Bytes (some s) = s.nodes.flatten := by
  unfold Bytes ForEach
  simp only
  rw [forEachFrom_gather, foldl_append_eq_join]
  simp

/-- C19.  For every sequence of steps of a new store, whatever goroutines it
interleaves, with `c1..cn` the chunks its `Append` calls append in that order:
`ForEach` with the always-true iterator calls it on exactly `c1..cn` in that
order (the trace lists each call with the value it returned), and `Bytes`
returns the concatenation `c1 ++ ... ++ cn`; `Bytes` of a new store is empty. -/
theorem store_contents (acts : List Action) (s : System)
    (h : run RunNewOutputStorage acts = some s) :
    ForEach (some s) (some (traced (pureIter fun _ => true))) ((), []) =
      ((), (appended acts).map fun c => (c, true)) ∧
    Bytes (some s) = (appended acts).flatten ∧
    Bytes (some RunNewOutputStorage) = [] := by
  have hn : s.nodes = appended acts := by
    have := run_nodes h
    simpa [RunNewOutputStorage] using this
  refine ⟨?_, ?_, ?_⟩
  · simp only [ForEach]
    rw [forEachFrom_record, hn]; simp
  · rw [Bytes_eq, hn]
  · rw [Bytes_eq]; rfl

theorem forEachFrom_traced {σ : Type} (iter : Chunk → σ → Bool × σ) (nodes : List Chunk)
    (st : σ) (log : List (Chunk × Bool)) :
    ∃ calls : List (Chunk × Bool),
      forEachFrom (traced iter) nodes (st, log) = (forEachFrom iter nodes st, log ++ calls) ∧
      calls.map Prod.fst <+: nodes ∧
      (∀ p ∈ calls.dropLast, p.2 = true) ∧
      (calls.length < nodes.length → ∃ c, calls.getLast? = some (c, false)) := by
  induction nodes generalizing st log with
  | nil => exact ⟨[], by simp [forEachFrom], by simp, by simp, by simp⟩
  | cons data rest ih =>
    cases hit : iter data st with
    | mk goOn st' =>
      cases goOn with
      | false =>
        refine ⟨[(data, false)], ?_, ?_, ?_, ?_⟩
        · simp [forEachFrom, traced, hit]
        · simp
        · simp
        · intro _; exact ⟨data, rfl⟩
      | true =>
        obtain ⟨calls, h1, h2, h3, h4⟩ := ih st' (log ++ [(data, true)])
        refine ⟨(data, true) :: calls, ?_, ?_, ?_, ?_⟩
        · simp only [forEachFrom, traced, hit]
          rw [h1]; simp
        · simpa using h2
        · intro p hp
          cases calls with
          | nil => simp at hp
          | cons c cs =>
            simp only [List.dropLast_cons₂, List.mem_cons] at hp
            rcases hp with rfl | hp
            · rfl
            · exact h3 p hp
        · intro hlt
          simp only [List.length_cons, Nat.add_lt_add_iff_right] at hlt
          obtain ⟨c, hc⟩ := h4 hlt
          refine ⟨c, ?_⟩
          cases calls with
          | nil => simp at hc
          | cons c' cs => simpa [List.getLast?_cons_cons] using hc

theorem forEachFrom_pure (f : Chunk → Bool) (nodes : List Chunk) (log : List (Chunk × Bool)) :
    (forEachFrom (traced (pureIter f)) nodes ((), log)).2.map Prod.fst =
      log.map Prod.fst ++
        nodes.take (min (nodes.findIdx (fun c => !f c) + 1) nodes.length) := by
  induction nodes generalizing log with
  | nil => simp [forEachFrom]
  | cons data rest ih =>
    cases hf : f data with
    | false =>
      simp [forEachFrom, traced, pureIter, hf, List.findIdx_cons]
    | true =>
      simp only [forEachFrom, traced, pureIter, hf]
      rw [ih]
      simp [List.findIdx_cons, hf, Nat.add_min_add_right]

/-- C20.  For every store content and every iterator `iter`, which as a Go
closure may keep a state: `ForEach` returns what the iterator alone makes of
its state, the chunks it is called on are a leading part of the content, in
order, every call but the last returned `true`, and when it is not called on
all of the content the last call returned `false`.  For an iterator `f`
without state the calls are on `c1..ck`, with `k` the least index at which `f`
is `false`, and `k = n` when there is none. -/
theorem forEach_early_stop {σ : Type} (s : System) (iter : Chunk → σ → Bool × σ) (st : σ) :
    (ForEach (some s) (some (traced iter)) (st, [])).1 = ForEach (some s) (some iter) st ∧
    (ForEach (some s) (some (traced iter)) (st, [])).2.map Prod.fst <+: s.nodes ∧
    (∀ p ∈ (ForEach (some s) (some (traced iter)) (st, [])).2.dropLast, p.2 = true) ∧
    ((ForEach (some s) (some (traced iter)) (st, [])).2.length < s.nodes.length →
      ∃ c, (ForEach (some s) (some (traced iter)) (st, [])).2.getLast? = some (c, false)) ∧
    ∀ f : Chunk → Bool,
      (ForEach (some s) (some (traced (pureIter f))) ((), [])).2.map Prod.fst =
        s.nodes.take (min (s.nodes.findIdx (fun c => !f c) + 1) s.nodes.length) := by
  obtain ⟨calls, h1, h2, h3, h4⟩ := forEachFrom_traced iter s.nodes st []
  simp only [ForEach, h1, List.nil_append]
  refine ⟨trivial, h2, h3, h4, ?_⟩
  intro f
  rw [forEachFrom_pure]; simp

theorem store_contents_witness :
    run RunNewOutputStorage (fillSchedule [[104], [105, 33]]) =
      some (frozenSystem [[104], [105, 33]]) ∧
    ForEach (some (frozenSystem [[104], [105, 33]]))
        (some (traced (pureIter fun _ => true))) ((), []) =
      ((), [([104], true), ([105, 33], true)]) ∧
    Bytes (some (frozenSystem [[104], [105, 33]])) = [104, 105, 33] ∧
    Bytes (some RunNewOutputStorage) = [] :=
  have h := store_contents (fillSchedule [[104], [105, 33]]) (frozenSystem [[104], [105, 33]])
    (by decide)
  ⟨by decide, h.1.trans (by decide), h.2.1.trans (by decide), h.2.2⟩

theorem forEach_early_stop_witness :
    (ForEach (some (quietSystem [[97], [98], [99]])) (some (traced twoCalls)) (0, [])).2 =
      [([97], true), ([98], false)] ∧
    ForEach (some (quietSystem [[97], [98], [99]])) (some twoCalls) 0 = 2 ∧
    (ForEach (some (quietSystem [[97], [98], [99]])) (some (traced twoCalls)) (0, [])).2.length <
      (quietSystem [[97], [98], [99]]).nodes.length ∧
    (∃ c, (ForEach (some (quietSystem [[97], [98], [99]])) (some (traced twoCalls))
      (0, [])).2.getLast? = some (c, false)) :=
  ⟨by decide, by decide, by decide,
   (forEach_early_stop (quietSystem [[97], [98], [99]]) twoCalls 0).2.2.2.1 (by decide)⟩

/-! ## The write sink, nil receivers, and the close of a subscriber -/

theorem Broadcaster.Sane.saneNew (T : Type) : (RunNewBroadcaster T).Sane := by
  refine ⟨rfl, by simp [RunNewBroadcaster, Chan.make], fun _ => ⟨rfl, ?_, ?_⟩⟩
  · simp [RunNewBroadcaster, DispPc.halting]
  · intro n c h
    simp [RunNewBroadcaster] at h

theorem Broadcaster.Sane.sanePublish {T : Type} {b b' : Broadcaster T} {pc : PubPc T}
    {pc' : Option (PubPc T)} (hs : b.Sane) (h : b.publishStep pc = some (b', pc')) :
    b'.Sane := by
  obtain ⟨h1, h2, h3⟩ := hs
  unfold Broadcaster.publishStep at h
  cases pc with
  | trySend msg =>
    simp only at h
    split at h
    · rename_i hc
      simp only [Option.some.injEq, Prod.mk.injEq] at h
      obtain ⟨rfl, -⟩ := h
      exact ⟨h1, h2, fun hc' => by simp [hc] at hc'⟩
    · split at h
      · rename_i hc hr
        simp only [Option.some.injEq, Prod.mk.injEq] at h
        obtain ⟨rfl, -⟩ := h
        simp only [Chan.hasRoom, decide_eq_true_eq] at hr
        refine ⟨h1, ?_, h3⟩
        simp only [Chan.push, List.length_append, List.length_singleton]
        omega
      · simp only [Option.some.injEq, Prod.mk.injEq] at h
        obtain ⟨rfl, -⟩ := h
        exact ⟨h1, h2, h3⟩
  | drain msg =>
    simp only [Option.some.injEq, Prod.mk.injEq] at h
    obtain ⟨rfl, -⟩ := h
    refine ⟨h1, ?_, h3⟩
    simp only [Chan.pop, List.length_tail]
    omega
  | resend msg =>
    simp only at h
    split at h
    · rename_i hc
      simp only [Option.some.injEq, Prod.mk.injEq] at h
      obtain ⟨rfl, -⟩ := h
      exact ⟨h1, h2, fun hc' => by simp [hc] at hc'⟩
    · split at h
      · rename_i hc hr
        simp only [Option.some.injEq, Prod.mk.injEq] at h
        obtain ⟨rfl, -⟩ := h
        simp only [Chan.hasRoom, decide_eq_true_eq] at hr
        refine ⟨h1, ?_, h3⟩
        simp only [Chan.push, List.length_append, List.length_singleton]
        omega
      · cases h

theorem Broadcaster.Sane.saneSetChan {T : Type} {b : Broadcaster T} (hs : b.Sane) (i : Nat)
    (c : Chan T) (hc : c.closed = false) : (b.setChan i c).Sane := by
  obtain ⟨h1, h2, h3⟩ := hs
  refine ⟨h1, h2, fun ho => ⟨(h3 ho).1, (h3 ho).2.1, ?_⟩⟩
  intro n c' hn
  simp only [Broadcaster.setChan] at hn
  rcases getElem?_set_cases hn with ⟨-, rfl⟩ | h
  · exact hc
  · exact (h3 ho).2.2 n c' h.2

theorem Broadcaster.Sane.saneDispatch {T : Type} {b b' : Broadcaster T} {pick : Nat}
    (hs : b.Sane) (h : b.dispStep pick = some b') : b'.Sane := by
  have hs0 := hs
  obtain ⟨h1, h2, h3⟩ := hs
  unfold Broadcaster.dispStep at h
  split at h
  · -- recv
    rename_i hd
    split at h
    · cases h
      refine ⟨h1, ?_, fun ho => ⟨(h3 ho).1, by simp [DispPc.halting], (h3 ho).2.2⟩⟩
      simp only [Chan.pop, List.length_tail]
      omega
    · split at h
      · rename_i hc
        cases h
        exact ⟨h1, h2, fun ho => by simp [hc] at ho⟩
      · cases h
  · -- snapshot
    cases h
    exact ⟨h1, h2, fun ho => ⟨(h3 ho).1, by simp [DispPc.halting], (h3 ho).2.2⟩⟩
  · -- sending
    split at h
    · cases h
      exact ⟨h1, h2, fun ho => ⟨(h3 ho).1, by simp [DispPc.halting], (h3 ho).2.2⟩⟩
    · split at h
      · split at h
        · cases h
        · rename_i c hc
          split at h
          · rename_i hcl
            cases h
            refine ⟨h1, h2, fun ho => ?_⟩
            have := (h3 ho).2.2 _ _ hc
            simp [hcl] at this
          · split at h
            · rename_i hcl hr
              cases h
              have hcl' : c.closed = false := by simpa using hcl
              obtain ⟨g1, g2, g3⟩ :=
                hs0.saneSetChan pick (c.push (by assumption)) (by simpa [Chan.push] using hcl')
              exact ⟨g1, g2, fun ho => ⟨(g3 ho).1, by simp [DispPc.halting], (g3 ho).2.2⟩⟩
            · cases h
              exact ⟨h1, h2, fun ho => ⟨(h3 ho).1, by simp [DispPc.halting], (h3 ho).2.2⟩⟩
      · cases h
  · -- drain
    split at h
    · cases h
    · rename_i c hc
      cases h
      refine ⟨h1, h2, fun ho => ?_⟩
      have hcl := (h3 ho).2.2 _ _ hc
      obtain ⟨g1, g2, g3⟩ := hs0.saneSetChan _ c.pop (by simpa [Chan.pop] using hcl)
      exact ⟨(g3 ho).1, by simp [DispPc.halting], (g3 ho).2.2⟩
  · -- resend
    split at h
    · cases h
    · rename_i c hc
      split at h
      · rename_i hcl
        cases h
        refine ⟨h1, h2, fun ho => ?_⟩
        have := (h3 ho).2.2 _ _ hc
        simp [hcl] at this
      · split at h
        · rename_i hcl hr
          cases h
          have hcl' : c.closed = false := by simpa using hcl
          obtain ⟨g1, g2, g3⟩ :=
            hs0.saneSetChan (by assumption) (c.push (by assumption))
              (by simpa [Chan.push] using hcl')
          exact ⟨g1, g2, fun ho => ⟨(g3 ho).1, by simp [DispPc.halting], (g3 ho).2.2⟩⟩
        · cases h
  · -- stopping
    rename_i hd
    cases h
    refine ⟨h1, h2, fun ho => ?_⟩
    have := (h3 ho).2.1
    simp [hd, DispPc.halting] at this
  · -- closing
    rename_i pending hd
    have hclosed : b.messageReceiver.closed = true := by
      by_contra hc
      have := (h3 (by simpa using hc)).2.1
      simp [hd, DispPc.halting] at this
    split at h
    · cases h
      exact ⟨h1, h2, fun ho => by simp [hclosed] at ho⟩
    · split at h
      · split at h
        · cases h
        · split at h
          · cases h
            exact ⟨h1, h2, fun ho => by simp [hclosed] at ho⟩
          · cases h
            exact ⟨h1, h2, fun ho => by simp [Broadcaster.setChan, hclosed] at ho⟩
      · cases h
  · cases h

theorem Broadcaster.Sane.saneStop {T : Type} {b : Broadcaster T} (hs : b.Sane) : b.Stop.Sane := by
  obtain ⟨h1, h2, h3⟩ := hs
  unfold Broadcaster.Stop
  split
  · rename_i hc
    exact ⟨h1, h2, fun ho => by simp [hc] at ho⟩
  · exact ⟨h1, h2, fun ho => by simp [Chan.close] at ho⟩

theorem Broadcaster.Sane.saneSubscribe {T : Type} {b b' : Broadcaster T} {ch : Option Nat}
    (hs : b.Sane) (h : b.Subscribe = some (b', ch)) : b'.Sane := by
  obtain ⟨h1, h2, h3⟩ := hs
  unfold Broadcaster.Subscribe at h
  split at h
  · cases h
  · split at h
    · cases h; exact ⟨h1, h2, h3⟩
    · cases h
      refine ⟨h1, h2, fun ho => ⟨(h3 ho).1, (h3 ho).2.1, ?_⟩⟩
      intro n c hn
      simp only [Broadcaster.register] at hn
      rcases getElem?_snoc_cases hn with h | ⟨-, rfl⟩
      · exact (h3 ho).2.2 n c h.2
      · rfl

theorem subscriberStep_sane {nodes : List Chunk} {b b' : Broadcaster Unit}
    {sub sub' : Subscriber} (hs : b.Sane) (h : subscriberStep nodes b sub = some (b', sub')) :
    b'.Sane := by
  have hs0 := hs
  obtain ⟨h1, h2, h3⟩ := hs
  unfold subscriberStep at h
  split at h
  · split at h
    · cases h; exact hs0
    · split at h <;> (cases h; exact hs0)
  · split at h
    · cases h
    · split at h
      · cases h
      · rename_i c hc
        split at h
        · cases h
          by_cases ho : b.messageReceiver.closed = false
          · exact hs0.saneSetChan _ c.pop (by simpa [Chan.pop] using (h3 ho).2.2 _ _ hc)
          · exact ⟨h1, h2, fun ho' => by simp [Broadcaster.setChan] at ho'; exact absurd ho' ho⟩
        · split at h
          · cases h; exact hs0
          · cases h
  · split at h
    · cases h
    · split at h
      · cases h; exact hs0
      · cases h
  · split at h
    · cases h
    · cases h; exact hs0
  · cases h

theorem step_sane {s s' : System} {a : Action} (hs : s.broadcaster.Sane)
    (h : step s a = some s') : s'.broadcaster.Sane := by
  unfold step at h
  split at h
  · cases h
  · cases a with
    | append data =>
      simp only at h
      split at h
      · cases h
      · cases h; exact hs
    | publish =>
      simp only at h
      split at h
      · cases h
      · split at h
        · cases h
        · rename_i hp
          cases h
          exact hs.sanePublish hp
    | stop => simp only [Option.some.injEq] at h; subst h; exact hs.saneStop
    | dispatch pick =>
      simp only at h
      split at h
      · cases h
      · rename_i hd
        cases h
        exact hs.saneDispatch hd
    | subscribe capacity =>
      simp only at h
      split at h
      · cases h
      · rename_i hsub
        cases h
        exact hs.saneSubscribe hsub
    | subscriber k =>
      simp only at h
      split at h
      · cases h
      · split at h
        · cases h
        · rename_i hst
          cases h
          exact subscriberStep_sane hs hst
    | handoff k =>
      simp only at h
      split at h
      · cases h
      · split at h
        · split at h
          · cases h
          · cases h; exact hs
        · cases h
    | consume k =>
      simp only at h
      split at h
      · cases h
      · split at h
        · cases h
        · cases h; exact hs

theorem run_sane {acts : List Action} {s s' : System} (hs : s.broadcaster.Sane)
    (h : run s acts = some s') : s'.broadcaster.Sane := by
  induction acts generalizing s with
  | nil => simp only [run, Option.some.injEq] at h; subst h; exact hs
  | cons a rest ih =>
    simp only [run] at h
    split at h
    · cases h
    · rename_i s1 h1
      exact ih (step_sane hs h1) h

theorem Slice.bytes_copyOf (mem : Memory) (p : Slice) :
    (copyOf mem p).2.bytes (copyOf mem p).1 = p.bytes mem := by
  simp only [copyOf, Slice.bytes, List.getD_eq_getElem?_getD, List.drop_zero]
  rw [List.getElem?_append_right (le_refl _)]
  simp [List.take_take]

theorem Slice.bytes_of_array (mem mem' : Memory) (q : Slice)
    (h : mem'[q.array]? = mem[q.array]?) : q.bytes mem' = q.bytes mem := by
  simp only [Slice.bytes, List.getD_eq_getElem?_getD, h]

theorem Memory.assign_other (mem : Memory) (p : Slice) (i v : Nat) (a : Nat)
    (h : a ≠ p.array) : (Memory.assign mem p i v)[a]? = mem[a]? := by
  unfold Memory.assign
  split
  · rw [List.getElem?_set_ne (fun e => h e.symm)]
  · rfl

theorem returnFromPublish_of_open (s : System) (hs : s.broadcaster.Sane)
    (hc : s.broadcaster.messageReceiver.closed = false) (hp : s.publishing = some (.trySend ())) :
    ∃ s', returnFromPublish 3 s = some s' ∧ s'.nodes = s.nodes ∧ s'.subs = s.subs ∧
      s'.publishing = none ∧
      s'.broadcaster = { s.broadcaster with messageReceiver := ⟨[()], 1, false⟩ } := by
  obtain ⟨h1, h2, h3⟩ := hs
  have hpan := (h3 hc).1
  obtain ⟨nodes, b, pub, subs⟩ := s
  obtain ⟨inbox, subscribers, stopped, chans, disp, panicked⟩ := b
  obtain ⟨buf, cap, closed⟩ := inbox
  simp only at h1 h2 hc hp hpan
  subst h1 hc hp hpan
  refine ⟨{ nodes := nodes,
            broadcaster :=
              { messageReceiver := ⟨[()], 1, false⟩, subscribers := subscribers,
                stopped := stopped, chans := chans, disp := disp, panicked := false },
            publishing := none, subs := subs }, ?_, rfl, rfl, rfl, rfl⟩
  rcases buf with _ | ⟨x, _ | ⟨y, rest⟩⟩
  · simp [returnFromPublish, step, Broadcaster.publishStep, Chan.hasRoom, Chan.push]
  · simp [returnFromPublish, step, Broadcaster.publishStep, Chan.hasRoom, Chan.push, Chan.pop]
  · simp at h2

theorem Memory.assign_append (mem : Memory) (x : List Nat) (p : Slice) (i v : Nat)
    (hp : p.array < mem.length) :
    Memory.assign (mem ++ [x]) p i v = Memory.assign mem p i v ++ [x] := by
  unfold Memory.assign
  split
  · rw [List.set_append_left _ _ hp]
    simp only [List.getD_eq_getElem?_getD]
    rw [List.getElem?_append_left hp]
  · rfl

theorem Memory.length_assign (mem : Memory) (p : Slice) (i v : Nat) :
    (Memory.assign mem p i v).length = mem.length := by
  unfold Memory.assign
  split <;> simp

/-- C21, amended.  For every store that a schedule reaches from a new one, with no
`Append` in progress and `Stop` not called, and every memory in which the
slices of the store and the buffer `p` are allocated.  For a non-empty `p`,
`Write(p)` returns `(len(p), nil)`, having linked exactly one node, which
holds a slice of a new backing array with the bytes of `p`: the content of the
store is the content before with the bytes of `p` after it, and after an
assignment `p[i] = v` made afterwards the new chunk still has the bytes that
`p` had at the call, the chunks before it being what they would be without the
`Write`.  For an empty `p`, `Write` returns `(0, nil)` and leaves memory and
store as they are. -/
theorem write_sink (acts : List Action) (sys : System)
    (h : run RunNewOutputStorage acts = some sys) (hidle : sys.publishing = none)
    (hopen : sys.broadcaster.messageReceiver.closed = false)
    (mem : Memory) (data : List Slice) (p : Slice)
    (hdata : ∀ q ∈ data, q.array < mem.length) (hp : p.array < mem.length) :
    (p.len ≠ 0 →
      ∃ sys' : System,
        OutputStorage.Write mem (some ⟨data, sys⟩) p =
          some ((p.len, none), mem ++ [p.bytes mem],
            some ⟨data ++ [⟨mem.length, 0, p.len⟩], sys'⟩) ∧
        sys'.nodes = sys.nodes ++ [p.bytes mem] ∧ sys'.publishing = none ∧
        Stored.content (mem ++ [p.bytes mem]) ⟨data ++ [⟨mem.length, 0, p.len⟩], sys'⟩ =
          Stored.content mem ⟨data, sys⟩ ++ [p.bytes mem] ∧
        ∀ i v : Nat,
          Stored.content (Memory.assign (mem ++ [p.bytes mem]) p i v)
              ⟨data ++ [⟨mem.length, 0, p.len⟩], sys'⟩ =
            Stored.content (Memory.assign mem p i v) ⟨data, sys⟩ ++ [p.bytes mem]) ∧
    (p.len = 0 →
      OutputStorage.Write mem (some ⟨data, sys⟩) p = some ((0, none), mem, some ⟨data, sys⟩)) := by
  have hsane : sys.broadcaster.Sane :=
    run_sane (s := RunNewOutputStorage) (Broadcaster.Sane.saneNew Unit) h
  have hcopy := Slice.bytes_copyOf mem p
  simp only [copyOf] at hcopy
  have key : ∀ (m : Memory) (sys' : System), m.length = mem.length →
      Stored.content (m ++ [p.bytes mem]) ⟨data ++ [⟨mem.length, 0, p.len⟩], sys'⟩ =
        Stored.content m ⟨data, sys⟩ ++ [p.bytes mem] := by
    intro m sys' hm
    simp only [Stored.content, List.map_append, List.map_cons, List.map_nil]
    congr 1
    · apply List.map_congr_left
      intro q hq
      apply Slice.bytes_of_array
      rw [List.getElem?_append_left (by rw [hm]; exact hdata q hq)]
    · simp only [Slice.bytes, List.getD_eq_getElem?_getD, List.drop_zero]
      rw [← hm, List.getElem?_append_right (le_refl _)]
      simp [List.take_take]
  constructor
  · intro hlen
    have hpan : sys.broadcaster.panicked = false := (hsane.2.2 hopen).1
    have hstep : step sys (.append (p.bytes mem)) =
        some { sys with nodes := sys.nodes ++ [p.bytes mem], publishing := some (.trySend ()) } := by
      simp [step, hpan, hidle]
    obtain ⟨sys', hr, hn, -, hpub, -⟩ := returnFromPublish_of_open
      { sys with nodes := sys.nodes ++ [p.bytes mem], publishing := some (.trySend ()) }
      hsane hopen rfl
    refine ⟨sys', ?_, hn, hpub, key mem sys' rfl, ?_⟩
    · simp only [OutputStorage.Write, hlen, if_false, Stored.Append, OutputStorage.Append,
        copyOf, hcopy, hstep, hr, Option.map_some']
    · intro i v
      rw [Memory.assign_append mem _ p i v hp]
      exact key _ sys' (Memory.length_assign mem p i v)
  · intro hlen
    simp [OutputStorage.Write, hlen]

theorem write_sink_witness :
    (∃ sys' : System,
      OutputStorage.Write [[97, 98, 99]] (some ⟨[], RunNewOutputStorage⟩) ⟨0, 0, 3⟩ =
        some ((3, none), [[97, 98, 99]] ++ [(⟨0, 0, 3⟩ : Slice).bytes [[97, 98, 99]]],
          some ⟨[] ++ [⟨1, 0, 3⟩], sys'⟩) ∧
      sys'.nodes = RunNewOutputStorage.nodes ++ [(⟨0, 0, 3⟩ : Slice).bytes [[97, 98, 99]]] ∧
      sys'.publishing = none ∧
      Stored.content ([[97, 98, 99]] ++ [(⟨0, 0, 3⟩ : Slice).bytes [[97, 98, 99]]])
          ⟨[] ++ [⟨1, 0, 3⟩], sys'⟩ =
        Stored.content [[97, 98, 99]] ⟨[], RunNewOutputStorage⟩ ++
          [(⟨0, 0, 3⟩ : Slice).bytes [[97, 98, 99]]] ∧
      ∀ i v : Nat,
        Stored.content
            (Memory.assign ([[97, 98, 99]] ++ [(⟨0, 0, 3⟩ : Slice).bytes [[97, 98, 99]]])
              ⟨0, 0, 3⟩ i v)
            ⟨[] ++ [⟨1, 0, 3⟩], sys'⟩ =
          Stored.content (Memory.assign [[97, 98, 99]] ⟨0, 0, 3⟩ i v) ⟨[], RunNewOutputStorage⟩
            ++ [(⟨0, 0, 3⟩ : Slice).bytes [[97, 98, 99]]]) ∧
    OutputStorage.Write [[97, 98, 99]] (some ⟨[], RunNewOutputStorage⟩) ⟨0, 0, 0⟩ =
      some ((0, none), [[97, 98, 99]], some ⟨[], RunNewOutputStorage⟩) ∧
    (⟨0, 0, 3⟩ : Slice).bytes [[97, 98, 99]] = [97, 98, 99] ∧
    Memory.assign [[97, 98, 99], [97, 98, 99]] ⟨0, 0, 3⟩ 0 122 = [[122, 98, 99], [97, 98, 99]] :=
  ⟨(write_sink [] RunNewOutputStorage rfl rfl rfl [[97, 98, 99]] [] ⟨0, 0, 3⟩
      (by simp) (by decide)).1 (by decide),
   (write_sink [] RunNewOutputStorage rfl rfl rfl [[97, 98, 99]] [] ⟨0, 0, 0⟩
      (by simp) (by decide)).2 rfl,
   by decide, by decide⟩

/-- What `Append` does with the caller's slice, for contrast
(`TestAppendStoresSliceByReference`): the node holds the slice itself, and an
assignment to it afterwards changes the content of the store. -/
theorem append_by_reference :
    (Stored.Append [[97, 98, 99]] (some ⟨[], RunNewOutputStorage⟩) ⟨0, 0, 3⟩).map
        (fun s => s.map fun s => Stored.content (Memory.assign [[97, 98, 99]] ⟨0, 0, 3⟩ 0 122) s) =
      some (some [[122, 98, 99]]) ∧
    (OutputStorage.Write [[97, 98, 99]] (some ⟨[], RunNewOutputStorage⟩) ⟨0, 0, 3⟩).map
        (fun r => r.2.2.map fun s => Stored.content (Memory.assign r.2.1 ⟨0, 0, 3⟩ 0 122) s) =
      some (some [[97, 98, 99]]) := by
  decide

/-- C21 does not hold as stated.  `Stop` is called on a new store, and then
`Write(p)` with the two bytes `hi`: the call does not return.  It links the
node with the copy of `p` and its `Publish` sends on the inbox that `Stop` has
closed, which panics. -/
theorem write_to_a_stopped_store_panics :
    run RunNewOutputStorage [.stop] = some stoppedNew ∧
    OutputStorage.Write [[104, 105]] (some ⟨[], stoppedNew⟩) ⟨0, 0, 2⟩ = none ∧
    run stoppedNew [.append (Slice.bytes [[104, 105]] ⟨0, 0, 2⟩), .publish] =
      some panickedWrite ∧
    panickedWrite.nodes = [[104, 105]] ∧ panickedWrite.broadcaster.panicked = true := by
  decide

/-- C22.  On a nil receiver: `Append` and `Stop` return at once, without a
panic, and there is no store afterwards to have changed; `ForEach` leaves the
state of the iterator as it is with no call traced, also for a nil iterator;
`Bytes` returns the empty slice; `Write(p)` returns `(len(p), nil)` for every
`p` and leaves the memory as it is. -/
theorem nil_receiver {σ : Type} (data : Chunk) (iter : Chunk → σ → Bool × σ) (st : σ)
    (mem : Memory) (p : Slice) :
    OutputStorage.Append none data = some none ∧
    Stored.Append mem none p = some none ∧
    OutputStorage.Stop none = some none ∧
    ForEach none (some (traced iter)) (st, []) = (st, []) ∧
    ForEach none (none : Option (Chunk → σ → Bool × σ)) st = st ∧
    Bytes none = [] ∧
    OutputStorage.Write mem none p = some ((p.len, none), mem, none) :=
  ⟨rfl, rfl, rfl, rfl, rfl, rfl, rfl⟩

/-- C28 does not hold as stated.  `Stop` is called while the appender is between
linking a node and `Publish`; the subscriber on the running path finds its
notifier closed and closes its output channel at once: it has sent nothing,
its cursor is at the head, and one node is linked after it. -/
theorem closed_with_a_node_unsent :
    run RunNewOutputStorage racingSchedule = some racedSystem ∧
    racedSystem.nodes = [[120]] ∧
    racedSystem.subs.map (fun sub => (sub.notifier, sub.ch.closed, sub.sent, sub.prev)) =
      [(some 0, true, [], 0)] := by
  decide

/-- C28, amended.  Under the supervisor's usage (one appender, `Stop` only after
the last `Append` has returned), when a subscriber on the running path finds
its notifier closed and empty, no node is linked after its cursor and it has
sent every node of the store; its next two steps close the output channel,
with no load and no send in between: there is no drain, and none is needed. -/
theorem close_without_drain (acts : List Action) (s : System)
    (h : exec RunNewOutputStorage acts = some s) (k : Nat) (sub : Subscriber) (n : Nat)
    (c : Chan Unit) (hk : s.subs[k]? = some sub) (hn : sub.notifier = some n)
    (hpc : sub.pc = .wait) (hc : s.broadcaster.chans[n]? = some c) (hcl : c.closed = true)
    (hbuf : c.buf = []) :
    sub.prev = s.nodes.length ∧ sub.sent = s.nodes ∧
    subscriberStep s.nodes s.broadcaster sub = some (s.broadcaster, { sub with pc := .close }) ∧
    subscriberStep s.nodes s.broadcaster { sub with pc := .close } =
      some (s.broadcaster, { sub with ch := sub.ch.close, pc := .done }) := by
  have hi := System.Inv.init.exec h
  have hw := hi.wf k sub hk
  have hhalt := hi.binv.closed_halting n c hc hcl
  have hin := hi.binv.halting_inbox hhalt
  have hidle := hi.pub_idle hin.1
  have hprev : sub.prev = s.nodes.length := by
    by_contra hne
    have hlt : sub.prev < s.nodes.length := lt_of_le_of_ne hw.1 hne
    rcases hi.covered k sub n hk hn hpc hlt with hcov | hpub
    · rcases hcov with ⟨c', hc', hb⟩ | ht | hb
      · rw [hc] at hc'
        cases hc'
        exact hb hbuf
      · cases hd : s.broadcaster.disp <;> rw [hd] at hhalt ht <;>
          simp [DispPc.halting, DispPc.targets] at hhalt ht
      · exact hb hin.2
    · exact hpub hidle
  have hsent : sub.sent = s.nodes := by
    have := hw.2.2.2
    rw [hpc] at this
    simp only at this
    rw [this, hprev, List.take_length]
  have hopen : sub.ch.closed = false := by
    by_contra hcl'
    have := hw.2.2.1 (by simpa using hcl')
    rw [hpc] at this
    cases this
  refine ⟨hprev, hsent, ?_, ?_⟩
  · simp [subscriberStep, hpc, hn, hc, hbuf, hcl]
  · simp [subscriberStep, hopen]

theorem close_without_drain_witness :
    exec RunNewOutputStorage waitingSchedule = some waitingSystem ∧
    waitingSubscriber.prev = waitingSystem.nodes.length ∧
    waitingSubscriber.sent = waitingSystem.nodes ∧
    subscriberStep waitingSystem.nodes waitingSystem.broadcaster waitingSubscriber =
      some (waitingSystem.broadcaster, { waitingSubscriber with pc := .close }) ∧
    subscriberStep waitingSystem.nodes waitingSystem.broadcaster
        { waitingSubscriber with pc := .close } =
      some (waitingSystem.broadcaster,
        { waitingSubscriber with ch := waitingSubscriber.ch.close, pc := .done }) :=
  ⟨by decide,
   close_without_drain waitingSchedule waitingSystem (by decide) 0 waitingSubscriber 0
     ⟨[], 1, true⟩ (by decide) (by decide) (by decide) (by decide) (by decide) (by decide)⟩

/-! ## The broadcaster with its callers -/

theorem Broadcaster.Tidy.tidyNew (T : Type) : (RunNewBroadcaster T).Tidy where
  inbox := by simp [RunNewBroadcaster, Chan.make]
  chan_wf := by intro i c h; simp [RunNewBroadcaster] at h
  subs_lt := by intro i h; simp [RunNewBroadcaster] at h
  subs_nodup := by simp [RunNewBroadcaster]
  stopped_iff := by simp [RunNewBroadcaster]
  subs_closed := by intro i h; simp [RunNewBroadcaster] at h
  closing_nodup := by intro p h; simp [RunNewBroadcaster] at h

/-- A subscriber channel is replaced by one with the same closed flag, or one
outside the subscriber set is replaced. -/
theorem Broadcaster.Tidy.tidySetChan {T : Type} {b : Broadcaster T} (ht : b.Tidy) {n : Nat}
    {c0 c : Chan T} (h0 : b.chans[n]? = some c0) (hcap : c.cap = 1) (hlen : c.buf.length ≤ 1)
    (hcl : c.closed = c0.closed ∨ n ∉ b.subscribers) : (b.setChan n c).Tidy where
  inbox := ht.inbox
  chan_wf := by
    intro i c' hc'
    simp only [Broadcaster.setChan] at hc'
    rcases getElem?_set_cases hc' with ⟨-, rfl⟩ | ⟨-, h⟩
    · exact ⟨hcap, hlen⟩
    · exact ht.chan_wf i c' h
  subs_lt := by
    intro i hi
    simpa [Broadcaster.setChan] using ht.subs_lt i hi
  subs_nodup := ht.subs_nodup
  stopped_iff := ht.stopped_iff
  subs_closed := by
    intro i hi c' hc'
    simp only [Broadcaster.setChan] at hc' hi ⊢
    rcases getElem?_set_cases hc' with ⟨rfl, rfl⟩ | ⟨-, h⟩
    · rcases hcl with hcl | hcl
      · rw [hcl]
        exact ht.subs_closed i hi c0 h0
      · exact absurd hi hcl
    · exact ht.subs_closed i hi c' h
  closing_nodup := ht.closing_nodup

/-- The dispatcher moves between program counters at which it has closed no
channel. -/
theorem Broadcaster.Tidy.tidySetDisp {T : Type} {b : Broadcaster T} (ht : b.Tidy) (d : DispPc T)
    (h0 : ∀ i, ¬ b.disp.closedAt i) (h1 : ∀ i, ¬ d.closedAt i) (hne : d ≠ .exited)
    (hc : ∀ pending, d ≠ .closing pending) : ({ b with disp := d } : Broadcaster T).Tidy where
  inbox := ht.inbox
  chan_wf := ht.chan_wf
  subs_lt := ht.subs_lt
  subs_nodup := ht.subs_nodup
  stopped_iff := by
    have hb : b.disp ≠ .exited := by
      intro he
      have := h0 0
      simp [he, DispPc.closedAt] at this
    have : b.stopped ≠ true := fun hs => hb (ht.stopped_iff.mp hs)
    simp [this, hne]
  subs_closed := by
    intro i hi c hc'
    have := ht.subs_closed i hi c hc'
    simp only [h0 i, iff_false] at this
    simp [this, h1 i]
  closing_nodup := by
    intro pending hp
    exact absurd hp (hc pending)

theorem Broadcaster.Tidy.tidyInbox {T : Type} {b : Broadcaster T} (ht : b.Tidy) (m : Chan T)
    (hcap : m.cap = 1) (hlen : m.buf.length ≤ 1) :
    ({ b with messageReceiver := m } : Broadcaster T).Tidy where
  inbox := ⟨hcap, hlen⟩
  chan_wf := ht.chan_wf
  subs_lt := ht.subs_lt
  subs_nodup := ht.subs_nodup
  stopped_iff := ht.stopped_iff
  subs_closed := ht.subs_closed
  closing_nodup := ht.closing_nodup

theorem Broadcaster.Tidy.tidyPanic {T : Type} {b : Broadcaster T} (ht : b.Tidy) :
    ({ b with panicked := true } : Broadcaster T).Tidy where
  inbox := ht.inbox
  chan_wf := ht.chan_wf
  subs_lt := ht.subs_lt
  subs_nodup := ht.subs_nodup
  stopped_iff := ht.stopped_iff
  subs_closed := ht.subs_closed
  closing_nodup := ht.closing_nodup

theorem Broadcaster.Tidy.tidyPublish {T : Type} {b b' : Broadcaster T} {pc : PubPc T}
    {pc' : Option (PubPc T)} (ht : b.Tidy) (h : b.publishStep pc = some (b', pc')) :
    b'.Tidy := by
  obtain ⟨h1, h2⟩ := ht.inbox
  unfold Broadcaster.publishStep at h
  cases pc with
  | trySend msg =>
    simp only at h
    split at h
    · simp only [Option.some.injEq, Prod.mk.injEq] at h
      obtain ⟨rfl, -⟩ := h
      exact ht.tidyPanic
    · split at h
      · rename_i hc hr
        simp only [Option.some.injEq, Prod.mk.injEq] at h
        obtain ⟨rfl, -⟩ := h
        simp only [Chan.hasRoom, decide_eq_true_eq] at hr
        refine ht.tidyInbox _ h1 ?_
        simp only [Chan.push, List.length_append, List.length_singleton]
        omega
      · simp only [Option.some.injEq, Prod.mk.injEq] at h
        obtain ⟨rfl, -⟩ := h
        exact ht
  | drain msg =>
    simp only [Option.some.injEq, Prod.mk.injEq] at h
    obtain ⟨rfl, -⟩ := h
    refine ht.tidyInbox _ h1 ?_
    simp only [Chan.pop, List.length_tail]
    omega
  | resend msg =>
    simp only at h
    split at h
    · simp only [Option.some.injEq, Prod.mk.injEq] at h
      obtain ⟨rfl, -⟩ := h
      exact ht.tidyPanic
    · split at h
      · rename_i hc hr
        simp only [Option.some.injEq, Prod.mk.injEq] at h
        obtain ⟨rfl, -⟩ := h
        simp only [Chan.hasRoom, decide_eq_true_eq] at hr
        refine ht.tidyInbox _ h1 ?_
        simp only [Chan.push, List.length_append, List.length_singleton]
        omega
      · cases h

theorem Broadcaster.Tidy.tidyStop {T : Type} {b : Broadcaster T} (ht : b.Tidy) : b.Stop.Tidy := by
  unfold Broadcaster.Stop
  split
  · exact ht.tidyPanic
  · exact ht.tidyInbox _ ht.inbox.1 ht.inbox.2

theorem Broadcaster.Tidy.tidyRegister {T : Type} {b : Broadcaster T} (ht : b.Tidy)
    (hs : b.stopped = false) (hm : b.muHeld = false) : b.register.Tidy where
  inbox := ht.inbox
  chan_wf := by
    intro i c hc
    simp only [Broadcaster.register] at hc
    rcases getElem?_snoc_cases hc with h | ⟨-, rfl⟩
    · exact ht.chan_wf i c h.2
    · simp [Chan.make]
  subs_lt := by
    intro i hi
    simp only [Broadcaster.register, List.mem_append, List.mem_singleton, List.length_append,
      List.length_singleton] at hi ⊢
    rcases hi with hi | rfl
    · have := ht.subs_lt i hi
      omega
    · omega
  subs_nodup := by
    simp only [Broadcaster.register]
    refine List.Nodup.append ht.subs_nodup (List.nodup_singleton _) ?_
    intro i hi hi'
    simp only [List.mem_singleton] at hi'
    subst hi'
    exact absurd (ht.subs_lt _ hi) (lt_irrefl _)
  stopped_iff := ht.stopped_iff
  subs_closed := by
    intro i hi c hc
    have hnc : ¬ b.disp.closedAt i := by
      cases hd : b.disp with
      | closing pending => simp [Broadcaster.muHeld, hd] at hm
      | exited => rw [ht.stopped_iff.mpr hd] at hs; cases hs
      | _ => simp [DispPc.closedAt]
    simp only [Broadcaster.register, List.mem_append, List.mem_singleton] at hi hc ⊢
    simp only [hnc, iff_false]
    rcases getElem?_snoc_cases hc with h | ⟨-, rfl⟩
    · rcases hi with hi | rfl
      · have := ht.subs_closed i hi c h.2
        simpa [hnc] using this
      · exact absurd h.1 (lt_irrefl _)
    · simp [Chan.make]
  closing_nodup := ht.closing_nodup

theorem Broadcaster.Tidy.tidyErase {T : Type} {b : Broadcaster T} (ht : b.Tidy) (ch : Nat) :
    ({ b with subscribers := b.subscribers.erase ch } : Broadcaster T).Tidy where
  inbox := ht.inbox
  chan_wf := ht.chan_wf
  subs_lt := fun i hi => ht.subs_lt i (List.mem_of_mem_erase hi)
  subs_nodup := ht.subs_nodup.erase ch
  stopped_iff := ht.stopped_iff
  subs_closed := fun i hi => ht.subs_closed i (List.mem_of_mem_erase hi)
  closing_nodup := ht.closing_nodup

theorem Broadcaster.Tidy.tidyCloseSender {T : Type} {b b' : Broadcaster T} (ht : b.Tidy)
    {ch : Nat} (hn : ch ∉ b.subscribers) (h : b.closeSender ch = some b') : b'.Tidy := by
  unfold Broadcaster.closeSender at h
  split at h
  · cases h
  · rename_i c hc
    split at h
    · cases h; exact ht.tidyPanic
    · cases h
      have := ht.chan_wf ch c hc
      exact ht.tidySetChan hc this.1 this.2 (Or.inr hn)

theorem Broadcaster.Tidy.tidyDispatch {T : Type} {b b' : Broadcaster T} {pick : Nat}
    (ht : b.Tidy) (h : b.dispStep pick = some b') : b'.Tidy := by
  unfold Broadcaster.dispStep at h
  split at h
  · -- recv
    rename_i hd
    have h0 : ∀ i, ¬ b.disp.closedAt i := by simp [hd, DispPc.closedAt]
    split at h
    · cases h
      have h1 := ht.tidySetDisp (.snapshot (by assumption)) h0 (by simp [DispPc.closedAt])
        (by simp) (by simp)
      have := h1.tidyInbox b.messageReceiver.pop ht.inbox.1
        (by simp only [Chan.pop, List.length_tail]; have := ht.inbox.2; omega)
      exact this
    · split at h
      · cases h
        exact ht.tidySetDisp .stopping h0 (by simp [DispPc.closedAt]) (by simp) (by simp)
      · cases h
  · -- snapshot
    rename_i msg hd
    have h0 : ∀ i, ¬ b.disp.closedAt i := by simp [hd, DispPc.closedAt]
    cases h
    exact ht.tidySetDisp _ h0 (by simp [DispPc.closedAt]) (by simp) (by simp)
  · -- sending
    rename_i msg pending hd
    have h0 : ∀ i, ¬ b.disp.closedAt i := by simp [hd, DispPc.closedAt]
    split at h
    · cases h
      exact ht.tidySetDisp _ h0 (by simp [DispPc.closedAt]) (by simp) (by simp)
    · split at h
      · split at h
        · cases h
        · rename_i c hc
          split at h
          · cases h; exact ht.tidyPanic
          · split at h
            · rename_i hcl hr
              cases h
              have hw := ht.chan_wf pick c hc
              simp only [Chan.hasRoom, decide_eq_true_eq] at hr
              have h1 : (b.setChan pick (c.push msg)).Tidy :=
                ht.tidySetChan hc hw.1
                  (by simp only [Chan.push, List.length_append, List.length_singleton]; omega)
                  (Or.inl rfl)
              exact h1.tidySetDisp _ h0 (by simp [DispPc.closedAt]) (by simp) (by simp)
            · cases h
              exact ht.tidySetDisp _ h0 (by simp [DispPc.closedAt]) (by simp) (by simp)
      · cases h
  · -- drain
    rename_i msg cur pending hd
    have h0 : ∀ i, ¬ b.disp.closedAt i := by simp [hd, DispPc.closedAt]
    split at h
    · cases h
    · rename_i c hc
      cases h
      have hw := ht.chan_wf cur c hc
      have h1 : (b.setChan cur c.pop).Tidy :=
        ht.tidySetChan hc hw.1 (by simp only [Chan.pop, List.length_tail]; omega) (Or.inl rfl)
      exact h1.tidySetDisp _ h0 (by simp [DispPc.closedAt]) (by simp) (by simp)
  · -- resend
    rename_i msg cur pending hd
    have h0 : ∀ i, ¬ b.disp.closedAt i := by simp [hd, DispPc.closedAt]
    split at h
    · cases h
    · rename_i c hc
      split at h
      · cases h; exact ht.tidyPanic
      · split at h
        · rename_i hcl hr
          cases h
          have hw := ht.chan_wf cur c hc
          simp only [Chan.hasRoom, decide_eq_true_eq] at hr
          have h1 : (b.setChan cur (c.push msg)).Tidy :=
            ht.tidySetChan hc hw.1
              (by simp only [Chan.push, List.length_append, List.length_singleton]; omega)
              (Or.inl rfl)
          exact h1.tidySetDisp _ h0 (by simp [DispPc.closedAt]) (by simp) (by simp)
        · cases h
  · -- stopping
    rename_i hd
    cases h
    have hns : b.stopped ≠ true := fun hs => by
      have := ht.stopped_iff.mp hs
      rw [hd] at this
      cases this
    exact {
      inbox := ht.inbox
      chan_wf := ht.chan_wf
      subs_lt := ht.subs_lt
      subs_nodup := ht.subs_nodup
      stopped_iff := by simp [hns]
      subs_closed := by
        intro i hi c hc
        have := ht.subs_closed i hi c hc
        simp only [hd, DispPc.closedAt, iff_false] at this
        simp only [DispPc.closedAt, this]
        simpa using hi
      closing_nodup := by
        intro pending hp
        simp only [DispPc.closing.injEq] at hp
        subst hp
        exact ht.subs_nodup }
  · -- closing
    rename_i pending hd
    have hnd := ht.closing_nodup pending hd
    have hns : b.stopped ≠ true := fun hs => by
      have := ht.stopped_iff.mp hs
      rw [hd] at this
      cases this
    split at h
    · cases h
      exact {
        inbox := ht.inbox
        chan_wf := ht.chan_wf
        subs_lt := ht.subs_lt
        subs_nodup := ht.subs_nodup
        stopped_iff := by simp
        subs_closed := by
          intro i hi c hc
          have := ht.subs_closed i hi c hc
          simp only [hd, DispPc.closedAt, List.not_mem_nil, not_false_eq_true, iff_true] at this
          simp [DispPc.closedAt, this]
        closing_nodup := by intro p hp; cases hp }
    · rename_i hd2
      split at h
      · split at h
        · cases h
        · rename_i c hc
          split at h
          · cases h; exact ht.tidyPanic
          · cases h
            have hw := ht.chan_wf pick c hc
            exact {
              inbox := ht.inbox
              chan_wf := by
                intro i c' hc'
                simp only [Broadcaster.setChan] at hc'
                rcases getElem?_set_cases hc' with ⟨-, rfl⟩ | ⟨-, h⟩
                · exact hw
                · exact ht.chan_wf i c' h
              subs_lt := by
                intro i hi
                simpa [Broadcaster.setChan] using ht.subs_lt i hi
              subs_nodup := ht.subs_nodup
              stopped_iff := by simp [Broadcaster.setChan, hns]
              subs_closed := by
                intro i hi c' hc'
                simp only [Broadcaster.setChan] at hc' hi
                simp only [DispPc.closedAt]
                rcases getElem?_set_cases hc' with ⟨rfl, rfl⟩ | ⟨hne, h⟩
                · simp only [Chan.close, true_iff]
                  exact fun hm => (List.Nodup.mem_erase_iff hnd).mp hm |>.1 rfl
                · have := ht.subs_closed i hi c' h
                  simp only [hd, DispPc.closedAt] at this
                  rw [this]
                  constructor
                  · intro hn hm
                    exact hn (List.mem_of_mem_erase hm)
                  · intro hn hm
                    exact hn ((List.mem_erase_of_ne hne).mpr hm)
              closing_nodup := by
                intro p hp
                simp only [Broadcaster.setChan, DispPc.closing.injEq] at hp
                subst hp
                exact hnd.erase pick }
      · cases h
  · cases h

theorem Hub.Inv.hubNew (T : Type) : (Hub.new T).Inv where
  tidy := Broadcaster.Tidy.tidyNew T
  unsub := by intro u hu; simp [Hub.new] at hu

theorem Broadcaster.closeSender_frame {T : Type} {b b' : Broadcaster T} {ch : Nat}
    (h : b.closeSender ch = some b') :
    b'.subscribers = b.subscribers ∧ b'.chans.length = b.chans.length ∧
    b'.stopped = b.stopped ∧ b'.disp = b.disp ∧ b'.messageReceiver = b.messageReceiver := by
  unfold Broadcaster.closeSender at h
  split at h
  · cases h
  · split at h <;> cases h <;> simp [Broadcaster.setChan]

theorem Hub.Inv.hubStep {T : Type} {h h' : Hub T} {a : HubAction T} (hi : h.Inv)
    (hs : h.step a = some h') : h'.Inv := by
  obtain ⟨ht, hu⟩ := hi
  unfold Hub.step at hs
  split at hs
  · cases hs
  · cases a with
    | subscribe =>
      simp only at hs
      split at hs
      · cases hs
      · rename_i b r hsub
        cases hs
        unfold Broadcaster.Subscribe at hsub
        split at hsub
        · cases hsub
        · rename_i hm
          split at hsub
          · cases hsub
            exact ⟨ht, hu⟩
          · rename_i hst
            cases hsub
            refine ⟨ht.tidyRegister (by simpa using hst) (by simpa using hm), ?_⟩
            intro u hmem
            have := hu u hmem
            simp only [Broadcaster.register, List.length_append, List.length_singleton,
              List.mem_append, List.mem_singleton, not_or]
            exact ⟨by omega, this.2, by omega⟩
    | unsubscribe ch =>
      simp only at hs
      split at hs
      · rename_i hlt
        split at hs
        · cases hs
        · rename_i b st hun
          cases hs
          unfold Broadcaster.Unsubscribe at hun
          split at hun
          · cases hun
          · cases hun
            refine ⟨ht.tidyErase ch, ?_⟩
            intro u hmem
            simp only [List.mem_append, List.mem_singleton] at hmem
            rcases hmem with hmem | rfl
            · exact ⟨(hu u hmem).1, fun hm => (hu u hmem).2 (List.mem_of_mem_erase hm)⟩
            · exact ⟨hlt, fun hm => ((List.Nodup.mem_erase_iff ht.subs_nodup).mp hm).1 rfl⟩
      · cases hs
    | close k =>
      simp only at hs
      split at hs
      · cases hs
      · rename_i u hk
        have hmem : u ∈ h.unsubscribers := List.getElem?_mem hk
        split at hs
        · split at hs
          · cases hs
          · rename_i b hcl
            cases hs
            obtain ⟨f1, f2, -, -, -⟩ := Broadcaster.closeSender_frame hcl
            refine ⟨ht.tidyCloseSender (hu u hmem).2 hcl, ?_⟩
            intro v hv
            simp only
            rw [f1, f2]
            rcases List.mem_or_eq_of_mem_set hv with hv | rfl
            · exact hu v hv
            · exact hu u hmem
        · cases hs
    | publish msg =>
      simp only [Option.some.injEq] at hs
      subst hs
      exact ⟨ht, hu⟩
    | publisher k =>
      simp only at hs
      split at hs
      · split at hs
        · cases hs
        · rename_i b pc' hp
          cases hs
          obtain ⟨-, f2, f3, -, -⟩ := Broadcaster.publishStep_frame hp
          refine ⟨ht.tidyPublish hp, ?_⟩
          intro u hmem
          simp only
          rw [f2, f3]
          exact hu u hmem
      · cases hs
    | stop =>
      simp only [Option.some.injEq] at hs
      subst hs
      obtain ⟨-, f2, f3, -, -, -⟩ := Broadcaster.Stop_frame h.broadcaster
      refine ⟨ht.tidyStop, ?_⟩
      intro u hmem
      simp only
      rw [f2, f3]
      exact hu u hmem
    | dispatch pick =>
      simp only at hs
      split at hs
      · cases hs
      · rename_i b hd
        cases hs
        obtain ⟨-, f2, f3, -⟩ := Broadcaster.dispStep_frame hd
        refine ⟨ht.tidyDispatch hd, ?_⟩
        intro u hmem
        simp only
        rw [f2, f3]
        exact hu u hmem
    | receive ch =>
      simp only at hs
      split at hs
      · cases hs
      · rename_i c hc
        split at hs
        · cases hs
        · cases hs
          have hw := ht.chan_wf ch c hc
          refine ⟨ht.tidySetChan hc hw.1 (by simp only [Chan.pop, List.length_tail]; omega)
            (Or.inl rfl), ?_⟩
          intro u hmem
          simpa [Broadcaster.setChan] using hu u hmem

theorem Hub.Inv.hubRun {T : Type} {acts : List (HubAction T)} {h h' : Hub T} (hi : h.Inv)
    (hr : h.run acts = some h') : h'.Inv := by
  induction acts generalizing h with
  | nil => simp only [Hub.run, Option.some.injEq] at hr; subst hr; exact hi
  | cons a rest ih =>
    simp only [Hub.run] at hr
    split at hr
    · cases hr
    · rename_i h1 hs
      exact ih (hi.hubStep hs) hr

theorem Hub.exec_is_run {T : Type} {acts : List (HubAction T)} {h h' : Hub T}
    (hr : h.exec acts = some h') : h.run acts = some h' := by
  induction acts generalizing h with
  | nil => simpa [Hub.exec, Hub.run] using hr
  | cons a rest ih =>
    simp only [Hub.exec] at hr
    split at hr
    · split at hr
      · cases hr
      · rename_i h1 hs
        simp only [Hub.run, hs]
        exact ih hr
    · cases hr

theorem Hub.run_concat {T : Type} (h : Hub T) (l1 l2 : List (HubAction T)) :
    h.run (l1 ++ l2) = (h.run l1).bind fun h1 => h1.run l2 := by
  induction l1 generalizing h with
  | nil => simp [Hub.run]
  | cons a rest ih =>
    simp only [List.cons_append, Hub.run]
    split
    · simp
    · exact ih _

/-- Once `stopped` is set it stays set, and no channel is added. -/
theorem Hub.step_stopped {T : Type} {h h' : Hub T} {a : HubAction T}
    (hs : h.step a = some h') (hst : h.broadcaster.stopped = true) :
    h'.broadcaster.stopped = true ∧ h'.broadcaster.chans.length = h.broadcaster.chans.length ∧
    h'.broadcaster.subscribers ⊆ h.broadcaster.subscribers := by
  unfold Hub.step at hs
  split at hs
  · cases hs
  · cases a with
    | subscribe =>
      simp only at hs
      split at hs
      · cases hs
      · rename_i b r hsub
        cases hs
        rcases Broadcaster.Subscribe_cases hsub with ⟨-, rfl, -⟩ | ⟨hf, -, -⟩
        · exact ⟨hst, rfl, fun _ hx => hx⟩
        · rw [hst] at hf; cases hf
    | unsubscribe ch =>
      simp only at hs
      split at hs
      · split at hs
        · cases hs
        · rename_i b st hun
          cases hs
          unfold Broadcaster.Unsubscribe at hun
          split at hun
          · cases hun
          · cases hun
            exact ⟨hst, rfl, fun _ hx => List.mem_of_mem_erase hx⟩
      · cases hs
    | close k =>
      simp only at hs
      split at hs
      · cases hs
      · split at hs
        · split at hs
          · cases hs
          · rename_i b hcl
            cases hs
            obtain ⟨f1, f2, f3, -, -⟩ := Broadcaster.closeSender_frame hcl
            exact ⟨by simpa [f3] using hst, f2, by simp [f1]⟩
        · cases hs
    | publish msg =>
      simp only [Option.some.injEq] at hs
      subst hs
      exact ⟨hst, rfl, fun _ hx => hx⟩
    | publisher k =>
      simp only at hs
      split at hs
      · split at hs
        · cases hs
        · rename_i b pc' hp
          cases hs
          obtain ⟨-, f2, f3, -, f5⟩ := Broadcaster.publishStep_frame hp
          exact ⟨by simpa [f5] using hst, by simp [f3], by simp [f2]⟩
      · cases hs
    | stop =>
      simp only [Option.some.injEq] at hs
      subst hs
      obtain ⟨-, f2, f3, -, f5, -⟩ := Broadcaster.Stop_frame h.broadcaster
      exact ⟨by simpa [f5] using hst, by simp [f3], by simp [f2]⟩
    | dispatch pick =>
      simp only at hs
      split at hs
      · cases hs
      · rename_i b hd
        cases hs
        obtain ⟨-, f2, f3, f4⟩ := Broadcaster.dispStep_frame hd
        exact ⟨f4 hst, f3, by simp [f2]⟩
    | receive ch =>
      simp only at hs
      split at hs
      · cases hs
      · split at hs
        · cases hs
        · cases hs
          exact ⟨hst, by simp [Broadcaster.setChan], by simp [Broadcaster.setChan]⟩

theorem Hub.run_stopped {T : Type} {acts : List (HubAction T)} {h h' : Hub T}
    (hr : h.run acts = some h') (hst : h.broadcaster.stopped = true) :
    h'.broadcaster.stopped = true ∧ h'.broadcaster.chans.length = h.broadcaster.chans.length ∧
    h'.broadcaster.subscribers ⊆ h.broadcaster.subscribers := by
  induction acts generalizing h with
  | nil =>
    simp only [Hub.run, Option.some.injEq] at hr
    subst hr
    exact ⟨hst, rfl, fun _ hx => hx⟩
  | cons a rest ih =>
    simp only [Hub.run] at hr
    split at hr
    · cases hr
    · rename_i h1 hs
      obtain ⟨g1, g2, g3⟩ := Hub.step_stopped hs hst
      obtain ⟨k1, k2, k3⟩ := ih hr g1
      exact ⟨k1, k2.trans g2, fun _ hx => g3 (k3 hx)⟩

/-- C23.  In every state that a schedule of the broadcaster and its callers
reaches.  Once `stopped` is set the dispatcher has returned and every channel
of the subscriber set is closed, and in every later state `stopped` is still
set, `Subscribe` fails, returning no channel and leaving the broadcaster as it
is, and no channel has been added.  While `stopped` is not set and the mutex
is free, `Subscribe` returns a new channel, empty and of capacity 1, which it
has added to the subscriber set. -/
theorem broadcaster_stop {T : Type} (acts : List (HubAction T)) (h : Hub T)
    (hr : (Hub.new T).run acts = some h) :
    (h.broadcaster.stopped = true →
      h.broadcaster.disp = .exited ∧
      (∀ i ∈ h.broadcaster.subscribers,
        ∃ c, h.broadcaster.chans[i]? = some c ∧ c.closed = true) ∧
      ∀ (later : List (HubAction T)) (h' : Hub T), h.run later = some h' →
        h'.broadcaster.stopped = true ∧
        h'.broadcaster.Subscribe = some (h'.broadcaster, none) ∧
        h'.broadcaster.chans.length = h.broadcaster.chans.length ∧
        h'.broadcaster.subscribers ⊆ h.broadcaster.subscribers) ∧
    (h.broadcaster.stopped = false → h.broadcaster.muHeld = false →
      h.broadcaster.Subscribe =
        some (h.broadcaster.register, some h.broadcaster.chans.length) ∧
      h.broadcaster.register.chans = h.broadcaster.chans ++ [⟨[], 1, false⟩] ∧
      h.broadcaster.register.subscribers =
        h.broadcaster.subscribers ++ [h.broadcaster.chans.length] ∧
      h.broadcaster.chans.length ∉ h.broadcaster.subscribers) := by
  have hi := (Hub.Inv.hubNew T).hubRun hr
  constructor
  · intro hst
    have hex := hi.tidy.stopped_iff.mp hst
    refine ⟨hex, ?_, ?_⟩
    · intro i hmem
      have hlt := hi.tidy.subs_lt i hmem
      refine ⟨h.broadcaster.chans[i], List.getElem?_eq_getElem hlt, ?_⟩
      rw [hi.tidy.subs_closed i hmem _ (List.getElem?_eq_getElem hlt), hex]
      trivial
    · intro later h' hr'
      obtain ⟨g1, g2, g3⟩ := Hub.run_stopped hr' hst
      have hi' := hi.hubRun hr'
      have hex' := hi'.tidy.stopped_iff.mp g1
      refine ⟨g1, ?_, g2, g3⟩
      simp [Broadcaster.Subscribe, Broadcaster.muHeld, hex', g1]
  · intro hst hm
    refine ⟨by simp [Broadcaster.Subscribe, hst, hm], rfl, rfl, ?_⟩
    intro hmem
    exact lt_irrefl _ (hi.tidy.subs_lt _ hmem)

theorem Broadcaster.getElem?_setChan {T : Type} (b : Broadcaster T) (n i : Nat) (c : Chan T)
    (hn : n < b.chans.length) :
    (b.setChan n c).chans[i]? = if i = n then some c else b.chans[i]? := by
  simp only [Broadcaster.setChan]
  split
  · rename_i h
    subst h
    exact List.getElem?_set_self hn
  · rename_i h
    exact List.getElem?_set_ne (fun e => h e.symm)

theorem DispPc.halting_dispStep {T : Type} {b b' : Broadcaster T} {pick : Nat}
    (hh : b.disp.halting) (h : b.dispStep pick = some b') : b'.disp.halting := by
  unfold Broadcaster.dispStep at h
  cases hd : b.disp <;> rw [hd] at hh h <;> simp only [DispPc.halting] at hh
  · cases h; trivial
  · simp only at h
    split at h
    · cases h; trivial
    · split at h
      · split at h
        · cases h
        · split at h <;> cases h <;> trivial
      · cases h
  · cases h

theorem Broadcaster.InRound.roundStep {T : Type} {b0 b b' : Broadcaster T} {m : T}
    {pick : Nat} (hr : b.InRound b0 m) (h : b.dispStep pick = some b') :
    b'.InRound b0 m ∨ b'.disp.halting := by
  obtain ⟨r1, r2, r3, r4, r5, r6, r7, r8⟩ := hr
  unfold Broadcaster.dispStep at h
  cases hd : b.disp with
  | recv =>
    simp only [hd, r2] at h
    split at h
    · cases h; right; trivial
    · cases h
  | snapshot msg =>
    simp only [hd] at h r8
    cases h
    simp only [DispPc.inRound] at r8
    subst r8
    left
    refine ⟨r1, r2, r3, r4, r5, r6, r7, ?_⟩
    simp only [DispPc.inRound, r1]
    exact ⟨trivial, fun _ hx => hx, r7, fun i hi hn => absurd hi hn⟩
  | sending msg pending =>
    simp only [hd] at h r8
    simp only [DispPc.inRound] at r8
    obtain ⟨rfl, p1, p2, p3⟩ := r8
    split at h
    · cases h
      left
      refine ⟨r1, r2, r3, r4, r5, r6, r7, ?_⟩
      simp only [DispPc.inRound]
      exact fun i hi => p3 i hi (List.not_mem_nil i)
    · rename_i x rest
      split at h
      · rename_i hpick
        obtain ⟨c, hc, c1, c2, c3⟩ := r6 pick (p1 hpick)
        have hlt : pick < b.chans.length := (List.getElem?_eq_some_iff.mp hc).1
        simp only [hc, c1, Bool.false_eq_true, if_false] at h
        split at h
        · rename_i hroom
          cases h
          have hbuf : c.buf = [] := by
            simp only [Chan.hasRoom, decide_eq_true_eq, c2] at hroom
            exact List.length_eq_zero.mp (by omega)
          have hpush : c.push msg = ⟨[msg], 1, false⟩ := by
            obtain ⟨buf, cap, closed⟩ := c
            simp only at c1 c2 hbuf
            subst c1 c2 hbuf
            rfl
          left
          refine ⟨r1, r2, r3, by simpa [Broadcaster.setChan] using r4, ?_, ?_, r7, ?_⟩
          · intro i hi
            have hne : i ≠ pick := fun e => hi (e ▸ p1 hpick)
            simp only
            rw [Broadcaster.getElem?_setChan b pick i _ hlt, if_neg hne]
            exact r5 i hi
          · intro i hi
            simp only
            rw [Broadcaster.getElem?_setChan b pick i _ hlt]
            split
            · exact ⟨_, rfl, by simp [hpush], by simp [hpush], by simp [hpush]⟩
            · exact r6 i hi
          · simp only [DispPc.inRound]
            refine ⟨trivial, fun _ hx => p1 (List.mem_of_mem_erase hx), p2.erase pick, ?_⟩
            intro i hi hn
            rw [Broadcaster.getElem?_setChan b pick i _ hlt]
            split
            · rw [hpush]
            · rename_i hne
              exact p3 i hi (fun hm => hn ((List.mem_erase_of_ne hne).mpr hm))
        · cases h
          left
          refine ⟨r1, r2, r3, r4, r5, r6, r7, ?_⟩
          simp only [DispPc.inRound]
          refine ⟨trivial, p1 hpick, fun hm => ((List.Nodup.mem_erase_iff p2).mp hm).1 rfl,
            fun _ hx => p1 (List.mem_of_mem_erase hx), p2.erase pick, ?_⟩
          intro i hi hne hn
          exact p3 i hi (fun hm => hn ((List.mem_erase_of_ne hne).mpr hm))
      · cases h
  | drain msg cur pending =>
    simp only [hd] at h r8
    simp only [DispPc.inRound] at r8
    obtain ⟨rfl, p0, p0', p1, p2, p3⟩ := r8
    obtain ⟨c, hc, c1, c2, c3⟩ := r6 cur p0
    have hlt : cur < b.chans.length := (List.getElem?_eq_some_iff.mp hc).1
    simp only [hc] at h
    cases h
    have hpop : c.pop.buf = [] := by
      simp only [Chan.pop]
      exact List.length_eq_zero.mp (by rw [List.length_tail]; omega)
    left
    refine ⟨r1, r2, r3, by simpa [Broadcaster.setChan] using r4, ?_, ?_, r7, ?_⟩
    · intro i hi
      have hne : i ≠ cur := fun e => hi (e ▸ p0)
      simp only
      rw [Broadcaster.getElem?_setChan b cur i _ hlt, if_neg hne]
      exact r5 i hi
    · intro i hi
      simp only
      rw [Broadcaster.getElem?_setChan b cur i _ hlt]
      split
      · exact ⟨_, rfl, by simpa [Chan.pop] using c1, by simpa [Chan.pop] using c2,
          by simp [hpop]⟩
      · exact r6 i hi
    · simp only [DispPc.inRound]
      refine ⟨trivial, p0, p0', p1, p2, ?_, ?_⟩
      · intro i hi hne hn
        rw [Broadcaster.getElem?_setChan b cur i _ hlt, if_neg hne]
        exact p3 i hi hne hn
      · refine ⟨c.pop, ?_, hpop⟩
        rw [Broadcaster.getElem?_setChan b cur cur _ hlt, if_pos rfl]
  | resend msg cur pending =>
    simp only [hd] at h r8
    simp only [DispPc.inRound] at r8
    obtain ⟨rfl, p0, p0', p1, p2, p3, c', hc', hbuf⟩ := r8
    obtain ⟨c, hc, c1, c2, c3⟩ := r6 cur p0
    rw [hc'] at hc
    cases hc
    have hlt : cur < b.chans.length := (List.getElem?_eq_some_iff.mp hc').1
    have hroom : c'.hasRoom = true := by simp [Chan.hasRoom, hbuf, c2]
    simp only [hc', c1, hroom, Bool.false_eq_true, if_false, if_true] at h
    cases h
    have hpush : c'.push msg = ⟨[msg], 1, false⟩ := by
      obtain ⟨buf, cap, closed⟩ := c'
      simp only at c1 c2 hbuf
      subst c1 c2 hbuf
      rfl
    left
    refine ⟨r1, r2, r3, by simpa [Broadcaster.setChan] using r4, ?_, ?_, r7, ?_⟩
    · intro i hi
      have hne : i ≠ cur := fun e => hi (e ▸ p0)
      simp only
      rw [Broadcaster.getElem?_setChan b cur i _ hlt, if_neg hne]
      exact r5 i hi
    · intro i hi
      simp only
      rw [Broadcaster.getElem?_setChan b cur i _ hlt]
      split
      · exact ⟨_, rfl, by simp [hpush], by simp [hpush], by simp [hpush]⟩
      · exact r6 i hi
    · simp only [DispPc.inRound]
      refine ⟨trivial, p1, p2, ?_⟩
      intro i hi hn
      rw [Broadcaster.getElem?_setChan b cur i _ hlt]
      split
      · rw [hpush]
      · rename_i hne
        exact p3 i hi hne hn
  | stopping => simp [hd, DispPc.inRound] at r8
  | closing pending => simp [hd, DispPc.inRound] at r8
  | exited => simp [hd, DispPc.inRound] at r8

theorem Broadcaster.InRound.roundRun {T : Type} {b0 b b' : Broadcaster T} {m : T}
    {picks : List Nat} (hr : b.InRound b0 m ∨ b.disp.halting)
    (h : b.dispRun picks = some b') : b'.InRound b0 m ∨ b'.disp.halting := by
  induction picks generalizing b with
  | nil => simp only [Broadcaster.dispRun, Option.some.injEq] at h; subst h; exact hr
  | cons pick rest ih =>
    simp only [Broadcaster.dispRun] at h
    split at h
    · cases h
    · rename_i b1 hs
      rcases hr with hr | hr
      · exact ih (hr.roundStep hs) h
      · exact ih (Or.inr (DispPc.halting_dispStep hr hs)) h

/-- In a round the dispatcher is never blocked: it has a step, which stays in
the round and leaves it fewer steps. -/
theorem Broadcaster.InRound.roundProgress {T : Type} {b0 b : Broadcaster T} {m : T}
    (hr : b.InRound b0 m) (hne : b.disp ≠ .recv) :
    ∃ pick b', b.dispStep pick = some b' ∧ b'.InRound b0 m ∧
      b'.disp.stepsLeft b0.subscribers.length < b.disp.stepsLeft b0.subscribers.length := by
  have hr0 := hr
  obtain ⟨r1, r2, r3, r4, r5, r6, r7, r8⟩ := hr
  cases hd : b.disp with
  | recv => exact absurd hd hne
  | snapshot msg =>
    have hs : b.dispStep 0 = some { b with disp := .sending msg b.subscribers } := by
      simp [Broadcaster.dispStep, hd]
    refine ⟨0, _, hs, ?_, ?_⟩
    · rcases hr0.roundStep hs with h | h
      · exact h
      · simp [DispPc.halting] at h
    · simp [DispPc.stepsLeft, r1]
  | sending msg pending =>
    simp only [hd, DispPc.inRound] at r8
    obtain ⟨rfl, p1, p2, p3⟩ := r8
    cases pending with
    | nil =>
      have hs : b.dispStep 0 = some { b with disp := .recv } := by
        simp [Broadcaster.dispStep, hd]
      refine ⟨0, _, hs, ?_, ?_⟩
      · rcases hr0.roundStep hs with h | h
        · exact h
        · simp [DispPc.halting] at h
      · simp [DispPc.stepsLeft]
    | cons x rest =>
      obtain ⟨c, hc, c1, c2, c3⟩ := r6 x (p1 (List.mem_cons_self _ _))
      by_cases hroom : c.hasRoom = true
      · have hs : b.dispStep x = some { b.setChan x (c.push msg) with
            disp := .sending msg ((x :: rest).erase x) } := by
          simp [Broadcaster.dispStep, hd, hc, c1, hroom]
        refine ⟨x, _, hs, ?_, ?_⟩
        · rcases hr0.roundStep hs with h | h
          · exact h
          · simp [DispPc.halting] at h
        · simp [DispPc.stepsLeft]
      · have hs : b.dispStep x = some { b with disp := .drain msg x ((x :: rest).erase x) } := by
          simp [Broadcaster.dispStep, hd, hc, c1, hroom]
        refine ⟨x, _, hs, ?_, ?_⟩
        · rcases hr0.roundStep hs with h | h
          · exact h
          · simp [DispPc.halting] at h
        · simp only [DispPc.stepsLeft, List.erase_cons_head, List.length_cons]
          omega
  | drain msg cur pending =>
    simp only [hd, DispPc.inRound] at r8
    obtain ⟨rfl, p0, p0', p1, p2, p3⟩ := r8
    obtain ⟨c, hc, c1, c2, c3⟩ := r6 cur p0
    have hs : b.dispStep 0 = some { b.setChan cur c.pop with disp := .resend msg cur pending } := by
      simp [Broadcaster.dispStep, hd, hc]
    refine ⟨0, _, hs, ?_, ?_⟩
    · rcases hr0.roundStep hs with h | h
      · exact h
      · simp [DispPc.halting] at h
    · simp [DispPc.stepsLeft]
  | resend msg cur pending =>
    simp only [hd, DispPc.inRound] at r8
    obtain ⟨rfl, p0, p0', p1, p2, p3, c', hc', hbuf⟩ := r8
    obtain ⟨c, hc, c1, c2, c3⟩ := r6 cur p0
    rw [hc'] at hc
    cases hc
    have hroom : c'.hasRoom = true := by simp [Chan.hasRoom, hbuf, c2]
    have hs : b.dispStep 0 = some { b.setChan cur (c'.push msg) with
        disp := .sending msg pending } := by
      simp [Broadcaster.dispStep, hd, hc', c1, hroom]
    refine ⟨0, _, hs, ?_, ?_⟩
    · rcases hr0.roundStep hs with h | h
      · exact h
      · simp [DispPc.halting] at h
    · simp [DispPc.stepsLeft]
  | stopping => simp [hd, DispPc.inRound] at r8
  | closing pending => simp [hd, DispPc.inRound] at r8
  | exited => simp [hd, DispPc.inRound] at r8

theorem Broadcaster.InRound.roundFinish {T : Type} {b0 : Broadcaster T} {m : T} (n : Nat) :
    ∀ b : Broadcaster T, b.InRound b0 m → b.disp.stepsLeft b0.subscribers.length ≤ n →
      ∃ picks b', b.dispRun picks = some b' ∧ b'.disp = .recv ∧ b'.InRound b0 m := by
  induction n with
  | zero =>
    intro b hr hn
    by_cases hd : b.disp = .recv
    · exact ⟨[], b, rfl, hd, hr⟩
    · obtain ⟨_, _, _, _, hlt⟩ := hr.roundProgress hd
      omega
  | succ n ih =>
    intro b hr hn
    by_cases hd : b.disp = .recv
    · exact ⟨[], b, rfl, hd, hr⟩
    · obtain ⟨pick, b1, hs, hr1, hlt⟩ := hr.roundProgress hd
      obtain ⟨picks, b', h1, h2, h3⟩ := ih b1 hr1 (by omega)
      exact ⟨pick :: picks, b', by simp [Broadcaster.dispRun, hs, h1], h2, h3⟩

/-- The round of the dispatcher from a reachable state in which it is idle and
one message is pending: the round ends, and at its end every subscriber's
channel holds the message and nothing else. -/
theorem Hub.Inv.round {T : Type} {h : Hub T} (hi : h.Inv) (m : T)
    (hd : h.broadcaster.disp = .recv) (hin : h.broadcaster.messageReceiver.buf = [m]) :
    (∃ (picks : List Nat) (b' : Broadcaster T),
      picks ≠ [] ∧ h.broadcaster.dispRun picks = some b' ∧ b'.disp = .recv) ∧
    ∀ (picks : List Nat) (b' : Broadcaster T), picks ≠ [] →
      h.broadcaster.dispRun picks = some b' → b'.disp = .recv →
      (∀ i ∈ h.broadcaster.subscribers, b'.chans[i]? = some ⟨[m], 1, false⟩) ∧
      (∀ i, i ∉ h.broadcaster.subscribers → b'.chans[i]? = h.broadcaster.chans[i]?) ∧
      b'.subscribers = h.broadcaster.subscribers ∧ b'.panicked = h.broadcaster.panicked ∧
      b'.messageReceiver.buf = [] := by
  have hfirst : ∀ pick, h.broadcaster.dispStep pick =
      some { h.broadcaster with messageReceiver := h.broadcaster.messageReceiver.pop,
                                disp := .snapshot m } := by
    intro pick
    simp [Broadcaster.dispStep, hd, hin]
  have hround : ({ h.broadcaster with messageReceiver := h.broadcaster.messageReceiver.pop,
                                      disp := .snapshot m } : Broadcaster T).InRound
      h.broadcaster m := by
    refine ⟨rfl, by simp [Chan.pop, hin], rfl, rfl, fun _ _ => rfl, ?_, hi.tidy.subs_nodup, ?_⟩
    · intro i hmem
      have hlt := hi.tidy.subs_lt i hmem
      have hc : h.broadcaster.chans[i]? = some h.broadcaster.chans[i] :=
        List.getElem?_eq_getElem hlt
      have hw := hi.tidy.chan_wf i _ hc
      have hcl := hi.tidy.subs_closed i hmem _ hc
      simp only [hd, DispPc.closedAt, iff_false, Bool.not_eq_true] at hcl
      exact ⟨_, hc, hcl, hw.1, hw.2⟩
    · simp [DispPc.inRound]
  constructor
  · obtain ⟨picks, b', h1, h2, -⟩ := Broadcaster.InRound.roundFinish _ _ hround (le_refl _)
    exact ⟨0 :: picks, b', by simp, by simp [Broadcaster.dispRun, hfirst, h1], h2⟩
  · intro picks b' hne hrun hrecv
    cases picks with
    | nil => exact absurd rfl hne
    | cons pick rest =>
      simp only [Broadcaster.dispRun, hfirst] at hrun
      rcases Broadcaster.InRound.roundRun (Or.inl hround) hrun with hfin | hhalt
      · obtain ⟨r1, r2, r3, r4, r5, r6, r7, r8⟩ := hfin
        simp only [hrecv, DispPc.inRound] at r8
        exact ⟨r8, r5, r1, r3, r2⟩
      · simp [hrecv, DispPc.halting] at hhalt

/-- The dispatcher does not touch a closed channel that is neither in the
subscriber set nor in the snapshot of its round. -/
theorem Broadcaster.dispStep_gone {T : Type} {b b' : Broadcaster T} {pick a : Nat}
    {c : Chan T} (h : b.dispStep pick = some b') (hn : a ∉ b.subscribers)
    (hh : ¬ b.disp.holds a) (hc : b.chans[a]? = some c) (hcl : c.closed = true) :
    b'.chans[a]? = some c ∧ ¬ b'.disp.holds a := by
  have hlt : a < b.chans.length := (List.getElem?_eq_some_iff.mp hc).1
  unfold Broadcaster.dispStep at h
  split at h
  · split at h
    · cases h; exact ⟨hc, by simp [DispPc.holds]⟩
    · split at h
      · cases h; exact ⟨hc, by simp [DispPc.holds]⟩
      · cases h
  · cases h; exact ⟨hc, by simpa [DispPc.holds] using hn⟩
  · rename_i msg pending hd
    simp only [hd, DispPc.holds] at hh
    split at h
    · cases h; exact ⟨hc, by simp [DispPc.holds]⟩
    · split at h
      · rename_i hpick
        have hne : a ≠ pick := fun e => hh (e ▸ hpick)
        split at h
        · cases h
        · rename_i c' hc'
          have hlt' : pick < b.chans.length := (List.getElem?_eq_some_iff.mp hc').1
          split at h
          · cases h; exact ⟨hc, by simpa [hd, DispPc.holds] using hh⟩
          · split at h
            · cases h
              refine ⟨?_, ?_⟩
              · simp only
                rw [Broadcaster.getElem?_setChan b pick a _ hlt', if_neg hne]
                exact hc
              · simp only [DispPc.holds]
                exact fun hm => hh (List.mem_of_mem_erase hm)
            · cases h
              refine ⟨hc, ?_⟩
              simp only [DispPc.holds, not_or]
              exact ⟨fun e => hne e.symm, fun hm => hh (List.mem_of_mem_erase hm)⟩
      · cases h
  · rename_i msg cur pending hd
    simp only [hd, DispPc.holds, not_or] at hh
    split at h
    · cases h
    · rename_i c' hc'
      have hlt' : cur < b.chans.length := (List.getElem?_eq_some_iff.mp hc').1
      cases h
      refine ⟨?_, by simpa [DispPc.holds, not_or] using hh⟩
      simp only
      rw [Broadcaster.getElem?_setChan b cur a _ hlt', if_neg (fun e => hh.1 e.symm)]
      exact hc
  · rename_i msg cur pending hd
    simp only [hd, DispPc.holds, not_or] at hh
    split at h
    · cases h
    · rename_i c' hc'
      have hlt' : cur < b.chans.length := (List.getElem?_eq_some_iff.mp hc').1
      split at h
      · cases h; exact ⟨hc, by simpa [hd, DispPc.holds, not_or] using hh⟩
      · split at h
        · cases h
          refine ⟨?_, by simpa [DispPc.holds] using hh.2⟩
          simp only
          rw [Broadcaster.getElem?_setChan b cur a _ hlt', if_neg (fun e => hh.1 e.symm)]
          exact hc
        · cases h
  · cases h; exact ⟨hc, by simp [DispPc.holds]⟩
  · split at h
    · cases h; exact ⟨hc, by simp [DispPc.holds]⟩
    · split at h
      · split at h
        · cases h
        · rename_i c' hc'
          have hlt' : pick < b.chans.length := (List.getElem?_eq_some_iff.mp hc').1
          split at h
          · cases h
            exact ⟨hc, hh⟩
          · rename_i hopen
            cases h
            have hne : a ≠ pick := by
              rintro rfl
              rw [hc] at hc'
              cases hc'
              exact hopen hcl
            refine ⟨?_, by simp [DispPc.holds]⟩
            simp only
            rw [Broadcaster.getElem?_setChan b pick a _ hlt', if_neg hne]
            exact hc
      · cases h
  · cases h

/-- After a channel is unsubscribed and closed, with the dispatcher not holding
it, no step sends on it: it stays closed and outside the subscriber set, and
its buffer only loses what a consumer receives. -/
theorem Hub.gone.goneStep {T : Type} {h h' : Hub T} {x : HubAction T} {a : Nat} {c : Chan T}
    (hg : h.gone a) (hc : h.broadcaster.chans[a]? = some c) (hs : h.step x = some h') :
    h'.gone a ∧ ∃ n, h'.broadcaster.chans[a]? = some ⟨c.buf.drop n, c.cap, c.closed⟩ := by
  obtain ⟨g1, g2, c0, hc0, hcl⟩ := hg
  rw [hc] at hc0
  cases hc0
  have hlt : a < h.broadcaster.chans.length := (List.getElem?_eq_some_iff.mp hc).1
  have same : ∀ h1 : Hub T, h1.broadcaster.subscribers = h.broadcaster.subscribers →
      h1.broadcaster.disp = h.broadcaster.disp → h1.broadcaster.chans = h.broadcaster.chans →
      h1.gone a ∧ ∃ n, h1.broadcaster.chans[a]? = some ⟨c.buf.drop n, c.cap, c.closed⟩ := by
    intro h1 e1 e2 e3
    refine ⟨⟨by rw [e1]; exact g1, by rw [e2]; exact g2, c, by rw [e3]; exact hc, hcl⟩, 0, ?_⟩
    rw [e3, hc]
    rfl
  unfold Hub.step at hs
  split at hs
  · cases hs
  · cases x with
    | subscribe =>
      simp only at hs
      split at hs
      · cases hs
      · rename_i b r hsub
        cases hs
        rcases Broadcaster.Subscribe_cases hsub with ⟨-, rfl, -⟩ | ⟨-, -, rfl⟩
        · exact same _ rfl rfl rfl
        · have hca : (h.broadcaster.chans ++ [Chan.make T 1])[a]? = some c := by
            rw [List.getElem?_append_left hlt]
            exact hc
          refine ⟨⟨?_, g2, c, hca, hcl⟩, 0, by simpa [Broadcaster.register] using hca⟩
          simp only [Broadcaster.register, List.mem_append, List.mem_singleton, not_or]
          exact ⟨g1, by omega⟩
    | unsubscribe ch =>
      simp only at hs
      split at hs
      · split at hs
        · cases hs
        · rename_i b st hun
          cases hs
          unfold Broadcaster.Unsubscribe at hun
          split at hun
          · cases hun
          · cases hun
            exact ⟨⟨fun hm => g1 (List.mem_of_mem_erase hm), g2, c, hc, hcl⟩, 0, by simpa using hc⟩
      · cases hs
    | close k =>
      simp only at hs
      split at hs
      · cases hs
      · rename_i u hk
        split at hs
        · split at hs
          · cases hs
          · rename_i b hclose
            cases hs
            unfold Broadcaster.closeSender at hclose
            split at hclose
            · cases hclose
            · rename_i c' hc'
              have hlt' : u.subscriberSender < h.broadcaster.chans.length :=
                (List.getElem?_eq_some_iff.mp hc').1
              split at hclose
              · cases hclose
                exact same _ rfl rfl rfl
              · rename_i hopen
                cases hclose
                have hne : a ≠ u.subscriberSender := by
                  rintro rfl
                  rw [hc] at hc'
                  cases hc'
                  exact hopen hcl
                have hca : (h.broadcaster.setChan u.subscriberSender c'.close).chans[a]? =
                    some c := by
                  rw [Broadcaster.getElem?_setChan _ _ a _ hlt', if_neg hne]
                  exact hc
                exact ⟨⟨g1, g2, c, hca, hcl⟩, 0, by simpa using hca⟩
        · cases hs
    | publish msg =>
      simp only [Option.some.injEq] at hs
      subst hs
      exact same _ rfl rfl rfl
    | publisher k =>
      simp only at hs
      split at hs
      · split at hs
        · cases hs
        · rename_i b pc' hp
          cases hs
          obtain ⟨-, f2, f3, f4, -⟩ := Broadcaster.publishStep_frame hp
          exact same _ f2 f4 f3
      · cases hs
    | stop =>
      simp only [Option.some.injEq] at hs
      subst hs
      obtain ⟨-, f2, f3, f4, -, -⟩ := Broadcaster.Stop_frame h.broadcaster
      exact same _ f2 f4 f3
    | dispatch pick =>
      simp only at hs
      split at hs
      · cases hs
      · rename_i b hd
        cases hs
        obtain ⟨d1, d2⟩ := Broadcaster.dispStep_gone hd g1 g2 hc hcl
        obtain ⟨-, f2, -, -⟩ := Broadcaster.dispStep_frame hd
        exact ⟨⟨by rw [f2]; exact g1, d2, c, d1, hcl⟩, 0, by simpa using d1⟩
    | receive ch =>
      simp only at hs
      split at hs
      · cases hs
      · rename_i c' hc'
        have hlt' : ch < h.broadcaster.chans.length := (List.getElem?_eq_some_iff.mp hc').1
        split at hs
        · cases hs
        · cases hs
          by_cases hne : a = ch
          · subst hne
            rw [hc] at hc'
            cases hc'
            have hca : (h.broadcaster.setChan a c.pop).chans[a]? = some c.pop := by
              rw [Broadcaster.getElem?_setChan _ _ a _ hlt, if_pos rfl]
            refine ⟨⟨g1, g2, c.pop, hca, by simpa [Chan.pop] using hcl⟩, 1, ?_⟩
            simp only [List.drop_one]
            exact hca
          · have hca : (h.broadcaster.setChan ch c'.pop).chans[a]? = some c := by
              rw [Broadcaster.getElem?_setChan _ _ a _ hlt', if_neg hne]
              exact hc
            exact ⟨⟨g1, g2, c, hca, hcl⟩, 0, by simpa using hca⟩

theorem Hub.gone.goneRun {T : Type} {a : Nat} (acts : List (HubAction T)) :
    ∀ (h h' : Hub T) (c : Chan T), h.gone a → h.broadcaster.chans[a]? = some c →
      h.run acts = some h' →
      h'.gone a ∧ ∃ n, h'.broadcaster.chans[a]? = some ⟨c.buf.drop n, c.cap, c.closed⟩ := by
  induction acts with
  | nil =>
    intro h h' c hg hc hr
    simp only [Hub.run, Option.some.injEq] at hr
    subst hr
    exact ⟨hg, 0, by simpa using hc⟩
  | cons x rest ih =>
    intro h h' c hg hc hr
    simp only [Hub.run] at hr
    split at hr
    · cases hr
    · rename_i h1 hs
      obtain ⟨g1, n, hn⟩ := hg.goneStep hc hs
      obtain ⟨g2, k, hk⟩ := ih h1 h' _ g1 hn hr
      refine ⟨g2, n + k, ?_⟩
      simpa [List.drop_drop, Nat.add_comm] using hk

theorem broadcaster_stop_witness :
    (Hub.new Nat).run stopSchedule = some stoppedHub ∧
    (stoppedHub.broadcaster.disp = .exited ∧
      (∀ i ∈ stoppedHub.broadcaster.subscribers,
        ∃ c, stoppedHub.broadcaster.chans[i]? = some c ∧ c.closed = true) ∧
      ∀ (later : List (HubAction Nat)) (h' : Hub Nat), stoppedHub.run later = some h' →
        h'.broadcaster.stopped = true ∧
        h'.broadcaster.Subscribe = some (h'.broadcaster, none) ∧
        h'.broadcaster.chans.length = stoppedHub.broadcaster.chans.length ∧
        h'.broadcaster.subscribers ⊆ stoppedHub.broadcaster.subscribers) ∧
    ((Hub.new Nat).broadcaster.Subscribe =
        some ((Hub.new Nat).broadcaster.register, some (Hub.new Nat).broadcaster.chans.length) ∧
      (Hub.new Nat).broadcaster.register.chans =
        (Hub.new Nat).broadcaster.chans ++ [⟨[], 1, false⟩] ∧
      (Hub.new Nat).broadcaster.register.subscribers =
        (Hub.new Nat).broadcaster.subscribers ++ [(Hub.new Nat).broadcaster.chans.length] ∧
      (Hub.new Nat).broadcaster.chans.length ∉ (Hub.new Nat).broadcaster.subscribers) :=
  ⟨by decide, (broadcaster_stop stopSchedule stoppedHub (by decide)).1 (by decide),
   (broadcaster_stop [] (Hub.new Nat) rfl).2 (by decide) (by decide)⟩

/-- C25.  For every reachable state in which the dispatcher is idle and a message
`m` is pending in the inbox: the round of the dispatcher, run with no other
goroutine in between and in any order of the subscribers, comes to its end,
and at its end the channel of every subscriber registered at the start holds
`m` and nothing else, whatever it held before; the other channels and the
subscriber set are as before, and nothing has panicked. -/
theorem latest_wins {T : Type} (acts : List (HubAction T)) (h : Hub T)
    (hr : (Hub.new T).run acts = some h) (m : T) (hd : h.broadcaster.disp = .recv)
    (hin : h.broadcaster.messageReceiver.buf = [m]) :
    (∃ (picks : List Nat) (b' : Broadcaster T),
      picks ≠ [] ∧ h.broadcaster.dispRun picks = some b' ∧ b'.disp = .recv) ∧
    ∀ (picks : List Nat) (b' : Broadcaster T), picks ≠ [] →
      h.broadcaster.dispRun picks = some b' → b'.disp = .recv →
      (∀ i ∈ h.broadcaster.subscribers, b'.chans[i]? = some ⟨[m], 1, false⟩) ∧
      (∀ i, i ∉ h.broadcaster.subscribers → b'.chans[i]? = h.broadcaster.chans[i]?) ∧
      b'.subscribers = h.broadcaster.subscribers ∧ b'.panicked = h.broadcaster.panicked ∧
      b'.messageReceiver.buf = [] := by
  have hi := (Hub.Inv.hubNew T).hubRun hr
  exact hi.round m hd hin

theorem latest_wins_witness :
    (Hub.new Nat).run behindSchedule = some behindHub ∧
    behindHub.broadcaster.dispRun [0, 0, 0, 0, 0, 1, 0] = some caughtUp ∧
    behindHub.broadcaster.chans = [⟨[1], 1, false⟩, ⟨[], 1, false⟩] ∧
    ((∀ i ∈ behindHub.broadcaster.subscribers, caughtUp.chans[i]? = some ⟨[2], 1, false⟩) ∧
      (∀ i, i ∉ behindHub.broadcaster.subscribers →
        caughtUp.chans[i]? = behindHub.broadcaster.chans[i]?) ∧
      caughtUp.subscribers = behindHub.broadcaster.subscribers ∧
      caughtUp.panicked = behindHub.broadcaster.panicked ∧
      caughtUp.messageReceiver.buf = []) :=
  ⟨by decide, by decide, by decide,
   (latest_wins behindSchedule behindHub (by decide) 2 (by decide) (by decide)).2
     [0, 0, 0, 0, 0, 1, 0] caughtUp (by decide) (by decide) (by decide)⟩

theorem Broadcaster.dispStep_inbox {T : Type} {b b' : Broadcaster T} {pick : Nat}
    (h : b.dispStep pick = some b') :
    b'.messageReceiver = b.messageReceiver ∨ b'.messageReceiver = b.messageReceiver.pop := by
  unfold Broadcaster.dispStep at h
  split at h
  all_goals repeat' split at h
  all_goals cases h
  all_goals simp [Broadcaster.setChan]

/-- A step of another goroutine than a publisher leaves the calls of `Publish`
as they are, and does not close or fill the inbox. -/
theorem Hub.step_of_other {T : Type} {h h' : Hub T} {a : HubAction T} {k : Nat}
    (hs : h.step a = some h') (hl : a.leaves k = true) (ho : a.isPublisher k = false) :
    h'.publishers = h.publishers ∧
    h'.broadcaster.messageReceiver.closed = h.broadcaster.messageReceiver.closed ∧
    (h.broadcaster.messageReceiver.buf = [] → h'.broadcaster.messageReceiver.buf = []) := by
  unfold Hub.step at hs
  split at hs
  · cases hs
  · cases a with
    | subscribe =>
      simp only at hs
      split at hs
      · cases hs
      · rename_i b r hsub
        cases hs
        rcases Broadcaster.Subscribe_cases hsub with ⟨-, rfl, -⟩ | ⟨-, -, rfl⟩
        · exact ⟨rfl, rfl, id⟩
        · exact ⟨rfl, rfl, id⟩
    | unsubscribe ch =>
      simp only at hs
      split at hs
      · split at hs
        · cases hs
        · rename_i b st hun
          cases hs
          unfold Broadcaster.Unsubscribe at hun
          split at hun
          · cases hun
          · cases hun
            exact ⟨rfl, rfl, id⟩
      · cases hs
    | close j =>
      simp only at hs
      split at hs
      · cases hs
      · split at hs
        · split at hs
          · cases hs
          · rename_i b hcl
            cases hs
            obtain ⟨-, -, -, -, f5⟩ := Broadcaster.closeSender_frame hcl
            exact ⟨rfl, by rw [f5], fun hb => by rw [f5]; exact hb⟩
        · cases hs
    | publish msg => simp [HubAction.leaves] at hl
    | publisher j =>
      simp only [HubAction.leaves, decide_eq_true_eq] at hl
      simp [HubAction.isPublisher, hl] at ho
    | stop => simp [HubAction.leaves] at hl
    | dispatch pick =>
      simp only at hs
      split at hs
      · cases hs
      · rename_i b hd
        cases hs
        refine ⟨rfl, (Broadcaster.dispStep_frame hd).1, ?_⟩
        intro hb
        rcases Broadcaster.dispStep_inbox hd with e | e
        · simp only [e, hb]
        · simp only [e, Chan.pop, hb, List.tail_nil]
    | receive ch =>
      simp only at hs
      split at hs
      · cases hs
      · split at hs
        · cases hs
        · cases hs
          exact ⟨rfl, rfl, id⟩

theorem Hub.publishing.pubOther {T : Type} {h h' : Hub T} {a : HubAction T} {k n : Nat} {m : T}
    (hp : h.publishing k m n) (hs : h.step a = some h') (hl : a.leaves k = true)
    (ho : a.isPublisher k = false) : h'.publishing k m n := by
  obtain ⟨f1, f2, f3⟩ := Hub.step_of_other hs hl ho
  obtain ⟨p1, p2⟩ := hp
  refine ⟨by rw [f2]; exact p1, ?_⟩
  rw [f1]
  split <;> rename_i hk <;> simp only [hk] at p2
  all_goals first | exact p2 | exact ⟨p2.1, p2.2.1, f3 p2.2.2⟩

theorem Hub.publishing.pubOwn {T : Type} {h h' : Hub T} {k n : Nat} {m : T}
    (hp : h.publishing k m n) (hi : h.Inv) (hs : h.step (.publisher k) = some h') :
    h'.publishing k m (n + 1) ∧
    (h'.publishers[k]? = some none → h'.broadcaster.messageReceiver.buf = [m]) := by
  obtain ⟨p1, p2⟩ := hp
  obtain ⟨c1, c2⟩ := hi.tidy.inbox
  unfold Hub.step at hs
  split at hs
  · cases hs
  · simp only at hs
    split at hs
    · rename_i pc hk
      have hlt : k < h.publishers.length := (List.getElem?_eq_some_iff.mp hk).1
      simp only [hk] at p2
      split at hs
      · cases hs
      · rename_i b pc' hstep
        cases hs
        simp only [Hub.publishing, List.getElem?_set_self hlt]
        unfold Broadcaster.publishStep at hstep
        cases pc with
        | trySend msg =>
          obtain ⟨rfl, rfl⟩ := p2
          simp only [p1, Bool.false_eq_true, if_false] at hstep
          split at hstep
          · rename_i hroom
            simp only [Option.some.injEq, Prod.mk.injEq] at hstep
            obtain ⟨rfl, rfl⟩ := hstep
            simp only [Chan.hasRoom, decide_eq_true_eq, c1] at hroom
            have hb : h.broadcaster.messageReceiver.buf = [] :=
              List.length_eq_zero.mp (by omega)
            simp [Chan.push, hb, p1]
          · simp only [Option.some.injEq, Prod.mk.injEq] at hstep
            obtain ⟨rfl, rfl⟩ := hstep
            simp [p1]
        | drain msg =>
          obtain ⟨rfl, rfl⟩ := p2
          simp only [Option.some.injEq, Prod.mk.injEq] at hstep
          obtain ⟨rfl, rfl⟩ := hstep
          have hb : h.broadcaster.messageReceiver.buf.tail = [] :=
            List.length_eq_zero.mp (by rw [List.length_tail]; omega)
          simp [Chan.pop, hb, p1]
        | resend msg =>
          obtain ⟨rfl, rfl, hb⟩ := p2
          have hroom : h.broadcaster.messageReceiver.hasRoom = true := by
            simp [Chan.hasRoom, hb, c1]
          simp only [p1, hroom, Bool.false_eq_true, if_false, if_true, Option.some.injEq,
            Prod.mk.injEq] at hstep
          obtain ⟨rfl, rfl⟩ := hstep
          simp [Chan.push, hb, p1]
    · cases hs

theorem Hub.publishing.pubEnabled {T : Type} {h : Hub T} {k n : Nat} {m : T}
    (hp : h.publishing k m n) (hi : h.Inv) (pc : PubPc T)
    (hk : h.publishers[k]? = some (some pc)) (hpan : h.broadcaster.panicked = false) :
    ∃ h', h.step (.publisher k) = some h' := by
  obtain ⟨p1, p2⟩ := hp
  obtain ⟨c1, c2⟩ := hi.tidy.inbox
  simp only [hk] at p2
  rw [← Option.isSome_iff_exists]
  cases pc with
  | trySend msg =>
    by_cases hroom : h.broadcaster.messageReceiver.hasRoom = true
    · simp [Hub.step, hpan, hk, Broadcaster.publishStep, p1, hroom]
    · simp [Hub.step, hpan, hk, Broadcaster.publishStep, p1, hroom]
  | drain msg => simp [Hub.step, hpan, hk, Broadcaster.publishStep]
  | resend msg =>
    have hroom : h.broadcaster.messageReceiver.hasRoom = true := by
      simp [Chan.hasRoom, p2.2.2, c1]
    simp [Hub.step, hpan, hk, Broadcaster.publishStep, p1, hroom]

/-- Whether a step of `Publish` can be taken, and what it does to the inbox
and to the call, depends on the inbox alone. -/
theorem Broadcaster.publishStep_inbox {T : Type} (b1 b2 : Broadcaster T) (pc : PubPc T)
    (h : b1.messageReceiver = b2.messageReceiver) :
    (b1.publishStep pc).map (fun r => (r.1.messageReceiver, r.2)) =
      (b2.publishStep pc).map (fun r => (r.1.messageReceiver, r.2)) := by
  unfold Broadcaster.publishStep
  cases pc <;> simp only [h]
  · split
    · rfl
    · split <;> simp [h]
  · simp [h]
  · split
    · rfl
    · split <;> simp [h]

/-- A call of `Publish` that returns, with or without other calls beside it,
leaves its message as the only one in the inbox. -/
theorem Hub.Inv.returned {T : Type} {h h' : Hub T} (hi : h.Inv) {k : Nat} {pc : PubPc T}
    (hk : h.publishers[k]? = some (some pc)) (hs : h.step (.publisher k) = some h')
    (hret : h'.publishers[k]? = some none) (hpan : h'.broadcaster.panicked = false) :
    h'.broadcaster.messageReceiver.buf = [pc.msg] := by
  obtain ⟨c1, c2⟩ := hi.tidy.inbox
  have hlt : k < h.publishers.length := (List.getElem?_eq_some_iff.mp hk).1
  unfold Hub.step at hs
  split at hs
  · cases hs
  · simp only [hk] at hs
    split at hs
    · cases hs
    · rename_i b pc' hstep
      cases hs
      simp only [List.getElem?_set_self hlt, Option.some.injEq] at hret
      subst hret
      simp only at hpan
      unfold Broadcaster.publishStep at hstep
      cases pc with
      | trySend msg =>
        simp only at hstep
        split at hstep
        · simp only [Option.some.injEq, Prod.mk.injEq] at hstep
          obtain ⟨rfl, -⟩ := hstep
          simp at hpan
        · split at hstep
          · rename_i hroom
            simp only [Option.some.injEq, Prod.mk.injEq] at hstep
            obtain ⟨rfl, -⟩ := hstep
            simp only [Chan.hasRoom, decide_eq_true_eq, c1] at hroom
            have hb : h.broadcaster.messageReceiver.buf = [] :=
              List.length_eq_zero.mp (by omega)
            simp [Chan.push, hb, PubPc.msg]
          · simp at hstep
      | drain msg => simp at hstep
      | resend msg =>
        simp only at hstep
        split at hstep
        · simp only [Option.some.injEq, Prod.mk.injEq] at hstep
          obtain ⟨rfl, -⟩ := hstep
          simp at hpan
        · split at hstep
          · rename_i hroom
            simp only [Option.some.injEq, Prod.mk.injEq] at hstep
            obtain ⟨rfl, -⟩ := hstep
            simp only [Chan.hasRoom, decide_eq_true_eq, c1] at hroom
            have hb : h.broadcaster.messageReceiver.buf = [] :=
              List.length_eq_zero.mp (by omega)
            simp [Chan.push, hb, PubPc.msg]
          · cases hstep

theorem Hub.publishing.pubRun {T : Type} {k : Nat} {m : T} (acts : List (HubAction T)) :
    ∀ (h h' : Hub T) (n : Nat), h.Inv → h.publishing k m n →
      (∀ a ∈ acts, HubAction.leaves k a = true) → h.run acts = some h' →
      h'.publishing k m (n + (acts.filter (HubAction.isPublisher k)).length) := by
  induction acts with
  | nil =>
    intro h h' n _ hp _ hr
    simp only [Hub.run, Option.some.injEq] at hr
    subst hr
    simpa using hp
  | cons a rest ih =>
    intro h h' n hi hp hq hr
    simp only [Hub.run] at hr
    split at hr
    · cases hr
    · rename_i h1 hs
      have hi1 := hi.hubStep hs
      have hq' : ∀ a ∈ rest, HubAction.leaves k a = true :=
        fun a ha => hq a (List.mem_cons_of_mem _ ha)
      by_cases ho : HubAction.isPublisher k a = true
      · have hak : a = .publisher k := by
          cases a <;> simp [HubAction.isPublisher] at ho
          rw [ho]
        subst hak
        have := ih h1 h' (n + 1) hi1 (hp.pubOwn hi hs).1 hq' hr
        simp only [List.filter_cons, ho, if_true, List.length_cons]
        rw [show n + ((rest.filter (HubAction.isPublisher k)).length + 1) =
          n + 1 + (rest.filter (HubAction.isPublisher k)).length by omega]
        exact this
      · have ho' : HubAction.isPublisher k a = false := by simpa using ho
        have := ih h1 h' n hi1
          (hp.pubOther hs (hq a (List.mem_cons_self _ _)) ho') hq' hr
        simp only [List.filter_cons, ho', Bool.false_eq_true, if_false]
        exact this

theorem Hub.publishing.pubSteps {T : Type} {h : Hub T} {k n : Nat} {m : T}
    (hp : h.publishing k m n) : n ≤ 3 := by
  obtain ⟨-, p2⟩ := hp
  split at p2
  · omega
  · omega
  · omega
  · omega
  · exact p2.elim

/-- C24.  For every reachable state of a broadcaster on which `Stop` has not been
called, and every message `m`.  A call of `Publish(m)`, interleaved in any way
with the dispatcher, with `Subscribe`, `Unsubscribe` and the consumers (every
step but `Stop` and the other calls of `Publish`), takes at most three steps
and is never blocked, and when its last step returns, the inbox holds `m` and
nothing else, whatever was pending before; run alone it returns within three
steps and changes nothing but the inbox.  With other calls of `Publish` beside
it, a call that returns still leaves its message as the only one in the inbox.
What a step of `Publish` does depends on the inbox alone, not on a subscriber
channel. -/
theorem publish_coalesces {T : Type} (before : List (HubAction T)) (h : Hub T)
    (hr0 : (Hub.new T).run before = some h)
    (hopen : h.broadcaster.messageReceiver.closed = false) (m : T)
    (acts : List (HubAction T)) (h' : Hub T)
    (hq : ∀ a ∈ acts, HubAction.leaves h.publishers.length a = true)
    (hr : h.run (.publish m :: acts) = some h') :
    (acts.filter (HubAction.isPublisher h.publishers.length)).length ≤ 3 ∧
    h'.broadcaster.messageReceiver.closed = false ∧
    (∀ pc, h'.publishers[h.publishers.length]? = some (some pc) →
      h'.broadcaster.panicked = false →
      ∃ h'', h'.step (.publisher h.publishers.length) = some h'') ∧
    (∀ init, acts = init ++ [.publisher h.publishers.length] →
      h'.publishers[h.publishers.length]? = some none →
      h'.broadcaster.messageReceiver.buf = [m]) ∧
    (∃ (n : Nat) (s : Hub T), n ≤ 3 ∧
      h.run (.publish m :: List.replicate n (.publisher h.publishers.length)) = some s ∧
      s.publishers = h.publishers ++ [none] ∧
      s.unsubscribers = h.unsubscribers ∧
      s.broadcaster = { h.broadcaster with messageReceiver := ⟨[m], 1, false⟩ }) ∧
    (∀ (later : List (HubAction T)) (s s' : Hub T) (k : Nat) (pc : PubPc T),
      h.run later = some s → s.publishers[k]? = some (some pc) →
      s.step (.publisher k) = some s' → s'.publishers[k]? = some none →
      s'.broadcaster.panicked = false → s'.broadcaster.messageReceiver.buf = [pc.msg]) ∧
    ∀ (b1 b2 : Broadcaster T) (pc : PubPc T), b1.messageReceiver = b2.messageReceiver →
      (b1.publishStep pc).map (fun r => (r.1.messageReceiver, r.2)) =
        (b2.publishStep pc).map (fun r => (r.1.messageReceiver, r.2)) := by
  have hi := (Hub.Inv.hubNew T).hubRun hr0
  have hpan : h.broadcaster.panicked = false := by
    by_contra hp
    simp [Hub.run, Hub.step, hp] at hr
  have hs1 : h.step (.publish m) =
      some { h with publishers := h.publishers ++ [some (.trySend m)] } := by
    simp [Hub.step, hpan]
  have hi1 := hi.hubStep hs1
  have hp1 : Hub.publishing { h with publishers := h.publishers ++ [some (.trySend m)] }
      h.publishers.length m 0 := by
    refine ⟨hopen, ?_⟩
    simp
  simp only [Hub.run, hs1] at hr
  have hfin := Hub.publishing.pubRun acts _ h' 0 hi1 hp1 hq hr
  have hi' := hi1.hubRun hr
  refine ⟨by simpa using hfin.pubSteps, hfin.1, ?_, ?_, ?_,
    fun later s s' k pc hl hk hs hret hp => (hi.hubRun hl).returned hk hs hret hp,
    Broadcaster.publishStep_inbox⟩
  · intro pc hk hp
    exact hfin.pubEnabled hi' pc hk hp
  · intro init hacts hret
    subst hacts
    rw [Hub.run_concat] at hr
    cases hmid : Hub.run { h with publishers := h.publishers ++ [some (.trySend m)] } init with
    | none => simp [hmid] at hr
    | some hm =>
      simp only [hmid, Option.some_bind, Hub.run] at hr
      split at hr
      · cases hr
      · rename_i h2 hs2
        cases hr
        have hpm := Hub.publishing.pubRun init _ hm 0 hi1 hp1
          (fun a ha => hq a (List.mem_append_left _ ha)) hmid
        exact (hpm.pubOwn (hi1.hubRun hmid) hs2).2 hret
  · obtain ⟨c1, c2⟩ := hi.tidy.inbox
    obtain ⟨b, pubs, unsubs⟩ := h
    obtain ⟨inbox, subscribers, stopped, chans, disp, panicked⟩ := b
    obtain ⟨buf, cap, closed⟩ := inbox
    simp only at c1 c2 hopen hpan
    subst c1 hopen hpan
    rcases buf with _ | ⟨x, _ | ⟨y, rest⟩⟩
    · refine ⟨1, ⟨⟨⟨[m], 1, false⟩, subscribers, stopped, chans, disp, false⟩, pubs ++ [none], unsubs⟩, by omega, ?_, rfl, rfl, rfl⟩
      simp [Hub.run, Hub.step, Broadcaster.publishStep, Chan.hasRoom, Chan.push]
    · refine ⟨3, ⟨⟨⟨[m], 1, false⟩, subscribers, stopped, chans, disp, false⟩, pubs ++ [none], unsubs⟩, by omega, ?_, rfl, rfl, rfl⟩
      simp [Hub.run, Hub.step, Broadcaster.publishStep, Chan.hasRoom, Chan.push, Chan.pop,
        List.replicate]
    · simp at c2

theorem publish_coalesces_witness :
    (Hub.new Nat).run pendingSchedule = some pendingHub ∧
    pendingHub.broadcaster.messageReceiver.buf = [1] ∧
    pendingHub.run [.publish 2, .publisher 1, .publisher 1, .publisher 1] = some evictedHub ∧
    evictedHub.publishers[1]? = some none ∧
    (([.publisher 1, .publisher 1, .publisher 1] : List (HubAction Nat)).filter
      (HubAction.isPublisher pendingHub.publishers.length)).length ≤ 3 ∧
    evictedHub.broadcaster.messageReceiver.buf = [2] :=
  have h := publish_coalesces pendingSchedule pendingHub (by decide) (by decide) 2
    [.publisher 1, .publisher 1, .publisher 1] evictedHub (by decide) (by decide)
  ⟨by decide, by decide, by decide, by decide, h.1,
   h.2.2.2.1 [.publisher 1, .publisher 1] rfl (by decide)⟩

/-- C26 does not hold as stated.  The first of two subscribers is unsubscribed;
then `Publish(100)` and `Publish(101)` return before the dispatcher runs.  The
second call evicts 100 from the inbox, and the round of the dispatcher sends
101 alone to the second subscriber, which stays registered: 100 is in no
channel and in no goroutine, and is never received. -/
theorem published_message_is_dropped :
    (Hub.new Nat).exec coalescedSchedule = some coalescedHub ∧
    coalescedHub.broadcaster.subscribers = [1] ∧
    coalescedHub.broadcaster.chans = [⟨[], 1, true⟩, ⟨[101], 1, false⟩] ∧
    coalescedHub.broadcaster.messageReceiver.buf = [] ∧
    coalescedHub.broadcaster.disp = .recv ∧
    coalescedHub.publishers = [none, none] := by
  decide

/-- C26, amended.  For every reachable state that has not stopped or panicked,
with the mutex free, and every channel `a` of the subscriber set that the
dispatcher does not hold in the snapshot of a round.  `Unsubscribe(a)`, run
with no other goroutine in between, removes `a` from the subscriber set and
closes it, and leaves every other subscriber registered with its channel as it
is.  In every later state `a` is outside the subscriber set and not held by
the dispatcher, and its channel is closed and has only lost what a consumer
received: no message is sent on it.  Every round of the dispatcher that starts
idle with a message pending leaves that message in the channel of every
subscriber registered then, and the channel of `a` as it is. -/
theorem unsubscribe_removes {T : Type} (acts : List (HubAction T)) (h : Hub T)
    (hr : (Hub.new T).run acts = some h) (a : Nat) (ha : a ∈ h.broadcaster.subscribers)
    (hst : h.broadcaster.stopped = false) (hmu : h.broadcaster.muHeld = false)
    (hpan : h.broadcaster.panicked = false) (hidle : ¬ h.broadcaster.disp.holds a) :
    ∃ (c : Chan T) (h2 : Hub T),
      h.broadcaster.chans[a]? = some c ∧ c.closed = false ∧
      h.run [.unsubscribe a, .close h.unsubscribers.length] = some h2 ∧
      h2.broadcaster.subscribers = h.broadcaster.subscribers.erase a ∧
      a ∉ h2.broadcaster.subscribers ∧
      h2.broadcaster.chans = h.broadcaster.chans.set a c.close ∧
      (∀ i ∈ h.broadcaster.subscribers, i ≠ a →
        i ∈ h2.broadcaster.subscribers ∧ h2.broadcaster.chans[i]? = h.broadcaster.chans[i]?) ∧
      (∀ (later : List (HubAction T)) (h' : Hub T), h2.run later = some h' →
        a ∉ h'.broadcaster.subscribers ∧ ¬ h'.broadcaster.disp.holds a ∧
        ∃ n, h'.broadcaster.chans[a]? = some ⟨c.buf.drop n, c.cap, true⟩) ∧
      (∀ (later : List (HubAction T)) (h' : Hub T) (m : T), h2.run later = some h' →
        h'.broadcaster.disp = .recv → h'.broadcaster.messageReceiver.buf = [m] →
        ∀ (picks : List Nat) (b' : Broadcaster T), picks ≠ [] →
          h'.broadcaster.dispRun picks = some b' → b'.disp = .recv →
          (∀ i ∈ h'.broadcaster.subscribers, b'.chans[i]? = some ⟨[m], 1, false⟩) ∧
          b'.chans[a]? = h'.broadcaster.chans[a]?) := by
  have hi := (Hub.Inv.hubNew T).hubRun hr
  have hlt := hi.tidy.subs_lt a ha
  have hc : h.broadcaster.chans[a]? = some h.broadcaster.chans[a] := List.getElem?_eq_getElem hlt
  have hopen : h.broadcaster.chans[a].closed = false := by
    have := hi.tidy.subs_closed a ha _ hc
    have hnc : ¬ h.broadcaster.disp.closedAt a := by
      cases hd : h.broadcaster.disp with
      | closing pending => simp [Broadcaster.muHeld, hd] at hmu
      | exited => rw [hi.tidy.stopped_iff.mpr hd] at hst; cases hst
      | _ => simp [DispPc.closedAt]
    simpa [hnc] using this
  have hrun : h.run [.unsubscribe a, .close h.unsubscribers.length] =
      some ⟨{ h.broadcaster with subscribers := h.broadcaster.subscribers.erase a,
                                 chans := h.broadcaster.chans.set a h.broadcaster.chans[a].close },
            h.publishers, h.unsubscribers ++ [⟨a, false⟩]⟩ := by
    simp [Hub.run, Hub.step, hpan, hlt, Broadcaster.Unsubscribe, hmu, hst,
      Broadcaster.closeSender, hopen, Broadcaster.setChan]
  have hnot : a ∉ h.broadcaster.subscribers.erase a :=
    fun hm => ((List.Nodup.mem_erase_iff hi.tidy.subs_nodup).mp hm).1 rfl
  have hi2 := hi.hubRun hrun
  have hg : Hub.gone (⟨{ h.broadcaster with
      subscribers := h.broadcaster.subscribers.erase a,
      chans := h.broadcaster.chans.set a h.broadcaster.chans[a].close },
      h.publishers, h.unsubscribers ++ [⟨a, false⟩]⟩ : Hub T) a :=
    ⟨hnot, hidle, _, List.getElem?_set_self hlt, rfl⟩
  refine ⟨_, _, hc, hopen, hrun, rfl, hnot, rfl, ?_, ?_, ?_⟩
  · intro i hmem hne
    exact ⟨(List.mem_erase_of_ne hne).mpr hmem, List.getElem?_set_ne (fun e => hne e.symm)⟩
  · intro later h' hr'
    obtain ⟨g, n, hn⟩ := Hub.gone.goneRun later _ h' _ hg (List.getElem?_set_self hlt) hr'
    exact ⟨g.1, g.2.1, n, hn⟩
  · intro later h' m hr' hd hin picks b' hne hdr hrecv
    obtain ⟨g, -, -⟩ := Hub.gone.goneRun later _ h' _ hg (List.getElem?_set_self hlt) hr'
    obtain ⟨r1, r2, -, -, -⟩ := ((hi2.hubRun hr').round m hd hin).2 picks b' hne hdr hrecv
    exact ⟨r1, r2 a g.1⟩

theorem unsubscribe_removes_witness :
    (Hub.new Nat).run pairSchedule = some pairHub ∧
    pairHub.run [.unsubscribe 0, .close 0] = some unsubscribedHub ∧
    unsubscribedHub.run [.publish 2, .publisher 1] = some republishedHub ∧
    republishedHub.broadcaster.dispRun [0, 0, 1, 0, 0, 0] = some redelivered ∧
    redelivered.chans = [⟨[1], 1, true⟩, ⟨[2], 1, false⟩] ∧
    ∃ (c : Chan Nat) (h2 : Hub Nat),
      pairHub.broadcaster.chans[0]? = some c ∧ c.closed = false ∧
      pairHub.run [.unsubscribe 0, .close pairHub.unsubscribers.length] = some h2 ∧
      h2.broadcaster.subscribers = pairHub.broadcaster.subscribers.erase 0 ∧
      0 ∉ h2.broadcaster.subscribers ∧
      h2.broadcaster.chans = pairHub.broadcaster.chans.set 0 c.close ∧
      (∀ i ∈ pairHub.broadcaster.subscribers, i ≠ 0 →
        i ∈ h2.broadcaster.subscribers ∧
          h2.broadcaster.chans[i]? = pairHub.broadcaster.chans[i]?) ∧
      (∀ (later : List (HubAction Nat)) (h' : Hub Nat), h2.run later = some h' →
        0 ∉ h'.broadcaster.subscribers ∧ ¬ h'.broadcaster.disp.holds 0 ∧
        ∃ n, h'.broadcaster.chans[0]? = some ⟨c.buf.drop n, c.cap, true⟩) ∧
      (∀ (later : List (HubAction Nat)) (h' : Hub Nat) (m : Nat), h2.run later = some h' →
        h'.broadcaster.disp = .recv → h'.broadcaster.messageReceiver.buf = [m] →
        ∀ (picks : List Nat) (b' : Broadcaster Nat), picks ≠ [] →
          h'.broadcaster.dispRun picks = some b' → b'.disp = .recv →
          (∀ i ∈ h'.broadcaster.subscribers, b'.chans[i]? = some ⟨[m], 1, false⟩) ∧
          b'.chans[0]? = h'.broadcaster.chans[0]?) :=
  ⟨by decide, by decide, by decide, by decide, by decide,
   unsubscribe_removes pairSchedule pairHub (by decide) 0 (by decide) (by decide) (by decide)
     (by decide) (by simp [pairHub, DispPc.holds])⟩

/-- C30, at the failing input.  Within the usage that the claim names: a
subscriber is registered, a message is published, and the dispatcher takes it
and copies the subscriber set; then `Unsubscribe` removes the channel from the
set and closes it.  The dispatcher stands at its send on that channel, which
is closed, and nothing has panicked yet; its next step is the send on the
closed channel, a panic. -/
theorem dispatcher_sends_on_closed_channel :
    (Hub.new Nat).exec unsubscribeRace = some raceHub ∧
    raceHub.broadcaster.disp = .sending 1 [0] ∧
    raceHub.broadcaster.chans = [⟨[], 1, true⟩] ∧
    raceHub.broadcaster.panicked = false ∧
    raceHub.allowed (.dispatch 0) = true ∧
    raceHub.step (.dispatch 0) =
      some { raceHub with broadcaster := { raceHub.broadcaster with panicked := true } } := by
  decide

theorem nodup_getElem?_inj {α : Type} {l : List α} (h : l.Nodup) {i j : Nat} {a : α}
    (hi : l[i]? = some a) (hj : l[j]? = some a) : i = j := by
  have hil : i < l.length := (List.getElem?_eq_some_iff.mp hi).1
  have hjl : j < l.length := (List.getElem?_eq_some_iff.mp hj).1
  rcases lt_trichotomy i j with hlt | rfl | hlt
  · exact absurd (hi.trans hj.symm) (List.nodup_iff_getElem?_ne_getElem?.mp h i j hlt hjl)
  · rfl
  · exact absurd (hj.trans hi.symm) (List.nodup_iff_getElem?_ne_getElem?.mp h j i hlt hil)

theorem Hub.Careful.carefulNew (T : Type) : (Hub.new T).Careful where
  inv := Hub.Inv.hubNew T
  closing_sub := by intro p hp; simp [Hub.new, RunNewBroadcaster] at hp
  frame_open := by intro j u hu; simp [Hub.new] at hu
  frame_inj := by simp [Hub.new]
  covered := by intro i hi; simp [Hub.new, RunNewBroadcaster] at hi
  pub_idle := by intro _ pc hpc; simp [Hub.new] at hpc

/-- What a step of the dispatcher does besides a panic: the closed flag of a
channel changes only when the closing loop closes it. -/
theorem Broadcaster.dispStep_closed {T : Type} {b b' : Broadcaster T} {pick i : Nat}
    {c : Chan T} (h : b.dispStep pick = some b') (hc : b.chans[i]? = some c) :
    ∃ c', b'.chans[i]? = some c' ∧
      (c'.closed = c.closed ∨ ∃ pending, b.disp = .closing pending ∧ pick ∈ pending ∧ i = pick) := by
  have hlt : i < b.chans.length := (List.getElem?_eq_some_iff.mp hc).1
  have keep : ∀ (n : Nat) (c1 c2 : Chan T), b.chans[n]? = some c1 → c2.closed = c1.closed →
      ∃ c', (b.setChan n c2).chans[i]? = some c' ∧ c'.closed = c.closed := by
    intro n c1 c2 hn h12
    have hn' : n < b.chans.length := (List.getElem?_eq_some_iff.mp hn).1
    rw [Broadcaster.getElem?_setChan b n i c2 hn']
    split
    · rename_i e
      subst e
      rw [hc] at hn
      cases hn
      exact ⟨c2, rfl, h12⟩
    · exact ⟨c, hc, rfl⟩
  unfold Broadcaster.dispStep at h
  split at h
  · split at h
    · cases h; exact ⟨c, hc, Or.inl rfl⟩
    · split at h
      · cases h; exact ⟨c, hc, Or.inl rfl⟩
      · cases h
  · cases h; exact ⟨c, hc, Or.inl rfl⟩
  · split at h
    · cases h; exact ⟨c, hc, Or.inl rfl⟩
    · split at h
      · split at h
        · cases h
        · rename_i c1 hc1
          split at h
          · cases h; exact ⟨c, hc, Or.inl rfl⟩
          · split at h
            · cases h
              obtain ⟨c', h1, h2⟩ := keep pick c1 (c1.push _) hc1 rfl
              exact ⟨c', h1, Or.inl h2⟩
            · cases h; exact ⟨c, hc, Or.inl rfl⟩
      · cases h
  · split at h
    · cases h
    · rename_i c1 hc1
      cases h
      obtain ⟨c', h1, h2⟩ := keep _ c1 c1.pop hc1 rfl
      exact ⟨c', h1, Or.inl h2⟩
  · split at h
    · cases h
    · rename_i c1 hc1
      split at h
      · cases h; exact ⟨c, hc, Or.inl rfl⟩
      · split at h
        · cases h
          obtain ⟨c', h1, h2⟩ := keep _ c1 (c1.push _) hc1 rfl
          exact ⟨c', h1, Or.inl h2⟩
        · cases h
  · cases h; exact ⟨c, hc, Or.inl rfl⟩
  · rename_i pending hd
    split at h
    · cases h; exact ⟨c, hc, Or.inl rfl⟩
    · split at h
      · rename_i hpick
        split at h
        · cases h
        · rename_i c1 hc1
          have hn' : pick < b.chans.length := (List.getElem?_eq_some_iff.mp hc1).1
          split at h
          · cases h; exact ⟨c, hc, Or.inl rfl⟩
          · cases h
            simp only
            rw [Broadcaster.getElem?_setChan b pick i _ hn']
            split
            · rename_i e
              exact ⟨_, rfl, Or.inr ⟨_, hd, hpick, e⟩⟩
            · exact ⟨c, hc, Or.inl rfl⟩
      · cases h
  · cases h

/-- When a step of the dispatcher panics, it is a send or the close of a closed
channel of the closing loop. -/
theorem Broadcaster.dispStep_panic {T : Type} {b b' : Broadcaster T} {pick : Nat}
    (h : b.dispStep pick = some b') (h0 : b.panicked = false) (h1 : b'.panicked = true) :
    (∃ msg pending, b.disp = .sending msg pending) ∨
    (∃ msg cur pending, b.disp = .resend msg cur pending) ∨
    ∃ pending c, b.disp = .closing pending ∧ pick ∈ pending ∧ b.chans[pick]? = some c ∧
      c.closed = true := by
  unfold Broadcaster.dispStep at h
  split at h
  · split at h
    · cases h; simp [h0] at h1
    · split at h
      · cases h; simp [h0] at h1
      · cases h
  · cases h; simp [h0] at h1
  · rename_i msg pending hd
    exact Or.inl ⟨msg, pending, hd⟩
  · split at h
    · cases h
    · cases h; simp [Broadcaster.setChan, h0] at h1
  · rename_i msg cur pending hd
    exact Or.inr (Or.inl ⟨msg, cur, pending, hd⟩)
  · cases h; simp [h0] at h1
  · rename_i pending hd
    split at h
    · cases h; simp [h0] at h1
    · split at h
      · rename_i hpick
        split at h
        · cases h
        · rename_i c hc
          split at h
          · rename_i hcl
            exact Or.inr (Or.inr ⟨_, c, hd, hpick, hc, hcl⟩)
          · cases h; simp [Broadcaster.setChan, h0] at h1
      · cases h
  · cases h

theorem Broadcaster.dispStep_closing {T : Type} {b b' : Broadcaster T} {pick : Nat}
    {p' : List Nat} (h : b.dispStep pick = some b') (hd : b'.disp = .closing p') :
    (b.disp = .stopping ∧ p' = b.subscribers) ∨
    ∃ pending, b.disp = .closing pending ∧ p' ⊆ pending := by
  unfold Broadcaster.dispStep at h
  split at h
  · split at h
    · cases h; cases hd
    · split at h
      · cases h; cases hd
      · cases h
  · cases h; cases hd
  · rename_i hd0
    split at h
    · cases h; cases hd
    · split at h
      · split at h
        · cases h
        · split at h
          · cases h; rw [hd0] at hd; cases hd
          · split at h
            · cases h; cases hd
            · cases h; cases hd
      · cases h
  · split at h
    · cases h
    · cases h; cases hd
  · rename_i hd0
    split at h
    · cases h
    · split at h
      · cases h; rw [hd0] at hd; cases hd
      · split at h
        · cases h; cases hd
        · cases h
  · rename_i hd0
    cases h
    simp only [DispPc.closing.injEq] at hd
    exact Or.inl ⟨hd0, hd.symm⟩
  · rename_i pending hd0
    split at h
    · cases h; cases hd
    · split at h
      · split at h
        · cases h
        · split at h
          · cases h
            rw [hd0] at hd
            simp only [DispPc.closing.injEq] at hd
            subst hd
            exact Or.inr ⟨_, hd0, fun _ hx => hx⟩
          · cases h
            simp only [Broadcaster.setChan, DispPc.closing.injEq] at hd
            subst hd
            exact Or.inr ⟨_, hd0, fun _ hx => List.mem_of_mem_erase hx⟩
      · cases h
  · cases h

theorem Hub.Careful.carefulStep {T : Type} {h h' : Hub T} {a : HubAction T} (hc : h.Careful)
    (ha : h.allowed a = true) (hs : h.step a = some h') : h'.Careful := by
  have hi' := hc.inv.hubStep hs
  obtain ⟨hi, c1, c2, c3, c4, c5⟩ := hc
  unfold Hub.step at hs
  split at hs
  · cases hs
  · cases a with
    | subscribe =>
      simp only at hs
      split at hs
      · cases hs
      · rename_i b r hsub
        cases hs
        rcases Broadcaster.Subscribe_cases hsub with ⟨-, rfl, -⟩ | ⟨-, -, rfl⟩
        · exact ⟨hi, c1, c2, c3, c4, c5⟩
        · refine ⟨hi', ?_, ?_, c3, ?_, c5⟩
          · intro pending hp
            exact fun x hx => List.mem_append_left _ (c1 pending hp hx)
          · intro j u hj hcl
            obtain ⟨c, hcc, hco⟩ := c2 j u hj hcl
            have hlt : u.subscriberSender < h.broadcaster.chans.length :=
              (List.getElem?_eq_some_iff.mp hcc).1
            refine ⟨c, ?_, hco⟩
            simp only [Broadcaster.register]
            rw [List.getElem?_append_left hlt]
            exact hcc
          · intro i hlt
            simp only [Broadcaster.register, List.length_append, List.length_singleton,
              List.mem_append, List.mem_singleton] at hlt ⊢
            by_cases hl : i < h.broadcaster.chans.length
            · rcases c4 i hl with h1 | h1
              · exact Or.inl (Or.inl h1)
              · exact Or.inr h1
            · exact Or.inl (Or.inr (by omega))
    | unsubscribe ch =>
      simp only [Hub.allowed, List.all_eq_true, decide_eq_true_eq] at ha
      simp only at hs
      split at hs
      · rename_i hlt
        split at hs
        · cases hs
        · rename_i b st hun
          cases hs
          unfold Broadcaster.Unsubscribe at hun
          split at hun
          · cases hun
          · rename_i hmu
            cases hun
            have hfresh : ch ∉ h.unsubscribers.map fun u => u.subscriberSender := by
              intro hm
              obtain ⟨u, hu, e⟩ := List.mem_map.mp hm
              exact ha u hu e
            refine ⟨hi', ?_, ?_, ?_, ?_, c5⟩
            · intro pending hp
              simp only at hp
              simp [Broadcaster.muHeld, hp] at hmu
            · intro j u hj hcl
              simp only at hj ⊢
              rcases getElem?_snoc_cases hj with hj | ⟨-, rfl⟩
              · exact c2 j u hj.2 hcl
              · simp only [Bool.not_eq_true', Bool.not_eq_eq_eq_not, Bool.not_true] at hcl
                have hmem : ch ∈ h.broadcaster.subscribers := by
                  rcases c4 ch hlt with h1 | h1
                  · exact h1
                  · exact absurd h1 hfresh
                have hcc : h.broadcaster.chans[ch]? = some h.broadcaster.chans[ch] :=
                  List.getElem?_eq_getElem hlt
                refine ⟨_, hcc, ?_⟩
                have := hi.tidy.subs_closed ch hmem _ hcc
                have hnc : ¬ h.broadcaster.disp.closedAt ch := by
                  cases hd : h.broadcaster.disp with
                  | closing pending => simp [Broadcaster.muHeld, hd] at hmu
                  | exited => rw [hi.tidy.stopped_iff.mpr hd] at hcl; cases hcl
                  | _ => simp [DispPc.closedAt]
                simpa [hnc] using this
            · simp only [List.map_append, List.map_cons, List.map_nil]
              refine List.Nodup.append c3 (List.nodup_singleton _) ?_
              intro x hx hx'
              simp only [List.mem_singleton] at hx'
              subst hx'
              exact hfresh hx
            · intro i hl
              simp only [List.map_append, List.map_cons, List.map_nil, List.mem_append,
                List.mem_singleton] at hl ⊢
              rcases c4 i hl with h1 | h1
              · by_cases e : i = ch
                · exact Or.inr (Or.inr e)
                · exact Or.inl ((List.mem_erase_of_ne e).mpr h1)
              · exact Or.inr (Or.inl h1)
      · cases hs
    | close k =>
      simp only at hs
      split at hs
      · cases hs
      · rename_i u hk
        have hkl : k < h.unsubscribers.length := (List.getElem?_eq_some_iff.mp hk).1
        split at hs
        · rename_i hucl
          obtain ⟨c, hcc, hco⟩ := c2 k u hk hucl
          have hlt : u.subscriberSender < h.broadcaster.chans.length :=
            (List.getElem?_eq_some_iff.mp hcc).1
          simp only [Broadcaster.closeSender, hcc, hco, Bool.false_eq_true, if_false,
            Option.some.injEq] at hs
          subst hs
          have hmap : (h.unsubscribers.set k { u with closing := false }).map
              (fun u => u.subscriberSender) = h.unsubscribers.map fun u => u.subscriberSender := by
            rw [List.map_set]
            apply List.ext_getElem?
            intro n
            rw [List.getElem?_set]
            split
            · rename_i e
              subst e
              have hu : h.unsubscribers[k] = u := (List.getElem?_eq_some_iff.mp hk).2
              simp [hkl, hu]
            · rfl
          refine ⟨hi', c1, ?_, by rw [hmap]; exact c3, ?_, c5⟩
          · intro j v hj hvcl
            simp only at hj ⊢
            by_cases hne : k = j
            · subst hne
              rw [List.getElem?_set_self hkl] at hj
              cases hj
              simp at hvcl
            · rw [List.getElem?_set_ne hne] at hj
              obtain ⟨c', hc', hco'⟩ := c2 j v hj hvcl
              have hdiff : v.subscriberSender ≠ u.subscriberSender := by
                intro e
                have h1 : (h.unsubscribers.map fun u => u.subscriberSender)[j]? =
                    some u.subscriberSender := by simp [hj, e]
                have h2 : (h.unsubscribers.map fun u => u.subscriberSender)[k]? =
                    some u.subscriberSender := by simp [hk]
                exact hne (nodup_getElem?_inj c3 h2 h1)
              refine ⟨c', ?_, hco'⟩
              rw [Broadcaster.getElem?_setChan _ _ _ _ hlt, if_neg hdiff]
              exact hc'
          · intro i hl
            simp only [Broadcaster.setChan, List.length_set] at hl ⊢
            rw [hmap]
            exact c4 i hl
        · cases hs
    | publish msg =>
      simp only [Hub.allowed, Bool.not_eq_true', Bool.not_eq_eq_eq_not, Bool.not_true] at ha
      simp only [Option.some.injEq] at hs
      subst hs
      refine ⟨hi', c1, c2, c3, c4, ?_⟩
      intro hcl
      simp only at hcl
      rw [ha] at hcl
      cases hcl
    | publisher k =>
      simp only at hs
      split at hs
      · rename_i pc hk
        split at hs
        · cases hs
        · rename_i b pc' hp
          cases hs
          obtain ⟨f1, f2, f3, f4, -⟩ := Broadcaster.publishStep_frame hp
          refine ⟨hi', ?_, ?_, c3, ?_, ?_⟩
          · intro pending hpd
            simp only at hpd ⊢
            rw [f2]
            exact c1 pending (f4 ▸ hpd)
          · intro j u hj hcl
            simp only at hj ⊢
            rw [f3]
            exact c2 j u hj hcl
          · intro i hl
            simp only at hl ⊢
            rw [f2]
            rw [f3] at hl
            exact c4 i hl
          · intro hcl pc0 hpc0
            simp only at hcl
            rw [f1] at hcl
            have := c5 hcl (some pc) (List.getElem?_mem hk)
            cases this
      · cases hs
    | stop =>
      simp only [Hub.allowed, Bool.and_eq_true, Bool.not_eq_true', Bool.not_eq_eq_eq_not,
        Bool.not_true, List.all_eq_true, Option.isNone_iff_eq_none] at ha
      simp only [Option.some.injEq] at hs
      subst hs
      obtain ⟨-, f2, f3, f4, -, -⟩ := Broadcaster.Stop_frame h.broadcaster
      refine ⟨hi', ?_, ?_, c3, ?_, ?_⟩
      · intro pending hpd
        simp only at hpd ⊢
        rw [f2]
        exact c1 pending (f4 ▸ hpd)
      · intro j u hj hcl
        simp only at hj ⊢
        rw [f3]
        exact c2 j u hj hcl
      · intro i hl
        simp only at hl ⊢
        rw [f2]
        rw [f3] at hl
        exact c4 i hl
      · intro _ pc hpc
        exact ha.2 pc hpc
    | dispatch pick =>
      simp only at hs
      split at hs
      · cases hs
      · rename_i b hd
        cases hs
        obtain ⟨f1, f2, f3, -⟩ := Broadcaster.dispStep_frame hd
        refine ⟨hi', ?_, ?_, c3, ?_, ?_⟩
        · intro p' hp'
          simp only at hp' ⊢
          rw [f2]
          rcases Broadcaster.dispStep_closing hd hp' with ⟨-, e⟩ | ⟨pending, e1, e2⟩
          · rw [e]
            exact fun _ hx => hx
          · exact fun x hx => c1 pending e1 (e2 hx)
        · intro j u hj hcl
          simp only at hj ⊢
          obtain ⟨c, hcc, hco⟩ := c2 j u hj hcl
          obtain ⟨c', hc', hor⟩ := Broadcaster.dispStep_closed hd hcc
          refine ⟨c', hc', ?_⟩
          rcases hor with e | ⟨pending, e1, e2, e3⟩
          · rw [e]; exact hco
          · exfalso
            have hin := c1 pending e1 e2
            rw [← e3] at hin
            exact (hi.unsub u (List.getElem?_mem hj)).2 hin
        · intro i hl
          simp only at hl ⊢
          rw [f2]
          rw [f3] at hl
          exact c4 i hl
        · intro hcl
          simp only at hcl ⊢
          rw [f1] at hcl
          exact c5 hcl
    | receive ch =>
      simp only at hs
      split at hs
      · cases hs
      · rename_i c hcc
        have hlt : ch < h.broadcaster.chans.length := (List.getElem?_eq_some_iff.mp hcc).1
        split at hs
        · cases hs
        · cases hs
          refine ⟨hi', c1, ?_, c3, ?_, c5⟩
          · intro j u hj hcl
            simp only at hj ⊢
            obtain ⟨c0, hc0, hco⟩ := c2 j u hj hcl
            rw [Broadcaster.getElem?_setChan _ _ _ _ hlt]
            split
            · rename_i e
              rw [e, hcc] at hc0
              cases hc0
              exact ⟨_, rfl, by simpa [Chan.pop] using hco⟩
            · exact ⟨c0, hc0, hco⟩
          · intro i hl
            simp only [Broadcaster.setChan, List.length_set] at hl ⊢
            exact c4 i hl

theorem Hub.Careful.carefulExec {T : Type} {acts : List (HubAction T)} {h h' : Hub T}
    (hc : h.Careful) (hr : h.exec acts = some h') : h'.Careful := by
  induction acts generalizing h with
  | nil => simp only [Hub.exec, Option.some.injEq] at hr; subst hr; exact hc
  | cons a rest ih =>
    simp only [Hub.exec] at hr
    split at hr
    · rename_i ha
      split at hr
      · cases hr
      · rename_i h1 hs
        exact ih (hc.carefulStep ha hs) hr
    · cases hr

/-- Under `Hub.allowed` the callers never panic and the closing loop never
closes a closed channel: when a step panics, it is a send of the dispatcher on
a subscriber channel. -/
theorem Hub.panic_is_send {T : Type} (acts : List (HubAction T)) (h h' : Hub T)
    (a : HubAction T) (hr : (Hub.new T).exec acts = some h) (ha : h.allowed a = true)
    (hs : h.step a = some h') (hp : h'.broadcaster.panicked = true) :
    ∃ pick, a = .dispatch pick ∧
      ((∃ msg pending, h.broadcaster.disp = .sending msg pending) ∨
        ∃ msg cur pending, h.broadcaster.disp = .resend msg cur pending) := by
  have hc := (Hub.Careful.carefulNew T).carefulExec hr
  obtain ⟨hi, c1, c2, c3, c4, c5⟩ := hc
  unfold Hub.step at hs
  split at hs
  · cases hs
  · rename_i hp0
    have hp0' : h.broadcaster.panicked = false := by simpa using hp0
    cases a with
    | subscribe =>
      simp only at hs
      split at hs
      · cases hs
      · rename_i b r hsub
        cases hs
        rcases Broadcaster.Subscribe_cases hsub with ⟨-, rfl, -⟩ | ⟨-, -, rfl⟩
        · simp [hp0'] at hp
        · simp [Broadcaster.register, hp0'] at hp
    | unsubscribe ch =>
      simp only at hs
      split at hs
      · split at hs
        · cases hs
        · rename_i b st hun
          cases hs
          unfold Broadcaster.Unsubscribe at hun
          split at hun
          · cases hun
          · cases hun
            simp [hp0'] at hp
      · cases hs
    | close k =>
      simp only at hs
      split at hs
      · cases hs
      · rename_i u hk
        split at hs
        · rename_i hucl
          obtain ⟨c, hcc, hco⟩ := c2 k u hk hucl
          simp only [Broadcaster.closeSender, hcc, hco, Bool.false_eq_true, if_false,
            Option.some.injEq] at hs
          subst hs
          simp [Broadcaster.setChan, hp0'] at hp
        · cases hs
    | publish msg =>
      simp only [Option.some.injEq] at hs
      subst hs
      simp [hp0'] at hp
    | publisher k =>
      simp only at hs
      split at hs
      · rename_i pc hk
        have hopen : h.broadcaster.messageReceiver.closed = false := by
          by_contra hcl
          have := c5 (by simpa using hcl) (some pc) (List.getElem?_mem hk)
          cases this
        split at hs
        · cases hs
        · rename_i b pc' hstep
          cases hs
          simp only at hp
          unfold Broadcaster.publishStep at hstep
          cases pc <;> simp only [hopen, Bool.false_eq_true, if_false] at hstep
          · split at hstep <;> simp only [Option.some.injEq, Prod.mk.injEq] at hstep <;>
              (obtain ⟨rfl, -⟩ := hstep; simp [hp0'] at hp)
          · simp only [Option.some.injEq, Prod.mk.injEq] at hstep
            obtain ⟨rfl, -⟩ := hstep
            simp [hp0'] at hp
          · split at hstep
            · simp only [Option.some.injEq, Prod.mk.injEq] at hstep
              obtain ⟨rfl, -⟩ := hstep
              simp [hp0'] at hp
            · cases hstep
      · cases hs
    | stop =>
      simp only [Hub.allowed, Bool.and_eq_true, Bool.not_eq_true', Bool.not_eq_eq_eq_not,
        Bool.not_true] at ha
      simp only [Option.some.injEq] at hs
      subst hs
      simp [Broadcaster.Stop, ha.1, hp0'] at hp
    | dispatch pick =>
      simp only at hs
      split at hs
      · cases hs
      · rename_i b hd
        cases hs
        refine ⟨pick, rfl, ?_⟩
        rcases Broadcaster.dispStep_panic hd hp0' hp with e | e | ⟨pending, c, e1, e2, e3, e4⟩
        · exact Or.inl e
        · exact Or.inr e
        · exfalso
          have hmem := c1 pending e1 e2
          have := (hi.tidy.subs_closed pick hmem c e3).mp e4
          simp only [e1, DispPc.closedAt] at this
          exact this e2
    | receive ch =>
      simp only at hs
      split at hs
      · cases hs
      · split at hs
        · cases hs
        · cases hs
          simp [Broadcaster.setChan, hp0'] at hp

/-! ## Append called from several goroutines -/

theorem SharedStore.view_same {s s' : SharedStore}
    (h1 : s'.heap = s.heap) (h3 : s'.appenders = s.appenders) :
    s'.view = { s.view with broadcaster := s'.broadcaster, subs := s'.subs } := by
  obtain ⟨heap, tail, b, apps, subs⟩ := s
  obtain ⟨heap', tail', b', apps', subs'⟩ := s'
  simp only at h1 h3
  subst h1 h3
  rfl

end output_storage

/-! # Theorems: Go strings -/

namespace unicode

/-- Go `unicode.IsSpace` by code point: the Latin-1 spaces and the characters
with the property White_Space. -/
theorem IsSpace_iff (c : Char) :
    IsSpace c = true ↔
      c.toNat ∈ [9, 10, 11, 12, 13, 32, 0x85, 0xA0, 0x1680, 0x2000, 0x2001, 0x2002, 0x2003,
        0x2004, 0x2005, 0x2006, 0x2007, 0x2008, 0x2009, 0x200A, 0x2028, 0x2029, 0x202F, 0x205F,
        0x3000] := by
  simp only [IsSpace, decide_eq_true_eq, List.mem_cons, List.mem_singleton, List.not_mem_nil,
    or_false]
  omega

end unicode

namespace strings

theorem len_append (a b : String) : len (a ++ b) = len a + len b := by
  obtain ⟨as⟩ := a
  obtain ⟨bs⟩ := b
  show String.utf8ByteSize ⟨as ++ bs⟩ = _
  simp [len, String.utf8ByteSize_mk, String.utf8Len_append]

theorem len_Repeat_one (c : Char) (h : c.utf8Size = 1) (n : Nat) :
    len (Repeat ⟨[c]⟩ n) = n := by
  induction n with
  | zero => rfl
  | succ n ih =>
    simp only [len, Repeat, String.utf8ByteSize_mk] at ih ⊢
    rw [List.replicate_succ, List.flatten_cons, String.utf8Len_append, ih]
    simp [h]
    omega

theorem TrimPrefix_plus (f c : String) :
    TrimPrefix f "+" = c ↔ f = "+" ++ c ∨ (f = c ∧ f.data.head? ≠ some '+') := by
  obtain ⟨fs⟩ := f
  obtain ⟨cs⟩ := c
  have e : ("+" : String).data = ['+'] := rfl
  have e2 : ("+" ++ (⟨cs⟩ : String) : String) = ⟨'+' :: cs⟩ := rfl
  unfold TrimPrefix
  rw [e, e2]
  cases fs with
  | nil => simp [List.isPrefixOf, String.ext_iff]
  | cons a rest =>
    by_cases ha : a = '+'
    · subst ha
      simp [List.isPrefixOf, String.ext_iff]
    · have hb : ('+' == a) = false := by
        simp only [beq_eq_false_iff_ne, ne_eq]
        exact fun h => ha h.symm
      simp [List.isPrefixOf, String.ext_iff, ha, hb]

theorem data_Repeat_one (c : Char) (n : Nat) : (Repeat ⟨[c]⟩ n).data = List.replicate n c := by
  induction n with
  | zero => rfl
  | succ n ih =>
    simp only [Repeat] at ih ⊢
    rw [List.replicate_succ, List.flatten_cons, ih]
    rfl

/-- Go `strings.TrimSpace` removes white space at both ends and nothing else:
the string is a run of white space, the result, and a run of white space, and
the result neither starts nor ends with white space. -/
theorem TrimSpace_trims (s : String) :
    ∃ pre post : List Char, s.data = pre ++ (TrimSpace s).data ++ post ∧
      (∀ c ∈ pre, unicode.IsSpace c = true) ∧ (∀ c ∈ post, unicode.IsSpace c = true) ∧
      (∀ c, (TrimSpace s).data.head? = some c → unicode.IsSpace c = false) ∧
      (∀ c, (TrimSpace s).data.getLast? = some c → unicode.IsSpace c = false) := by
  obtain ⟨cs⟩ := s
  simp only [TrimSpace]
  set mid := cs.dropWhile unicode.IsSpace with hmid
  refine ⟨cs.takeWhile unicode.IsSpace,
    (mid.reverse.takeWhile unicode.IsSpace).reverse, ?_, ?_, ?_, ?_, ?_⟩
  · have h1 := List.takeWhile_append_dropWhile unicode.IsSpace cs
    have h2 := List.takeWhile_append_dropWhile unicode.IsSpace mid.reverse
    have h3 : mid = (mid.reverse.dropWhile unicode.IsSpace).reverse ++
        (mid.reverse.takeWhile unicode.IsSpace).reverse := by
      rw [← List.reverse_append, h2, List.reverse_reverse]
    rw [List.append_assoc, ← h3, h1]
  · intro c hc
    exact List.mem_takeWhile_imp hc
  · intro c hc
    exact List.mem_takeWhile_imp (List.mem_reverse.mp hc)
  · intro c hc
    have h2 := List.takeWhile_append_dropWhile unicode.IsSpace mid.reverse
    have h3 : mid = (mid.reverse.dropWhile unicode.IsSpace).reverse ++
        (mid.reverse.takeWhile unicode.IsSpace).reverse := by
      rw [← List.reverse_append, h2, List.reverse_reverse]
    have h4 : mid.head? = some c := by
      rw [h3, List.head?_append, hc]
      rfl
    have := List.head?_dropWhile_not unicode.IsSpace cs
    rw [← hmid, h4] at this
    simpa using this
  · intro c hc
    rw [List.getLast?_reverse] at hc
    have := List.head?_dropWhile_not unicode.IsSpace mid.reverse
    rw [hc] at this
    simpa using this

end strings

/-! # Theorems: runner -/

namespace runner

open lib

theorem lockAndGetStatus_eq (pe : processEntry) :
    pe.lockAndGetStatus =
      { State := pe.state, ExitCode := pe.exitCode, StartTime := pe.start,
        EndTime := pe.end_ } := by
  unfold processEntry.lockAndGetStatus
  cases pe.exitCode <;> cases pe.end_ <;> rfl

theorem processEntry.ok.statusInv {pe : processEntry} (h : pe.ok) :
    StatusInv pe.lockAndGetStatus := by
  rw [lockAndGetStatus_eq]
  rcases h with ⟨-, h2, h3, h4⟩ | ⟨-, h2, h4⟩
  · exact ⟨fun _ => ⟨h3, h4⟩, fun h => by simp [h2] at h⟩
  · exact ⟨fun h => by simp [h2] at h, fun _ => h4⟩

theorem finalize_ok (pe : processEntry) (err : WaitResult) (now : Nat) :
    (pe.finalize err now).ok := by
  right
  cases err <;> simp [processEntry.finalize]

theorem lookup_setEntry (l : List (String × processEntry)) (id id' : String)
    (pe : processEntry) :
    (l.map fun p => if p.1 = id then (p.1, pe) else p).lookup id' =
      if id' = id then (l.lookup id').map (fun _ => pe) else l.lookup id' := by
  induction l with
  | nil => simp
  | cons p rest ih =>
    obtain ⟨k, v⟩ := p
    by_cases hk : k = id
    · subst hk
      by_cases h' : id' = k
      · subst h'; simp [List.lookup_cons]
      · have hb : (id' == k) = false := by simpa using h'
        simp only [List.map_cons, if_true, List.lookup_cons, hb]
        rw [ih]
    · by_cases h' : id' = k
      · subst h'; simp [List.lookup_cons, hk]
      · have hb : (id' == k) = false := by simpa using h'
        simp only [List.map_cons, hk, if_false, List.lookup_cons, hb]
        exact ih

theorem getProcess_ok_iff {r : Runner} {id : String} {pe : processEntry} :
    r.getProcess id = .ok pe ↔ r.processes.lookup id = some pe := by
  unfold Runner.getProcess
  cases h : r.processes.lookup id <;> simp

theorem resumeCall_returned {r : Runner} (hi : r.Inv) {platform : Platform}
    {writeErr : Option Error} {inTime : Bool} {call call' : Call} {kills : List Kill}
    (h : resumeCall r platform writeErr inTime call = some (call', kills))
    {st : ProcessStatus} (hst : call'.returned = some st) : StatusInv st := by
  unfold resumeCall at h
  cases call with
  | startStatus id pid =>
    simp only at h
    split at h
    · rename_i pe hpe
      cases h
      simp only [Call.returned, Option.some.injEq] at hst
      subst hst
      exact (hi.entries id pe (getProcess_ok_iff.mp hpe)).statusInv
    · cases h
  | stopAlready id =>
    simp only at h
    split at h
    · rename_i pe hpe
      cases h
      simp only [Call.returned, Option.some.injEq] at hst
      subst hst
      exact (hi.entries id pe (getProcess_ok_iff.mp hpe)).statusInv
    · cases h
  | stopKill id =>
    simp only at h
    split at h
    · split at h <;> cases h <;> simp [Call.returned] at hst
    · cases h
  | stopPoll id =>
    simp only at h
    split at h
    · rename_i pe hpe
      have hok := (hi.entries id pe (getProcess_ok_iff.mp hpe)).statusInv
      split at h
      · split at h
        · cases h
          simp only [Call.returned, Option.some.injEq] at hst
          subst hst; exact hok
        · cases h; simp [Call.returned] at hst
      · cases h
        simp only [Call.returned, Option.some.injEq] at hst
        subst hst; exact hok
    · cases h
  | startDone res => simp at h
  | statusDone res => simp at h
  | stopDone res => simp at h

theorem Runner.Inv.initial (baseDir : String) : (NewRunner baseDir).Inv := by
  constructor <;> simp [NewRunner]

theorem Runner.Inv.preserved {r r' : Runner} {a : Action} (hi : r.Inv) (h : step r a = some r') :
    r'.Inv := by
  unfold runner.step at h
  cases a with
  | start command args env =>
    simp only at h
    split at h
    · cases h
      refine ⟨hi.entries, ?_⟩
      intro call hc st hst
      rcases List.mem_append.mp hc with hc | hc
      · exact hi.calls call hc st hst
      · simp only [List.mem_singleton] at hc
        subst hc
        simp [Call.returned] at hst
    · rename_i pe hpe
      split at h
      · cases h
      · cases h
        refine ⟨?_, ?_⟩
        · intro id pe' hl
          simp only [List.lookup_cons] at hl
          split at hl
          · simp only [Option.some.injEq] at hl
            subst hl
            left
            unfold startEntry at hpe
            split at hpe
            · cases hpe
            · split at hpe
              · cases hpe
              · split at hpe
                · cases hpe
                · split at hpe
                  · cases hpe
                  · cases hpe
                    exact ⟨rfl, rfl, rfl, rfl⟩
          · exact hi.entries id pe' hl
        · intro call hc st hst
          rcases List.mem_append.mp hc with hc | hc
          · exact hi.calls call hc st hst
          · simp only [List.mem_singleton] at hc
            subst hc
            simp [Call.returned] at hst
  | reap id err now =>
    simp only at h
    split at h
    · rename_i pe hpe
      split at h
      · cases h
        refine ⟨?_, hi.calls⟩
        intro id' pe' hl
        simp only [Runner.setEntry, lookup_setEntry] at hl
        split at hl
        · cases hl' : r.processes.lookup id' <;> simp [hl'] at hl
          subst hl
          exact finalize_ok pe err now
        · exact hi.entries id' pe' hl
      · cases h
    · cases h
  | status id =>
    simp only at h
    cases h
    refine ⟨hi.entries, ?_⟩
    intro call hc st hst
    rcases List.mem_append.mp hc with hc | hc
    · exact hi.calls call hc st hst
    · simp only [List.mem_singleton] at hc
      subst hc
      unfold Runner.Status at hst
      split at hst
      · simp [Call.returned] at hst
      · rename_i pe hpe
        simp only [Call.returned, Option.some.injEq] at hst
        subst hst
        exact (hi.entries id pe (getProcess_ok_iff.mp hpe)).statusInv
  | stop id =>
    simp only at h
    split at h
    · cases h
      refine ⟨hi.entries, ?_⟩
      intro call hc st hst
      rcases List.mem_append.mp hc with hc | hc
      · exact hi.calls call hc st hst
      · simp only [List.mem_singleton] at hc
        subst hc
        simp [Call.returned] at hst
    · split at h <;>
      · cases h
        refine ⟨hi.entries, ?_⟩
        intro call hc st hst
        rcases List.mem_append.mp hc with hc | hc
        · exact hi.calls call hc st hst
        · simp only [List.mem_singleton] at hc
          subst hc
          simp [Call.returned] at hst
  | resume k platform writeErr inTime =>
    simp only at h
    split at h
    · cases h
    · rename_i call hcall
      split at h
      · cases h
      · rename_i call' kills hres
        cases h
        refine ⟨hi.entries, ?_⟩
        intro c hc st hst
        rcases List.mem_or_eq_of_mem_set hc with hc | hc
        · exact hi.calls c hc st hst
        · subst hc
          exact resumeCall_returned hi hres hst

theorem Runner.Inv.run {acts : List Action} {r r' : Runner} (hi : r.Inv)
    (h : run r acts = some r') : r'.Inv := by
  induction acts generalizing r with
  | nil => simp only [runner.run, Option.some.injEq] at h; exact h ▸ hi
  | cons a rest ih =>
    simp only [runner.run] at h
    split at h
    · cases h
    · rename_i r1 hr1
      exact ih (hi.preserved hr1) h

theorem Evolves.trans {a b c : processEntry} (h1 : Evolves a b) (h2 : Evolves b c) :
    Evolves a c := by
  rcases h1 with rfl | ⟨ha, hb⟩
  · exact h2
  · rcases h2 with rfl | ⟨hb', -⟩
    · exact Or.inr ⟨ha, hb⟩
    · rw [hb] at hb'; cases hb'

theorem step_evolves {r r' : Runner} {a : Action} (hi : r.Inv) (h : step r a = some r')
    {id : String} {pe : processEntry} (hl : r.processes.lookup id = some pe) :
    ∃ pe', r'.processes.lookup id = some pe' ∧ Evolves pe pe' := by
  unfold runner.step at h
  cases a with
  | start command args env =>
    simp only at h
    split at h
    · cases h; exact ⟨pe, hl, Or.inl rfl⟩
    · split at h
      · cases h
      · rename_i hfresh
        cases h
        refine ⟨pe, ?_, Or.inl rfl⟩
        simp only [List.lookup_cons]
        have hne : (id == env.processId) = false := by
          cases hb : (id == env.processId)
          · rfl
          · have : id = env.processId := by simpa using hb
            subst this
            rw [hfresh] at hl; cases hl
        rw [hne]; exact hl
  | reap id0 err now =>
    simp only at h
    split at h
    · rename_i pe0 hpe0
      split at h
      · rename_i hw
        cases h
        simp only [Runner.setEntry, lookup_setEntry]
        by_cases hid : id = id0
        · subst hid
          have : pe0 = pe := by
            have := getProcess_ok_iff.mp hpe0
            rw [hl] at this; cases this; rfl
          subst this
          refine ⟨pe0.finalize err now, by simp [hl], Or.inr ⟨?_, ?_⟩⟩
          · rcases hi.entries id pe0 hl with ⟨-, h2, -⟩ | ⟨h1, -⟩
            · exact h2
            · rw [hw] at h1; cases h1
          · cases err <;> rfl
        · exact ⟨pe, by simp [hid, hl], Or.inl rfl⟩
      · cases h
    · cases h
  | status id0 => simp only at h; cases h; exact ⟨pe, hl, Or.inl rfl⟩
  | stop id0 =>
    simp only at h
    split at h
    · cases h; exact ⟨pe, hl, Or.inl rfl⟩
    · split at h <;> (cases h; exact ⟨pe, hl, Or.inl rfl⟩)
  | resume k platform writeErr inTime =>
    simp only at h
    split at h
    · cases h
    · split at h
      · cases h
      · cases h; exact ⟨pe, hl, Or.inl rfl⟩

theorem run_evolves {acts : List Action} {r r' : Runner} (hi : r.Inv)
    (h : run r acts = some r') {id : String} {pe : processEntry}
    (hl : r.processes.lookup id = some pe) :
    ∃ pe', r'.processes.lookup id = some pe' ∧ Evolves pe pe' := by
  induction acts generalizing r pe with
  | nil =>
    simp only [runner.run, Option.some.injEq] at h
    subst h; exact ⟨pe, hl, Or.inl rfl⟩
  | cons a rest ih =>
    simp only [runner.run] at h
    split at h
    · cases h
    · rename_i r1 hr1
      obtain ⟨pe1, hl1, he1⟩ := step_evolves hi hr1 hl
      obtain ⟨pe2, hl2, he2⟩ := ih (hi.preserved hr1) h hl1
      exact ⟨pe2, hl2, he1.trans he2⟩

theorem Status_ok_iff {r : Runner} {id : String} {res : StatusResult} :
    r.Status id = .ok res ↔
      ∃ pe, r.processes.lookup id = some pe ∧
        res = { Command := pe.command, Status := pe.lockAndGetStatus } := by
  unfold Runner.Status Runner.getProcess
  cases h : r.processes.lookup id <;> simp [eq_comm]

theorem stop_of_stopped {r : Runner} {id : String} {pe : processEntry}
    (hl : r.processes.lookup id = some pe) (hs : pe.state = .Stopped)
    (platform : Platform) (writeErr : Option Error) (inTime : Bool) :
    run r [.stop id, .resume r.calls.length platform writeErr inTime] =
      some { r with calls := r.calls ++
        [.stopDone (.ok { Command := pe.command, Status := pe.lockAndGetStatus })] } := by
  have hg : r.getProcess id = .ok pe := getProcess_ok_iff.mpr hl
  simp [runner.run, runner.step, hg, hs, resumeCall, Runner.getProcess, hl]

/-- C5, status invariant.  Every status snapshot that a call of `Start`,
`Status` or `Stop` has returned, in any state that any schedule of the runner
reaches, has no exit code and no end time if its state is `Running`, and has
an end time if its state is `Stopped`. -/
theorem status_invariant (baseDir : String) (acts : List Action) (r : Runner)
    (h : run (NewRunner baseDir) acts = some r) (call : Call) (hc : call ∈ r.calls)
    (st : ProcessStatus) (hst : call.returned = some st) :
    (st.State = .Running → st.ExitCode = none ∧ st.EndTime = none) ∧
    (st.State = .Stopped → st.EndTime ≠ none) :=
  ((Runner.Inv.initial baseDir).run h).calls call hc st hst

/-- The snapshot that `Stop` returns after `exampleSchedule` satisfies the
invariant. -/
theorem status_invariant_witness :
    run (NewRunner "/tmp/prn-1") (exampleSchedule ++ [.stop "p1", .resume 2 .linux none true])
      = some exampleStopped ∧
    Call.stopDone (.ok ⟨exampleEntry.command, exampleStatus⟩) ∈ exampleStopped.calls ∧
    (exampleStatus.State = .Running →
      exampleStatus.ExitCode = none ∧ exampleStatus.EndTime = none) ∧
    (exampleStatus.State = .Stopped → exampleStatus.EndTime ≠ none) :=
  ⟨by decide, by decide,
   status_invariant "/tmp/prn-1" (exampleSchedule ++ [.stop "p1", .resume 2 .linux none true])
     exampleStopped (by decide) (.stopDone (.ok ⟨exampleEntry.command, exampleStatus⟩))
     (by decide) exampleStatus (by decide)⟩

/-- C6, status monotonicity.  If `Status(id)` succeeds in a reachable state,
it succeeds in every later state; when the earlier observation reports
`Stopped` the later one is equal to it (same state, exit code and end time, so
it never reports `Running`); an observation reports `Running` or `Stopped`;
and two observations differ only by the move from `Running` to `Stopped`. -/
theorem status_monotone (baseDir : String) (acts later : List Action) (r r2 : Runner)
    (h1 : run (NewRunner baseDir) acts = some r) (h2 : run r later = some r2)
    (id : String) (res : StatusResult) (hs : r.Status id = .ok res) :
    ∃ res2, r2.Status id = .ok res2 ∧
      (res.Status.State = .Stopped → res2 = res) ∧
      (res.Status.State = .Running ∨ res.Status.State = .Stopped) ∧
      (res2 ≠ res → res.Status.State = .Running ∧ res2.Status.State = .Stopped) := by
  have hi := (Runner.Inv.initial baseDir).run h1
  obtain ⟨pe, hl, rfl⟩ := Status_ok_iff.mp hs
  obtain ⟨pe2, hl2, he⟩ := run_evolves hi h2 hl
  refine ⟨{ Command := pe2.command, Status := pe2.lockAndGetStatus },
    Status_ok_iff.mpr ⟨pe2, hl2, rfl⟩, ?_, ?_, ?_⟩
  · intro hst
    rcases he with rfl | ⟨hrun, -⟩
    · rfl
    · simp [lockAndGetStatus_eq, hrun] at hst
  · rcases hi.entries id pe hl with ⟨-, h, -⟩ | ⟨-, h, -⟩ <;> simp [lockAndGetStatus_eq, h]
  · intro hne
    rcases he with rfl | ⟨hrun, hstop⟩
    · exact absurd rfl hne
    · simp [lockAndGetStatus_eq, hrun, hstop]

/-- After `exampleSchedule` the process is observed `Stopped`, and again after
a later `Stop`. -/
theorem status_monotone_witness :
    run (NewRunner "/tmp/prn-1") exampleSchedule = some exampleRunner ∧
    run exampleRunner [.stop "p1", .resume 2 .linux none true] = some exampleStopped ∧
    exampleRunner.Status "p1" = .ok ⟨exampleEntry.command, exampleStatus⟩ ∧
    ∃ res2, exampleStopped.Status "p1" = .ok res2 ∧
      (exampleStatus.State = .Stopped → res2 = ⟨exampleEntry.command, exampleStatus⟩) ∧
      (exampleStatus.State = .Running ∨ exampleStatus.State = .Stopped) ∧
      (res2 ≠ ⟨exampleEntry.command, exampleStatus⟩ →
        exampleStatus.State = .Running ∧ res2.Status.State = .Stopped) :=
  ⟨by decide, by decide, by decide,
   status_monotone "/tmp/prn-1" exampleSchedule [.stop "p1", .resume 2 .linux none true]
     exampleRunner exampleStopped (by decide) (by decide) "p1"
     ⟨exampleEntry.command, exampleStatus⟩ (by decide)⟩

/-- C7, terminal transition.  For every entry whose waiter goroutine is still
waiting and every result of the child's wait, the waiter's step is enabled and
leaves the entry `Stopped` with its end time set to the clock reading; the exit
code is 0 when the wait returned no error, the code of the exit error when it
returned one, and absent when it returned any other error. -/
theorem terminal_transition (baseDir : String) (acts : List Action) (r : Runner)
    (h : run (NewRunner baseDir) acts = some r) (id : String) (pe : processEntry)
    (hpe : r.getProcess id = .ok pe) (hw : pe.reaper = .waiting) (err : WaitResult)
    (now : Nat) :
    ∃ r' pe', step r (.reap id err now) = some r' ∧ r'.getProcess id = .ok pe' ∧
      pe'.state = .Stopped ∧ pe'.end_ = some now ∧
      pe'.exitCode =
        (match err with
         | .success => some 0
         | .exitError code => some code
         | .otherError => none) := by
  have hi := (Runner.Inv.initial baseDir).run h
  have hl := getProcess_ok_iff.mp hpe
  have hnone : pe.exitCode = none := by
    rcases hi.entries id pe hl with ⟨-, -, h3, -⟩ | ⟨h1, -⟩
    · exact h3
    · rw [hw] at h1; cases h1
  refine ⟨r.setEntry id (pe.finalize err now), pe.finalize err now, ?_, ?_, ?_, ?_, ?_⟩
  · simp [runner.step, hpe, hw]
  · rw [getProcess_ok_iff]
    simp [Runner.setEntry, lookup_setEntry, hl]
  · cases err <;> rfl
  · cases err <;> rfl
  · cases err <;> simp [processEntry.finalize, hnone]

/-- The running entry of the example is stopped without an exit code by a wait
that fails with another error. -/
theorem terminal_transition_witness :
    run (NewRunner "/tmp/prn-1") (exampleSchedule.take 3) = some exampleBefore ∧
    exampleBefore.getProcess "p1" = .ok exampleRunning ∧
    exampleRunning.reaper = .waiting ∧
    ∃ r' pe', step exampleBefore (.reap "p1" .otherError 107) = some r' ∧
      r'.getProcess "p1" = .ok pe' ∧ pe'.state = .Stopped ∧ pe'.end_ = some 107 ∧
      pe'.exitCode = none :=
  ⟨by decide, by decide, by decide,
   terminal_transition "/tmp/prn-1" (exampleSchedule.take 3) exampleBefore (by decide) "p1"
     exampleRunning (by decide) (by decide) .otherError 107⟩

/-- C8, at the failing input.  When the child exits and the waiter goroutine
finishes between the registration of the entry and the snapshot of line 121,
`Start` returns a status that is `Stopped` with exit code 0 and an end time. -/
theorem start_returns_stopped_after_early_exit :
    (run (NewRunner "/tmp/prn-1") earlyExitSchedule).map (fun r => r.calls) =
      some [.startDone (.ok ⟨"p1", 4242, ⟨.Stopped, some 0, 100, some 107⟩⟩)] := by
  decide

/-- C9, `Start` is atomic on error.  `Start` with an empty command returns the
error `command is required` and changes nothing else; and whenever a call of
`Start` returns an error, the registry and the kills are as before the call. -/
theorem start_atomic_on_error (r : Runner) (command : String) (args : List String)
    (env : StartEnv) (r' : Runner) (err : Error)
    (h : step r (.start command args env) = some r')
    (hret : r'.calls = r.calls ++ [.startDone (.error err)]) :
    step r (.start "" args env) =
      some { r with calls := r.calls ++ [.startDone (.error .commandRequired)] } ∧
    r'.processes = r.processes ∧ r'.kills = r.kills := by
  constructor
  · simp [runner.step, startEntry]
  · unfold runner.step at h
    simp only at h
    split at h
    · cases h; exact ⟨rfl, rfl⟩
    · split at h
      · cases h
      · cases h
        simp at hret

/-- A spawn failure after `exampleSchedule` leaves the registry as it was. -/
theorem start_atomic_on_error_witness :
    step exampleRunner (.start "sh" [] failingEnv) = some exampleFailed ∧
    exampleFailed.calls = exampleRunner.calls ++ [.startDone (.error (.os "ENOENT"))] ∧
    (step exampleRunner (.start "" [] failingEnv) =
      some { exampleRunner with
             calls := exampleRunner.calls ++ [.startDone (.error .commandRequired)] } ∧
     exampleFailed.processes = exampleRunner.processes ∧
     exampleFailed.kills = exampleRunner.kills) :=
  ⟨by decide, by decide,
   start_atomic_on_error exampleRunner "sh" [] failingEnv exampleFailed (.os "ENOENT")
     (by decide) (by decide)⟩

/-- C10, idempotent stop.  For an entry that is `Stopped` in a reachable state,
a call of `Stop` runs to its return in two steps whatever `KillCgroup` and the
clock would answer, adds no kill and changes no entry, and returns the entry's
status; a second call of `Stop` in any later state returns the equal status. -/
theorem idempotent_stop (baseDir : String) (acts later : List Action) (r r2 : Runner)
    (h1 : run (NewRunner baseDir) acts = some r) (h2 : run r later = some r2)
    (id : String) (pe : processEntry) (hpe : r.getProcess id = .ok pe)
    (hs : pe.state = .Stopped) (p1 p2 : Platform) (w1 w2 : Option Error) (t1 t2 : Bool) :
    run r [.stop id, .resume r.calls.length p1 w1 t1] =
      some { r with calls := r.calls ++ [.stopDone (.ok ⟨pe.command, pe.lockAndGetStatus⟩)] } ∧
    run r2 [.stop id, .resume r2.calls.length p2 w2 t2] =
      some { r2 with
             calls := r2.calls ++ [.stopDone (.ok ⟨pe.command, pe.lockAndGetStatus⟩)] } := by
  have hi := (Runner.Inv.initial baseDir).run h1
  have hl := getProcess_ok_iff.mp hpe
  obtain ⟨pe2, hl2, he⟩ := run_evolves hi h2 hl
  have : pe2 = pe := by
    rcases he with rfl | ⟨hrun, -⟩
    · rfl
    · rw [hs] at hrun; cases hrun
  subst this
  exact ⟨stop_of_stopped hl hs p1 w1 t1, stop_of_stopped hl2 hs p2 w2 t2⟩

/-- Two calls of `Stop` after `exampleSchedule` return the same status. -/
theorem idempotent_stop_witness :
    run (NewRunner "/tmp/prn-1") exampleSchedule = some exampleRunner ∧
    run exampleRunner [.stop "p1", .resume 2 .linux none true] = some exampleStopped ∧
    exampleRunner.getProcess "p1" = .ok exampleEntry ∧ exampleEntry.state = .Stopped ∧
    (run exampleRunner [.stop "p1", .resume exampleRunner.calls.length .linux none true] =
      some { exampleRunner with
             calls := exampleRunner.calls ++
               [.stopDone (.ok ⟨exampleEntry.command, exampleEntry.lockAndGetStatus⟩)] } ∧
     run exampleStopped
        [.stop "p1", .resume exampleStopped.calls.length .other (some (.os "EACCES")) false] =
      some { exampleStopped with
             calls := exampleStopped.calls ++
               [.stopDone (.ok ⟨exampleEntry.command, exampleEntry.lockAndGetStatus⟩)] }) :=
  ⟨by decide, by decide, by decide, by decide,
   idempotent_stop "/tmp/prn-1" exampleSchedule [.stop "p1", .resume 2 .linux none true]
     exampleRunner exampleStopped (by decide) (by decide) "p1" exampleEntry (by decide)
     (by decide) .linux .other none (some (.os "EACCES")) true false⟩

/-! ## Stop on a failing cgroup kill, and unknown ids -/

/-- C11, at the failing input.  A process is started and found Running by
`Stop`; on Linux the write to `cgroup.kill` fails with `ENOENT`.  The call of
`Stop` returns that error and no status, and no kill is delivered, neither to
the cgroup nor to the process group. -/
theorem stop_returns_error_when_cgroup_write_fails :
    (run (NewRunner "/tmp/prn-1")
        [.start "sleep" ["60"] exampleEnv, .resume 0 .linux none true, .stop "p1",
         .resume 1 .linux (some (.os "ENOENT")) true]).map (fun r => (r.calls[1]?, r.kills)) =
      some (some (.stopDone (.error (.os "ENOENT"))), []) := by
  decide

/-- On Linux, when the write to `cgroup.kill` fails, a `Stop` at `KillCgroup`
returns the error of the write and delivers no kill. -/
theorem resumeCall_stopKill_linux_error (r : Runner) (id : String) (pe : processEntry)
    (hpe : r.getProcess id = .ok pe) (err : Error) (inTime : Bool) :
    resumeCall r .linux (some err) inTime (.stopKill id) = some (.stopDone (.error err), []) := by
  simp [resumeCall, hpe, KillCgroup]

/-- Off Linux, a `Stop` at `KillCgroup` signals the process group and goes on
to its wait loop. -/
theorem resumeCall_stopKill_other (r : Runner) (id : String) (pe : processEntry)
    (hpe : r.getProcess id = .ok pe) (writeErr : Option Error) (inTime : Bool) :
    resumeCall r .other writeErr inTime (.stopKill id) =
      some (.stopPoll id, [.processGroup pe.pid]) := by
  simp [resumeCall, hpe, KillCgroup]

/-- C12.  For every id that is not in the registry, `Runner.Status`,
`Runner.Stop` and `Runner.Output` each return `os.ErrNotExist` and no result:
the call of `Stop` returns in its first step, which leaves the kills as they
are, and takes no step after it, and `Output` leaves every output store as it
is, so that no subscription is made. -/
theorem unknown_id_not_found (r : Runner) (stores : List (String × Stores)) (id : String)
    (hid : r.processes.lookup id = none) :
    r.Status id = .error .notExist ∧
    step r (.stop id) = some { r with calls := r.calls ++ [.stopDone (.error .notExist)] } ∧
    (∀ (platform : Platform) (writeErr : Option Error) (inTime : Bool) (r' : Runner),
      resumeCall r' platform writeErr inTime (.stopDone (.error .notExist)) = none) ∧
    r.Output stores id = some (.error .notExist, stores) := by
  have hg : r.getProcess id = .error .notExist := by simp [Runner.getProcess, hid]
  refine ⟨?_, ?_, ?_, ?_⟩
  · simp [Runner.Status, hg]
  · simp [step, hg]
  · intros; rfl
  · simp [Runner.Output, hg]

theorem unknown_id_not_found_witness :
    exampleRunner.processes.lookup "p7" = none ∧
    (exampleRunner.Status "p7" = .error .notExist ∧
     step exampleRunner (.stop "p7") =
       some { exampleRunner with
              calls := exampleRunner.calls ++ [.stopDone (.error .notExist)] } ∧
     (∀ (platform : Platform) (writeErr : Option Error) (inTime : Bool) (r' : Runner),
       resumeCall r' platform writeErr inTime (.stopDone (.error .notExist)) = none) ∧
     exampleRunner.Output exampleStores "p7" = some (.error .notExist, exampleStores)) :=
  ⟨by decide, unknown_id_not_found exampleRunner exampleStores "p7" (by decide)⟩

/-! ## The cgroup root -/

open strings

theorem toAdd_eq_filter (available enabled desired : List String) :
    toAdd available enabled desired =
      (desired.filter fun c => c ∈ available ∧ c ∉ enabled).map fun c => "+" ++ c := by
  induction desired with
  | nil => rfl
  | cons c rest ih =>
    by_cases h : c ∈ available ∧ c ∉ enabled
    · simp [toAdd, h, ih]
    · simp only [toAdd, h, if_false, ih]
      rw [List.filter_cons_of_neg (by simpa using h)]

/-- C29.  When the effective uid is not 0, `initCgroupsImpl` does nothing and
returns no error.  As root, when the root directory is made, both files are
read, `available` and `enabled` being the controller sets read from
`cgroup.controllers` and `cgroup.subtree_control`, and the write succeeds: it
writes to `cgroup.subtree_control`, in one write, the entries `+c` for exactly
the `c` among `cpu`, `io`, `memory` that are available and not enabled, in
that order and joined by single blanks, and writes nothing when there is none.
A controller is in the set read from a file exactly when a field of the file
is the controller, or the controller after a `+`. -/
theorem cgroup_root_init (env : CgroupEnv) :
    (env.euid ≠ 0 → initCgroupsImpl env = ([], none)) ∧
    (∀ available enabled : List String, env.euid = 0 → env.mkdirErr = none →
      readControllerSet env.controllers = .ok available →
      readControllerSet env.subtreeControl = .ok enabled → env.writeErr = none →
      initCgroupsImpl env =
        (if (["cpu", "io", "memory"].filter fun c => c ∈ available ∧ c ∉ enabled) = [] then []
         else [("/sys/fs/cgroup/prn/cgroup.subtree_control",
                " ".intercalate
                  ((["cpu", "io", "memory"].filter fun c => c ∈ available ∧ c ∉ enabled).map
                    fun c => "+" ++ c))],
         none)) ∧
    (∀ (data : String) (keys : List String), readControllerSet (.ok data) = .ok keys →
      ∀ c : String, c ∈ keys ↔
        ∃ f ∈ Fields data, f = "+" ++ c ∨ (f = c ∧ f.data.head? ≠ some '+')) := by
  refine ⟨?_, ?_, ?_⟩
  · intro h
    simp [initCgroupsImpl, h]
  · intro available enabled he hm ha hen hw
    simp only [initCgroupsImpl, he, hm, ha, hen, hw, ne_eq, not_true_eq_false, if_false,
      toAdd_eq_filter, List.length_map, gt_iff_lt, List.length_pos]
    split
    · rfl
    · rename_i h
      rw [if_pos (not_not.mp h)]
  · intro data keys h c
    simp only [readControllerSet, Except.ok.injEq] at h
    subst h
    simp only [controllerKeys, List.mem_map, TrimPrefix_plus]

theorem cgroup_root_init_witness :
    initCgroupsImpl { exampleCgroupEnv with euid := 1000 } = ([], none) ∧
    initCgroupsImpl exampleCgroupEnv =
      ([("/sys/fs/cgroup/prn/cgroup.subtree_control", "+cpu +memory")], none) ∧
    initCgroupsImpl { exampleCgroupEnv with subtreeControl := .ok "cpu io memory" }
      = ([], none) ∧
    ("memory" ∈ ["io", "pids"] ↔
      ∃ f ∈ Fields "+io pids\n", f = "+" ++ "memory" ∨ (f = "memory" ∧ f.data.head? ≠ some '+')) :=
  ⟨(cgroup_root_init { exampleCgroupEnv with euid := 1000 }).1 (by decide),
   ((cgroup_root_init exampleCgroupEnv).2.1 ["cpuset", "cpu", "io", "memory", "pids"]
      ["io", "pids"] (by decide) (by decide) (by decide) (by decide) (by decide)).trans
      (by decide),
   ((cgroup_root_init { exampleCgroupEnv with subtreeControl := .ok "cpu io memory" }).2.1
      ["cpuset", "cpu", "io", "memory", "pids"] ["cpu", "io", "memory"]
      (by decide) (by decide) (by decide) (by decide) (by decide)).trans (by decide),
   (cgroup_root_init exampleCgroupEnv).2.2 "+io pids\n" ["io", "pids"] (by decide) "memory"⟩

end runner

/-! # Theorems: server -/

namespace server

theorem afterStarts_snoc (calls : List (Context × Except runner.Error runner.StartResult))
    (c : Context × Except runner.Error runner.StartResult) :
    afterStarts (calls ++ [c]) = ((afterStarts calls).Start c.1 c.2).2 := by
  simp [afterStarts, List.foldl_append]

theorem startedBy_snoc (calls : List (Context × Except runner.Error runner.StartResult))
    (c : Context × Except runner.Error runner.StartResult) (I X : String) :
    startedBy (calls ++ [c]) I X ↔
      startedBy calls I X ∨
        ∃ res, c.2 = .ok res ∧ extractSpiffeIdFromContext c.1 = some I ∧ res.ID = X := by
  unfold startedBy
  constructor
  · rintro ⟨ctx, res, hm, hI, hX⟩
    rcases List.mem_append.mp hm with hm | hm
    · exact Or.inl ⟨ctx, res, hm, hI, hX⟩
    · simp only [List.mem_singleton] at hm
      subst hm
      exact Or.inr ⟨res, rfl, hI, hX⟩
  · rintro (⟨ctx, res, hm, hI, hX⟩ | ⟨res, hc, hI, hX⟩)
    · exact ⟨ctx, res, List.mem_append_left _ hm, hI, hX⟩
    · refine ⟨c.1, res, List.mem_append_right _ ?_, hI, hX⟩
      simp [← hc]

theorem startedBy_mem_returnedIds
    {calls : List (Context × Except runner.Error runner.StartResult)} {I X : String}
    (h : startedBy calls I X) : X ∈ returnedIds calls := by
  obtain ⟨ctx, res, hm, -, hX⟩ := h
  unfold returnedIds
  rw [List.mem_filterMap]
  exact ⟨(ctx, .ok res), hm, by simp [hX]⟩

theorem owner_afterStarts (calls : List (Context × Except runner.Error runner.StartResult))
    (hd : (returnedIds calls).Nodup) (I X : String) (hI : I ≠ "") :
    (afterStarts calls).owner X = I ↔ startedBy calls I X := by
  induction calls using List.reverseRecOn with
  | nil =>
    simp only [afterStarts, List.foldl_nil, ProcessRunnerServiceServer.owner,
      NewProcessRunnerServiceServer, List.lookup_nil, Option.getD_none, startedBy,
      List.not_mem_nil, false_and, exists_false, iff_false]
    exact fun h => hI h.symm
  | append_singleton calls c ih =>
    have hd' : (returnedIds calls).Nodup := by
      unfold returnedIds at hd ⊢
      rw [List.filterMap_append] at hd
      exact (List.nodup_append.mp hd).1
    have ih := ih hd'
    rw [afterStarts_snoc, startedBy_snoc]
    obtain ⟨ctx, out⟩ := c
    cases out with
    | error e =>
      simp only [ProcessRunnerServiceServer.Start, ih, reduceCtorEq, false_and, exists_false,
        or_false]
    | ok res =>
      cases hs : extractSpiffeIdFromContext ctx with
      | none =>
        simp only [ProcessRunnerServiceServer.Start, hs, ih, reduceCtorEq, false_and, and_false,
          exists_false, or_false]
      | some J =>
        have hfresh : res.ID ∉ returnedIds calls := by
          unfold returnedIds at hd ⊢
          rw [List.filterMap_append] at hd
          have := (List.nodup_append.mp hd).2.2
          intro hmem
          exact this hmem (by simp)
        simp only [ProcessRunnerServiceServer.Start, hs, ProcessRunnerServiceServer.owner,
          List.lookup_cons, Except.ok.injEq, Option.some.injEq]
        by_cases hX : X = res.ID
        · subst hX
          have hno : ¬ startedBy calls I res.ID := fun h => hfresh (startedBy_mem_returnedIds h)
          simp [hno]
        · have hb : (X == res.ID) = false := by simpa using hX
          simp only [hb]
          have : ¬ ∃ res', res = res' ∧ J = I ∧ res'.ID = X := by
            rintro ⟨res', rfl, -, h⟩
            exact hX h.symm
          simp only [this, or_false]
          exact ih

/-- For a caller with a non-empty identity, and process ids that are pairwise
distinct, the check passes exactly when a `Start` call of that identity
returned the id, and answers `PermissionDenied` otherwise. -/
theorem checkOwnership_of_nonempty
    (calls : List (Context × Except runner.Error runner.StartResult))
    (hd : (returnedIds calls).Nodup) (ctx : Context) (I X : String) (hI : I ≠ "") :
    ((afterStarts calls).checkOwnership (injectSpiffeId ctx I) X = .ok () ↔
      startedBy calls I X) ∧
    (¬ startedBy calls I X →
      (afterStarts calls).checkOwnership (injectSpiffeId ctx I) X = .error .PermissionDenied) := by
  have h := owner_afterStarts calls hd I X hI
  simp only [ProcessRunnerServiceServer.checkOwnership, extractSpiffeIdFromContext,
    injectSpiffeId, ne_eq, ite_not]
  constructor
  · rw [← h]
    by_cases ho : (afterStarts calls).owner X = I <;> simp [ho]
  · intro hn
    rw [← h] at hn
    simp [hn]

/-- C4, at the failing input.  On a new server, where no `Start` call has been
made, the ownership check passes for the caller whose identity is the empty
string, on any process id. -/
theorem checkOwnership_passes_for_empty_identity :
    NewProcessRunnerServiceServer.checkOwnership (injectSpiffeId Context.background "")
      "never-started" = .ok () ∧
    ¬ startedBy [] "" "never-started" := by
  constructor
  · decide
  · simp [startedBy]

/-! ## The handlers and the interceptors -/

theorem owner_of_not_returned
    (calls : List (Context × Except runner.Error runner.StartResult)) (X : String)
    (hX : X ∉ returnedIds calls) : (afterStarts calls).owner X = "" := by
  induction calls using List.reverseRecOn with
  | nil => rfl
  | append_singleton calls c ih =>
    have hsplit : returnedIds (calls ++ [c]) = returnedIds calls ++ returnedIds [c] := by
      simp [returnedIds, List.filterMap_append]
    rw [hsplit, List.mem_append, not_or] at hX
    have ih := ih hX.1
    rw [afterStarts_snoc]
    obtain ⟨ctx, out⟩ := c
    cases out with
    | error e => simpa [ProcessRunnerServiceServer.Start] using ih
    | ok res =>
      have hne : X ≠ res.ID := by
        intro h
        exact hX.2 (by simp [returnedIds, h])
      cases hs : extractSpiffeIdFromContext ctx with
      | none => simpa [ProcessRunnerServiceServer.Start, hs] using ih
      | some J =>
        have hb : (X == res.ID) = false := by simpa using hne
        simp only [ProcessRunnerServiceServer.Start, hs, ProcessRunnerServiceServer.owner,
          List.lookup_cons, hb]
        exact ih

theorem checkOwnership_of_not_returned
    (calls : List (Context × Except runner.Error runner.StartResult)) (ctx : Context)
    (I X : String) (hI : I ≠ "") (hX : X ∉ returnedIds calls) :
    (afterStarts calls).checkOwnership (injectSpiffeId ctx I) X = .error .PermissionDenied := by
  have h := owner_of_not_returned calls X hX
  simp only [ProcessRunnerServiceServer.checkOwnership, extractSpiffeIdFromContext,
    injectSpiffeId, h, ne_eq]
  rw [if_pos]
  exact fun h => hI h.symm

/-- C13 does not hold as stated.  On a new server the caller `client1` asks
for the status of the id `never-started`, and asks to stop it; no `Start` has
returned the id and the runner answers `os.ErrNotExist` for it.  Both handlers
return `PermissionDenied`. -/
theorem status_of_unknown_id_is_permission_denied :
    "never-started" ∉ returnedIds [] ∧
    (runner.NewRunner "/tmp/prn-1").Status "never-started" = .error .notExist ∧
    (afterStarts []).Status (runner.NewRunner "/tmp/prn-1")
      (injectSpiffeId Context.background "client1") "never-started"
      = .error .PermissionDenied ∧
    (afterStarts []).Stop (injectSpiffeId Context.background "client1") "never-started"
      (.error .notExist) = .error .PermissionDenied := by
  decide

/-- C13, amended.  For every caller with a non-empty identity and every process
id that no `Start` call has returned, the `Status` and the `Stop` handler
return `PermissionDenied`, whatever the runner holds or answers: the ownership
check precedes the lookup.  The `Status` handler returns `NotFound` exactly
when the ownership check passes and the id is not in the registry of the
runner. -/
theorem unknown_id_permission_denied
    (calls : List (Context × Except runner.Error runner.StartResult)) (ctx : Context)
    (I X : String) (hI : I ≠ "") (hX : X ∉ returnedIds calls) :
    (∀ r : runner.Runner,
      (afterStarts calls).Status r (injectSpiffeId ctx I) X = .error .PermissionDenied) ∧
    (∀ stopResult : Except runner.Error runner.StopResult,
      (afterStarts calls).Stop (injectSpiffeId ctx I) X stopResult
        = .error .PermissionDenied) ∧
    (∀ (s : ProcessRunnerServiceServer) (r : runner.Runner) (ctx' : Context) (id : String),
      s.Status r ctx' id = .error .NotFound ↔
        s.checkOwnership ctx' id = .ok () ∧ r.processes.lookup id = none) := by
  have h := checkOwnership_of_not_returned calls ctx I X hI hX
  refine ⟨?_, ?_, ?_⟩
  · intro r
    simp [ProcessRunnerServiceServer.Status, h]
  · intro stopResult
    simp [ProcessRunnerServiceServer.Stop, h]
  · intro s r ctx' id
    unfold ProcessRunnerServiceServer.Status
    cases hc : s.checkOwnership ctx' id with
    | error code =>
      simp only [reduceCtorEq, false_and, iff_false]
      intro hcode
      unfold ProcessRunnerServiceServer.checkOwnership at hc
      split at hc
      · cases hc; cases hcode
      · dsimp only at hc
        split at hc
        · cases hc; cases hcode
        · cases hc
    | ok u =>
      unfold runner.Runner.Status runner.Runner.getProcess
      cases hl : r.processes.lookup id with
      | none => simp [lookupErrorCode, runner.Error.isNotExist]
      | some pe => simp

theorem unknown_id_permission_denied_witness :
    exampleServer.Status runner.exampleRunner (injectSpiffeId Context.background "client2") "p7"
      = .error .PermissionDenied ∧
    exampleServer.Stop (injectSpiffeId Context.background "client2") "p7" (.error .notExist)
      = .error .PermissionDenied :=
  have h := unknown_id_permission_denied
    [(injectSpiffeId Context.background "client1",
      .ok ⟨"p1", 4242, ⟨.Running, none, 100, none⟩⟩)]
    Context.background "client2" "p7" (by decide) (by decide)
  ⟨h.1 runner.exampleRunner, h.2.1 (.error .notExist)⟩

/-- C14 does not hold as stated.  The runner refuses the empty command with
`command is required`, and the `Start` handler returns `Aborted` for it, which
is not `InvalidArgument`. -/
theorem start_with_empty_command_is_aborted :
    runner.step (runner.NewRunner "/tmp/prn-1") (.start "" [] runner.exampleEnv)
      = some { runner.NewRunner "/tmp/prn-1" with
               calls := [.startDone (.error .commandRequired)] } ∧
    NewProcessRunnerServiceServer.Start (injectSpiffeId Context.background "client1")
      (.error .commandRequired) = (.error .Aborted, NewProcessRunnerServiceServer) ∧
    Code.Aborted ≠ Code.InvalidArgument := by
  decide

/-- C14, amended.  The `Start` handler returns `Aborted` for every error of
`Runner.Start` and leaves the owners as they are; `Runner.Start` returns the
error `command is required` when the command is empty, and the error of
`cmd.Start` when the command is not empty, the working directory and the
process attributes are made, and the spawn fails. -/
theorem start_errors_are_aborted (s : ProcessRunnerServiceServer) (ctx : Context)
    (r : runner.Runner) (command : String) (args : List String) (env : runner.StartEnv) :
    (command = "" →
      runner.step r (.start command args env)
        = some { r with calls := r.calls ++ [.startDone (.error .commandRequired)] }) ∧
    (∀ e, command ≠ "" → env.mkdirErr = none → env.sysProcAttrErr = none →
      env.startErr = some e →
      runner.step r (.start command args env)
        = some { r with calls := r.calls ++ [.startDone (.error e)] }) ∧
    (∀ err, s.Start ctx (.error err) = (.error .Aborted, s)) := by
  refine ⟨?_, ?_, ?_⟩
  · intro hc
    simp [runner.step, runner.startEntry, hc]
  · intro e hc hm hs he
    simp [runner.step, runner.startEntry, hc, hm, hs, he]
  · intro err
    rfl

theorem start_errors_are_aborted_witness :
    runner.step runner.exampleRunner (.start "" [] runner.exampleEnv)
      = some { runner.exampleRunner with
               calls := runner.exampleRunner.calls ++ [.startDone (.error .commandRequired)] } ∧
    runner.step runner.exampleRunner (.start "sleep" ["60"] runner.failingEnv)
      = some runner.exampleFailed ∧
    exampleServer.Start (injectSpiffeId Context.background "client2") (.error .commandRequired)
      = (.error .Aborted, exampleServer) ∧
    exampleServer.Start (injectSpiffeId Context.background "client2") (.error (.os "ENOENT"))
      = (.error .Aborted, exampleServer) :=
  ⟨(start_errors_are_aborted exampleServer Context.background runner.exampleRunner "" []
      runner.exampleEnv).1 rfl,
   (start_errors_are_aborted exampleServer Context.background runner.exampleRunner "sleep" ["60"]
      runner.failingEnv).2.1 (.os "ENOENT") (by decide) rfl rfl rfl,
   (start_errors_are_aborted exampleServer (injectSpiffeId Context.background "client2")
      runner.exampleRunner "" [] runner.exampleEnv).2.2 .commandRequired,
   (start_errors_are_aborted exampleServer (injectSpiffeId Context.background "client2")
      runner.exampleRunner "" [] runner.exampleEnv).2.2 (.os "ENOENT")⟩

/-- C15, at the failing input: every successful call.  The `Start` handler
answers with a fixed initial status: state RUNNING, an exit code that is
present and 0, no start time, no end time.  The wire form of the status that
the runner returned carries the start time of the entry, and for a running
entry no exit code, so that the two differ. -/
theorem start_initial_status_is_fixed (s : ProcessRunnerServiceServer) (ctx : Context)
    (res : runner.StartResult) :
    (s.Start ctx (.ok res)).1 =
      .ok { ProcessIdentifier := res.ID,
            Status := { State := .PROCESS_STATE_RUNNING, ExitCode := some 0, StartTime := none,
                        EndTime := none } } ∧
    (toProtoProcessStatus res.Status).StartTime = some res.Status.StartTime ∧
    toProtoProcessStatus ⟨.Running, none, 100, none⟩ =
      { State := .PROCESS_STATE_RUNNING, ExitCode := none, StartTime := some 100,
        EndTime := none } ∧
    ({ State := .PROCESS_STATE_RUNNING, ExitCode := some 0, StartTime := none,
       EndTime := none } : ProtoProcessStatus) ≠ toProtoProcessStatus res.Status := by
  have hst : (toProtoProcessStatus res.Status).StartTime = some res.Status.StartTime := by
    unfold toProtoProcessStatus
    cases res.Status.ExitCode <;> cases res.Status.EndTime <;> rfl
  refine ⟨?_, hst, ?_, ?_⟩
  · unfold ProcessRunnerServiceServer.Start
    cases extractSpiffeIdFromContext ctx <;> rfl
  · decide
  · intro h
    have := congrArg ProtoProcessStatus.StartTime h
    rw [hst] at this
    cases this

theorem firstSpiffeHost_eq_none {uris : List (Option URL)} :
    firstSpiffeHost uris = none ↔ ∀ uri, some uri ∈ uris → uri.Scheme ≠ "spiffe" := by
  induction uris with
  | nil => simp [firstSpiffeHost]
  | cons u rest ih =>
    cases u with
    | none => simpa [firstSpiffeHost] using ih
    | some uri =>
      by_cases hs : uri.Scheme = "spiffe"
      · simp only [firstSpiffeHost, hs, if_true, reduceCtorEq, false_iff]
        intro h
        exact h uri (by simp) hs
      · simp only [firstSpiffeHost, hs, if_false, ih, List.mem_cons, Option.some.injEq]
        constructor
        · rintro h v (rfl | hv)
          · exact hs
          · exact h v hv
        · intro h v hv
          exact h v (Or.inr hv)

theorem firstSpiffeHost_eq_find (uris : List (Option URL)) :
    firstSpiffeHost uris =
      ((uris.filterMap fun uri => uri).find? fun uri => uri.Scheme = "spiffe").map
        fun uri => uri.Host := by
  induction uris with
  | nil => simp [firstSpiffeHost]
  | cons u rest ih =>
    cases u with
    | none => simpa [firstSpiffeHost] using ih
    | some uri =>
      by_cases hs : uri.Scheme = "spiffe"
      · simp [firstSpiffeHost, hs, List.find?_cons]
      · simp [firstSpiffeHost, hs, List.find?_cons, ih]

theorem extractSpiffeIdFromTls_of_none {ctx : Context} (h : ctx.spiffeId = none) :
    extractSpiffeIdFromTls ctx = specPeerIdentity ctx := by
  unfold extractSpiffeIdFromTls specPeerIdentity leafCertificate extractSpiffeIdFromContext
  rw [h]
  cases hp : ctx.peer with
  | none => rfl
  | some info =>
    cases info with
    | other => rfl
    | tls certs =>
      cases certs with
      | nil => rfl
      | cons c rest =>
        cases c with
        | none => rfl
        | some leaf => simp [firstSpiffeHost_eq_find]

/-- C17.  For every context, `extractSpiffeIdFromTls` returns the identity
injected into the context when there is one, so that for every string `s` it
returns `s` from `injectSpiffeId ctx s`; otherwise it returns the host of the
first URI with scheme `spiffe` among the SANs of the peer leaf certificate,
and nothing when there is no such URI or no leaf certificate. -/
theorem peer_identity (ctx : Context) :
    (∀ s : String, extractSpiffeIdFromTls (injectSpiffeId ctx s) = some s) ∧
    (∀ v : String, extractSpiffeIdFromContext ctx = some v →
      extractSpiffeIdFromTls ctx = some v) ∧
    (extractSpiffeIdFromContext ctx = none →
      extractSpiffeIdFromTls ctx = specPeerIdentity ctx) := by
  refine ⟨?_, ?_, ?_⟩
  · intro s; simp [extractSpiffeIdFromTls, extractSpiffeIdFromContext, injectSpiffeId]
  · intro v hv; simp [extractSpiffeIdFromTls, hv]
  · intro h; exact extractSpiffeIdFromTls_of_none h

theorem peer_identity_witness :
    extractSpiffeIdFromTls (injectSpiffeId client2Context "TEST") = some "TEST" ∧
    extractSpiffeIdFromContext client2Context = none ∧
    extractSpiffeIdFromTls client2Context = some "client2" ∧
    specPeerIdentity client2Context = some "client2" ∧
    extractSpiffeIdFromTls anonymousContext = none :=
  ⟨(peer_identity client2Context).1 "TEST", by decide,
   ((peer_identity client2Context).2.2 (by decide)).trans (by decide), by decide, by decide⟩

/-- C16.  For every context that carries no SPIFFE identity, none injected and
no URI with scheme `spiffe` in the peer leaf certificate: the unary and the
stream interceptor answer `Unauthenticated` and leave the state of the server
as it is, whatever the handler, which is not invoked, and `checkOwnership`
answers `Unauthenticated` on every server and process id. -/
theorem unauthenticated_rejected (ctx : Context)
    (hctx : extractSpiffeIdFromContext ctx = none)
    (hpeer : ∀ leaf, leafCertificate ctx = some leaf →
      ∀ uri, some uri ∈ leaf.URIs → uri.Scheme ≠ "spiffe") :
    (∀ (Req Resp σ : Type) (req : Req) (handler : Context → Req → σ → Except Code Resp × σ)
        (st : σ), injectSpiffeIdUnary ctx req handler st = (.error .Unauthenticated, st)) ∧
    (∀ (Srv σ : Type) (srv : Srv) (handler : Srv → Context → σ → Except Code Unit × σ)
        (st : σ), injectSpiffeIdStream srv ctx handler st = (.error .Unauthenticated, st)) ∧
    (∀ (s : ProcessRunnerServiceServer) (processIdentifier : String),
      s.checkOwnership ctx processIdentifier = .error .Unauthenticated) := by
  have hnone : extractSpiffeIdFromTls ctx = none := by
    rw [extractSpiffeIdFromTls_of_none hctx]
    unfold specPeerIdentity
    cases hl : leafCertificate ctx with
    | none => rfl
    | some leaf =>
      simp only
      rw [← firstSpiffeHost_eq_find]
      exact firstSpiffeHost_eq_none.mpr (hpeer leaf hl)
  refine ⟨?_, ?_, ?_⟩
  · intro Req Resp σ req handler st
    simp [injectSpiffeIdUnary, hnone]
  · intro Srv σ srv handler st
    simp [injectSpiffeIdStream, hnone]
  · intro s id
    simp [ProcessRunnerServiceServer.checkOwnership, hctx]

theorem unauthenticated_rejected_witness :
    extractSpiffeIdFromContext anonymousContext = none ∧
    injectSpiffeIdUnary anonymousContext () countingHandler 0 = (.error .Unauthenticated, 0) ∧
    injectSpiffeIdStream () anonymousContext countingStreamHandler 0
      = (.error .Unauthenticated, 0) ∧
    exampleServer.checkOwnership anonymousContext "p1" = .error .Unauthenticated ∧
    injectSpiffeIdUnary client2Context () countingHandler 0 = (.ok (), 1) :=
  have h := unauthenticated_rejected anonymousContext (by decide)
    (by
      intro leaf hl uri hu
      have : leaf = { URIs := [some ⟨"https", "example.org"⟩] } := by
        simp [leafCertificate, anonymousContext] at hl
        exact hl.symm
      subst this
      simp at hu
      subst hu
      decide)
  ⟨by decide, h.1 Unit Unit Nat () countingHandler 0,
   h.2.1 Unit Nat () countingStreamHandler 0, h.2.2 exampleServer "p1", by decide⟩

end server

/-! # Theorems: cmd/cli -/

namespace cli

open strings

theorem len_pad (s : String) (w : Nat) (h : len s ≤ w) : len (pad s w) = w := by
  unfold pad
  split
  · omega
  · rw [len_append]
    have := len_Repeat_one ' ' (by decide) (w - len s)
    have e : (" " : String) = ⟨[' ']⟩ := rfl
    rw [e, this]
    omega

theorem le_maxInt_right (a b : Nat) : b ≤ maxInt a b := by
  unfold maxInt; split <;> omega

theorem maxInt_eq_max (a b : Nat) : maxInt a b = max a b := by
  unfold maxInt; split <;> omega

theorem linesFrom_line (l rest cur : List Char) (h : '\n' ∉ l) :
    linesFrom (l ++ '\n' :: rest) cur = ⟨cur ++ l⟩ :: linesFrom rest [] := by
  induction l generalizing cur with
  | nil => simp [linesFrom]
  | cons c l ih =>
    have hc : c ≠ '\n' := fun e => h (by simp [e])
    have hl : '\n' ∉ l := fun e => h (List.mem_cons_of_mem _ e)
    show linesFrom (c :: (l ++ '\n' :: rest)) cur = _
    rw [linesFrom, if_neg hc, ih _ hl]
    simp

theorem data_pad (s : String) (w : Nat) :
    (pad s w).data = s.data ++ List.replicate (w - len s) ' ' := by
  unfold pad
  split
  · rename_i h
    rw [Nat.sub_eq_zero_of_le h]
    simp
  · have e : (" " : String) = ⟨[' ']⟩ := rfl
    rw [String.data_append, e, data_Repeat_one]

theorem stateText_no_line_feed (st : Option server.ProtoProcessStatus) :
    '\n' ∉ (stateText st).data := by
  cases st with
  | none => decide
  | some s =>
    simp only [stateText]
    cases s.State <;> decide

theorem printStatusTable_eq (id : String) (st : Option server.ProtoProcessStatus)
    (p : Option server.ProtoProcess) :
    printStatusTable id st p =
      [("+-" ++ Repeat "-" (max 36 (len id)) ++ "-+-" ++ Repeat "-" (max 7 (len (stateText st)))
          ++ "-+-" ++ Repeat "-" (max 7 (len (commandText p))) ++ "-+") ++ "\n",
       ("| " ++ pad "ID" (max 36 (len id)) ++ " | " ++ pad "STATE" (max 7 (len (stateText st)))
          ++ " | " ++ pad "COMMAND" (max 7 (len (commandText p))) ++ " |") ++ "\n",
       ("+-" ++ Repeat "-" (max 36 (len id)) ++ "-+-" ++ Repeat "-" (max 7 (len (stateText st)))
          ++ "-+-" ++ Repeat "-" (max 7 (len (commandText p))) ++ "-+") ++ "\n",
       ("| " ++ pad id (max 36 (len id)) ++ " | "
          ++ pad (stateText st) (max 7 (len (stateText st)))
          ++ " | " ++ pad (commandText p) (max 7 (len (commandText p))) ++ " |") ++ "\n",
       ("+-" ++ Repeat "-" (max 36 (len id)) ++ "-+-" ++ Repeat "-" (max 7 (len (stateText st)))
          ++ "-+-" ++ Repeat "-" (max 7 (len (commandText p))) ++ "-+") ++ "\n"] := by
  have e1 : ("-+\n" : String) = "-+" ++ "\n" := by decide
  have e2 : (" |\n" : String) = " |" ++ "\n" := by decide
  simp only [printStatusTable, maxInt_eq_max, e1, e2, String.append_assoc]

theorem lines_five (a b c d e : String) (ha : '\n' ∉ a.data) (hb : '\n' ∉ b.data)
    (hc : '\n' ∉ c.data) (hd : '\n' ∉ d.data) (he : '\n' ∉ e.data) :
    lines (String.join [a ++ "\n", b ++ "\n", c ++ "\n", d ++ "\n", e ++ "\n"]) =
      [a, b, c, d, e] := by
  have e0 : ("\n" : String).data = ['\n'] := rfl
  have hj : (String.join [a ++ "\n", b ++ "\n", c ++ "\n", d ++ "\n", e ++ "\n"]).data =
      a.data ++ '\n' :: (b.data ++ '\n' :: (c.data ++ '\n' :: (d.data ++ '\n' ::
        (e.data ++ '\n' :: [])))) := by
    simp [String.join, String.data_append, e0]
  unfold lines
  rw [hj, linesFrom_line _ _ _ ha, linesFrom_line _ _ _ hb, linesFrom_line _ _ _ hc,
    linesFrom_line _ _ _ hd, linesFrom_line _ _ _ he]
  simp [linesFrom]

theorem pad_eq (s : String) (w : Nat) :
    pad s w = s ++ ⟨List.replicate (w - s.utf8ByteSize) ' '⟩ := by
  apply String.ext
  rw [data_pad, String.data_append]
  rfl

theorem Repeat_dash (n : Nat) : Repeat "-" n = ⟨List.replicate n '-'⟩ := by
  apply String.ext
  have e : ("-" : String) = ⟨['-']⟩ := rfl
  rw [e, data_Repeat_one]

theorem replicate_no_line_feed (n : Nat) (c : Char) (h : c ≠ '\n') :
    '\n' ∉ List.replicate n c := by
  intro hm
  exact h (List.eq_of_mem_replicate hm).symm

/-- C27 does not hold as stated.  For the process `printf` with the one argument
`a`, line feed, `b`, the command is `printf a`, line feed, `b`:
`strings.TrimSpace` trims at the ends only.  The data row is printed with the
line feed in it, so the table is six lines, of 63, 63, 63, 59, 3 and 63
bytes. -/
theorem row_with_a_line_feed :
    lines (String.join (printStatusTable "p1"
        (some ⟨.PROCESS_STATE_RUNNING, none, some 100, none⟩)
        (some ⟨"printf", ["a\nb"]⟩))) =
      ["+--------------------------------------+---------+------------+",
       "| ID                                   | STATE   | COMMAND    |",
       "+--------------------------------------+---------+------------+",
       "| p1                                   | Running | printf a",
       "b |",
       "+--------------------------------------+---------+------------+"] ∧
    (lines (String.join (printStatusTable "p1"
        (some ⟨.PROCESS_STATE_RUNNING, none, some 100, none⟩)
        (some ⟨"printf", ["a\nb"]⟩)))).map String.utf8ByteSize = [63, 63, 63, 59, 3, 63] := by
  decide

/-- C27, amended.  For every id, status and process (a nil pointer is `none`;
strings are valid UTF-8 and lengths are in bytes, as Go `len`).
`printStatusTable` prints five strings, each with a line feed at its end:
separator, header, separator, data row, separator.  Without that line feed
all three have the same length, the sum of the three column widths
`max(36, len(id))`, `max(7, len(state))`, `max(7, len(command))` and 10.  The
separator is dashes between `+`, and the data row is
`| id | state | command |` with blanks after each field up to its column
width, as `pad` gives them.  When neither the id nor the command holds a line
feed, what is printed is five lines.  The state of a status is `Running`,
`Stopped`, or `Unknown` for any other state.  The command of a process is its
program and arguments joined by single blanks, without the white space at the
two ends of that text and with nothing else removed; white space is what Go
`unicode.IsSpace` accepts, given by code point.  A nil status or process gives
the empty text. -/
theorem status_table (id : String) (st : Option server.ProtoProcessStatus)
    (p : Option server.ProtoProcess) :
    ∃ sep header row : String,
      printStatusTable id st p =
        [sep ++ "\n", header ++ "\n", sep ++ "\n", row ++ "\n", sep ++ "\n"] ∧
      sep = "+-" ++ ⟨List.replicate (max 36 id.utf8ByteSize) '-'⟩ ++ "-+-"
        ++ ⟨List.replicate (max 7 (stateText st).utf8ByteSize) '-'⟩ ++ "-+-"
        ++ ⟨List.replicate (max 7 (commandText p).utf8ByteSize) '-'⟩ ++ "-+" ∧
      header = "| " ++ "ID" ++ ⟨List.replicate (max 36 id.utf8ByteSize - 2) ' '⟩ ++ " | "
        ++ "STATE" ++ ⟨List.replicate (max 7 (stateText st).utf8ByteSize - 5) ' '⟩ ++ " | "
        ++ "COMMAND" ++ ⟨List.replicate (max 7 (commandText p).utf8ByteSize - 7) ' '⟩ ++ " |" ∧
      row = "| " ++ id ++ ⟨List.replicate (max 36 id.utf8ByteSize - id.utf8ByteSize) ' '⟩
        ++ " | " ++ stateText st
        ++ ⟨List.replicate
            (max 7 (stateText st).utf8ByteSize - (stateText st).utf8ByteSize) ' '⟩
        ++ " | " ++ commandText p
        ++ ⟨List.replicate
            (max 7 (commandText p).utf8ByteSize - (commandText p).utf8ByteSize) ' '⟩
        ++ " |" ∧
      row = "| " ++ pad id (max 36 (len id)) ++ " | "
        ++ pad (stateText st) (max 7 (len (stateText st))) ++ " | "
        ++ pad (commandText p) (max 7 (len (commandText p))) ++ " |" ∧
      sep.utf8ByteSize = max 36 id.utf8ByteSize + max 7 (stateText st).utf8ByteSize
        + max 7 (commandText p).utf8ByteSize + 10 ∧
      header.utf8ByteSize = sep.utf8ByteSize ∧ row.utf8ByteSize = sep.utf8ByteSize ∧
      ('\n' ∉ id.data → '\n' ∉ (commandText p).data →
        lines (String.join (printStatusTable id st p)) = [sep, header, sep, row, sep]) ∧
      (∀ (s : String) (w : Nat),
        pad s (max w (len s)) = s ++ ⟨List.replicate (max w (len s) - s.utf8ByteSize) ' '⟩ ∧
        (pad s (max w (len s))).utf8ByteSize = max w s.utf8ByteSize) ∧
      (∀ s : server.ProtoProcessStatus,
        stateText (some s) =
          if s.State = .PROCESS_STATE_RUNNING then "Running"
          else if s.State = .PROCESS_STATE_STOPPED then "Stopped" else "Unknown") ∧
      (∀ q : server.ProtoProcess, ∃ pre post : List Char,
        (" ".intercalate (q.Command :: q.Args)).data =
          pre ++ (commandText (some q)).data ++ post ∧
        (∀ c ∈ pre, unicode.IsSpace c = true) ∧ (∀ c ∈ post, unicode.IsSpace c = true) ∧
        (∀ c, (commandText (some q)).data.head? = some c → unicode.IsSpace c = false) ∧
        (∀ c, (commandText (some q)).data.getLast? = some c → unicode.IsSpace c = false)) ∧
      (∀ c : Char, unicode.IsSpace c = true ↔
        c.toNat ∈ [9, 10, 11, 12, 13, 32, 0x85, 0xA0, 0x1680, 0x2000, 0x2001, 0x2002, 0x2003,
          0x2004, 0x2005, 0x2006, 0x2007, 0x2008, 0x2009, 0x200A, 0x2028, 0x2029, 0x202F,
          0x205F, 0x3000]) ∧
      stateText none = "" ∧ commandText none = "" := by
  have hlen : ∀ s : String, len s = s.utf8ByteSize := fun _ => rfl
  have e : ("-" : String) = ⟨['-']⟩ := rfl
  have hc : len "| " = 2 ∧ len " | " = 3 ∧ len " |" = 2 ∧ len "+-" = 2 ∧ len "-+-" = 3
      ∧ len "-+" = 2 := by decide
  have hsep : len ("+-" ++ Repeat "-" (max 36 (len id)) ++ "-+-"
      ++ Repeat "-" (max 7 (len (stateText st)))
      ++ "-+-" ++ Repeat "-" (max 7 (len (commandText p))) ++ "-+") =
      max 36 (len id) + max 7 (len (stateText st)) + max 7 (len (commandText p)) + 10 := by
    simp only [len_append]
    rw [e, len_Repeat_one '-' (by decide), len_Repeat_one '-' (by decide),
      len_Repeat_one '-' (by decide)]
    omega
  refine ⟨_, _, _, printStatusTable_eq id st p, ?_, ?_, ?_, rfl, hsep, ?_, ?_, ?_, ?_, ?_, ?_,
    unicode.IsSpace_iff, rfl, rfl⟩
  · simp only [Repeat_dash, hlen]
  · simp only [pad_eq, hlen, String.append_assoc]
    rfl
  · simp only [pad_eq, hlen, String.append_assoc]
  · show len _ = len _
    rw [hsep]
    simp only [len_append]
    rw [len_pad _ _ (le_trans (by decide) (le_max_left 36 _)),
      len_pad _ _ (le_trans (by decide) (le_max_left 7 _)),
      len_pad _ _ (le_trans (by decide) (le_max_left 7 _))]
    omega
  · show len _ = len _
    rw [hsep]
    simp only [len_append]
    rw [len_pad _ _ (le_max_right 36 _), len_pad _ _ (le_max_right 7 _),
      len_pad _ _ (le_max_right 7 _)]
    omega
  · intro hid hcmd
    rw [printStatusTable_eq]
    have hs : '\n' ∉ ("+-" ++ Repeat "-" (max 36 (len id)) ++ "-+-"
        ++ Repeat "-" (max 7 (len (stateText st)))
        ++ "-+-" ++ Repeat "-" (max 7 (len (commandText p))) ++ "-+").data := by
      simp only [Repeat_dash, String.data_append, List.mem_append, not_or]
      refine ⟨⟨⟨⟨⟨⟨by decide, ?_⟩, by decide⟩, ?_⟩, by decide⟩, ?_⟩, by decide⟩ <;>
        exact replicate_no_line_feed _ _ (by decide)
    apply lines_five _ _ _ _ _ hs _ hs _ hs
    · simp only [data_pad, String.data_append, List.mem_append, not_or]
      refine ⟨⟨⟨⟨⟨⟨by decide, by decide, ?_⟩, by decide⟩, by decide, ?_⟩, by decide⟩,
        by decide, ?_⟩, by decide⟩ <;>
        exact replicate_no_line_feed _ _ (by decide)
    · simp only [data_pad, String.data_append, List.mem_append, not_or]
      refine ⟨⟨⟨⟨⟨⟨by decide, hid, ?_⟩, by decide⟩, stateText_no_line_feed st, ?_⟩,
        by decide⟩, hcmd, ?_⟩, by decide⟩ <;>
        exact replicate_no_line_feed _ _ (by decide)
  · intro s w
    exact ⟨pad_eq _ _, len_pad _ _ (le_max_right _ _)⟩
  · intro s
    simp only [stateText]
    cases h : s.State <;> simp
  · intro q
    exact TrimSpace_trims _

/-- The table of a stopped process is five lines of one length. -/
theorem status_table_witness :
    '\n' ∉ ("p1" : String).data ∧
    '\n' ∉ (commandText (some ⟨"sh", ["-c", "exit 3"]⟩)).data ∧
    ∃ sep header row : String,
      lines (String.join (printStatusTable "p1"
        (some ⟨.PROCESS_STATE_STOPPED, some 3, some 100, some 107⟩)
        (some ⟨"sh", ["-c", "exit 3"]⟩))) = [sep, header, sep, row, sep] ∧
      header.utf8ByteSize = sep.utf8ByteSize ∧ row.utf8ByteSize = sep.utf8ByteSize := by
  obtain ⟨sep, header, row, -, -, -, -, -, -, h1, h2, h3, -⟩ :=
    status_table "p1" (some ⟨.PROCESS_STATE_STOPPED, some 3, some 100, some 107⟩)
      (some ⟨"sh", ["-c", "exit 3"]⟩)
  exact ⟨by decide, by decide, sep, header, row, h3 (by decide) (by decide), h1, h2⟩

/-- The command of a process whose program and last argument have white space
at their outer ends. -/
theorem commandText_example :
    commandText (some ⟨" sh", ["-c", "exit 3\n"]⟩) = "sh -c exit 3" := by
  decide

/-- The table of a stopped process, as `TestE2E_StartStatusStop` reads it. -/
theorem printStatusTable_example :
    printStatusTable "p1" (some ⟨.PROCESS_STATE_STOPPED, some 3, some 100, some 107⟩)
        (some ⟨"sh", ["-c", "exit 3"]⟩) =
      ["+--------------------------------------+---------+--------------+\n",
       "| ID                                   | STATE   | COMMAND      |\n",
       "+--------------------------------------+---------+--------------+\n",
       "| p1                                   | Stopped | sh -c exit 3 |\n",
       "+--------------------------------------+---------+--------------+\n"] := by
  decide

end cli
